import Mathlib

set_option autoImplicit false

/-!
# Order service: write path, idempotency and outbox

A shallow embedding of the Go order-management service.  Every function that
touches a store, a cache or the broker takes the current `World` and returns
the new one together with its Go result: `Option GoError` for a function that
returns `error`, `Except GoError α` for a function that returns `(α, error)`,
and the value behind a pointer that the function mutates is returned with it.

How the surroundings of the process are modelled:

* Go `int` and `Amount` are integers; the arithmetic done in Go (`Add`,
  `Multiply`, the negation in `DeductStock`) is reduced to the signed 64-bit
  range by `wrapInt`.  The arithmetic done by the database (`$inc`, `$gte`) is
  exact.
* The database is four collections keyed by object id; a session transaction
  restores the database when its callback or its commit fails.
* The two caches are key-value maps.  The process itself never expires an
  entry: what other requests and expiry do to the idempotency cache while a
  `Claim` waits comes with the ticks of its polling loop (`Wake.tick`), and
  `IdemAction` has expiry as a step of its own.
* The select loop of `waitForCompletion` runs over the list of its wake-ups;
  the timer fires in the end, so a list that runs out reads as the timeout.
* The rate limiter has a store of its own (`Redis`): counters with a time to
  live, a clock reading in milliseconds passed to each call, and the Lua
  script run as one step.
* Every call that leaves the process is appended to `World.log`, and
  `World.fail` tells whether it fails (a network or driver error), so that the
  statements can quantify over every behaviour of the infrastructure.
* An HTTP response is its status code and its JSON body (`Response`); the
  controllers take the path id and what the binder made of the request body.
* `time.Now()` reads `World.clock`; new object ids come from `World.nextID`.
* Logging has no effect on results and is left out.
-/

namespace Challenge

/-! ## Go values -/

/-- Go `int` on the 64-bit targets the service is built for: the value of an
integer expression is its two's-complement reduction to the signed 64-bit range. -/
def wrapInt (x : Int) : Int := Int.bmod x (2 ^ 64)

/-- The smallest Go `int`. -/
def minInt : Int := -(2 ^ 63)

/-- The largest Go `int`. -/
def maxInt : Int := 2 ^ 63 - 1

/-- serviceerrors.ErrorKind -/
inductive ErrorKind
  | KindNotFound
  | KindConflict
  | KindUnprocessableEntity
  | KindInvalidRequest
  deriving DecidableEq, Repr

/-- Go `error` values that occur in the service: a `*ServiceError`, the driver
sentinel `mongo.ErrNoDocuments`, a driver duplicate-key write error, any other
error value identified by its text, and `fmt.Errorf("<pfx>: %w", inner)`. -/
inductive GoError
  | service (Kind : ErrorKind) (Message : String)
  | errNoDocuments
  | duplicateKey (msg : String)
  | plain (msg : String)
  | wrapped (pfx : String) (inner : GoError)
  deriving DecidableEq, Repr

def NewNotFoundError (message : String) : GoError := .service .KindNotFound message

def NewConflictError (message : String) : GoError := .service .KindConflict message

def NewUnprocessableEntityError (message : String) : GoError :=
  .service .KindUnprocessableEntity message

def NewInvalidRequestError (message : String) : GoError := .service .KindInvalidRequest message

/-- The method `Error()` of an error value. -/
def GoError.Error : GoError → String
  | .service _ m => m
  | .errNoDocuments => "mongo: no documents in result"
  | .duplicateKey m => m
  | .plain m => m
  | .wrapped p e => p ++ ": " ++ e.Error

/-- Go `errors.As(err, &svcErr)`: the first `*ServiceError` on the unwrap chain. -/
def GoError.asService : GoError → Option (ErrorKind × String)
  | .service k m => some (k, m)
  | .wrapped _ e => e.asService
  | _ => none

def IsOfKind (err : GoError) (kind : ErrorKind) : Bool :=
  match err.asService with
  | some (k, _) => k == kind
  | none => false

/-- Go `errors.Is(err, mongo.ErrNoDocuments)`. -/
def GoError.isNoDocuments : GoError → Bool
  | .errNoDocuments => true
  | .wrapped _ e => e.isNoDocuments
  | _ => false

/-- The driver function `mongo.IsDuplicateKeyError`. -/
def GoError.isDuplicateKey : GoError → Bool
  | .duplicateKey _ => true
  | .wrapped _ e => e.isDuplicateKey
  | _ => false

/-- Go `strings.Contains` on the characters of two strings. -/
def containsSub (s sub : List Char) : Bool :=
  s.tails.any (fun t => sub.isPrefixOf t)

/-! ## Domain model (`internal/core/domain`, `internal/core/dto`) -/

abbrev ID := String

abbrev Amount := Int

def Amount.Add (a b : Amount) : Amount := wrapInt (a + b)

def Amount.Multiply (a : Amount) (b : Int) : Amount := wrapInt (a * b)

abbrev OrderStatus := String

def OrderStatusCreated : OrderStatus := "created"

def OrderStatusProcessing : OrderStatus := "processing"

def OrderStatusShipped : OrderStatus := "shipped"

def OrderStatusDelivered : OrderStatus := "delivered"

def OrderStatusCancelled : OrderStatus := "cancelled"

def OrderStatus.IsValid (s : OrderStatus) : Bool :=
  s == OrderStatusCreated || s == OrderStatusProcessing || s == OrderStatusShipped
    || s == OrderStatusDelivered || s == OrderStatusCancelled

/-- A `time.Time`, as a reading of the clock. -/
abbrev Time := Nat

structure OrderItem where
  ID : Challenge.ID
  ProductID : Challenge.ID
  ProductName : String
  Quantity : Int
  UnitPrice : Amount
  deriving DecidableEq, Repr

structure Order where
  ID : Challenge.ID
  CustomerID : Challenge.ID
  Items : List OrderItem
  Status : OrderStatus
  CreatedAt : Time
  UpdatedAt : Time
  TotalAmount : Amount
  deriving DecidableEq, Repr

structure Product where
  ID : Challenge.ID
  Name : String
  Description : String
  Price : Amount
  Stock : Int
  CreatedAt : Time
  UpdatedAt : Time
  deriving DecidableEq, Repr

def NewOrderItem (productID : ID) (productName : String) (quantity : Int)
    (unitPrice : Amount) : OrderItem :=
  { ID := "", ProductID := productID, ProductName := productName,
    Quantity := quantity, UnitPrice := unitPrice }

/-- The loop of `CalculateTotalAmount`, with its accumulator. -/
def CalculateTotalAmount.loop : Amount → List OrderItem → Amount
  | totalAmount, [] => totalAmount
  | totalAmount, item :: rest =>
    CalculateTotalAmount.loop
      (Amount.Add totalAmount (Amount.Multiply item.UnitPrice item.Quantity)) rest

def CalculateTotalAmount (items : List OrderItem) : Amount :=
  CalculateTotalAmount.loop 0 items

def NewOrder (now : Time) (customerID : ID) (status : OrderStatus)
    (items : List OrderItem) : Order :=
  { ID := "", CustomerID := customerID, Items := items, Status := status,
    CreatedAt := now, UpdatedAt := now, TotalAmount := CalculateTotalAmount items }

structure OrderUpdateStatusEvent where
  OrderID : ID
  Status : OrderStatus
  OldStatus : OrderStatus
  UpdatedAt : Time
  CustomerID : ID
  deriving DecidableEq, Repr

def OrderUpdateStatusEvent.GetName (_e : OrderUpdateStatusEvent) : String :=
  "order.update_status"

def OrderUpdateStatusEvent.GetEntityName (_e : OrderUpdateStatusEvent) : String := "order"

def NewOrderUpdateStatusEvent (orderID : ID) (status oldStatus : OrderStatus)
    (updatedAt : Time) (customerID : ID) : OrderUpdateStatusEvent :=
  { OrderID := orderID, Status := status, OldStatus := oldStatus,
    UpdatedAt := updatedAt, CustomerID := customerID }

/-- dto.OrderItem -/
structure DtoOrderItem where
  ProductID : ID
  Quantity : Int
  deriving DecidableEq, Repr

structure CreateOrderRequest where
  CustomerID : ID
  Items : List DtoOrderItem
  deriving DecidableEq, Repr

/-- A JSON document, as produced by `json.Marshal` from the struct tags. -/
inductive JSON
  | str (s : String)
  | time (t : Time)
  | obj (fields : List (String × JSON))
  deriving Repr

/-- Go `json.Marshal` of an `OrderUpdateStatusEvent`: the fields in declaration
order under their `json` tags. -/
def OrderUpdateStatusEvent.marshal (e : OrderUpdateStatusEvent) : JSON :=
  .obj [("order_id", .str e.OrderID), ("status", .str e.Status),
        ("old_status", .str e.OldStatus), ("updated_at", .time e.UpdatedAt),
        ("customer_id", .str e.CustomerID)]

/-- The value of a field of a JSON object. -/
def JSON.field (j : JSON) (name : String) : Option JSON :=
  match j with
  | .obj fields => (fields.find? (fun p => p.1 == name)).map (fun p => p.2)
  | _ => none

/-! ## Storage documents (`internal/adapters/mongo/document`) -/

/-- A `primitive.ObjectID`, written as its 24 lower-case hexadecimal digits. -/
abbrev ObjectID := String

def NilObjectID : ObjectID := "000000000000000000000000"

def isHexChar (c : Char) : Bool :=
  ('0' ≤ c && c ≤ '9') || ('a' ≤ c && c ≤ 'f') || ('A' ≤ c && c ≤ 'F')

/-- The driver sentinel `primitive.ErrInvalidHex`. -/
def ErrInvalidHex : GoError := .plain "the provided hex string is not a valid ObjectID"

/-- The driver function `primitive.ObjectIDFromHex`: a string whose length in
bytes is not 24 gives `ErrInvalidHex`, a 24-byte string with a byte that is
not a hexadecimal digit gives the error of `hex.Decode`, whose text is kept up
to the offending byte, which the decoder appends. -/
def ObjectIDFromHex (s : String) : Except GoError ObjectID :=
  if s.utf8ByteSize ≠ 24 then .error ErrInvalidHex
  else if s.data.all isHexChar then .ok (String.mk (s.data.map Char.toLower))
  else .error (.plain "encoding/hex: invalid byte")

def hexDigits : List Char := "0123456789abcdef".data

/-- The n-th object id handed out by the id generator. -/
def ObjectID.ofNat (n : Nat) : ObjectID :=
  String.mk ((List.range 24).map (fun i => hexDigits.getD (n / 16 ^ (23 - i) % 16) '0'))

structure ProductDocument where
  ID : ObjectID
  Name : String
  Description : String
  Price : Int
  Stock : Int
  CreatedAt : Time
  UpdatedAt : Time
  deriving DecidableEq, Repr

def ProductDocument.ToDomain (doc : ProductDocument) : Product :=
  { ID := doc.ID, Name := doc.Name, Description := doc.Description, Price := doc.Price,
    Stock := doc.Stock, CreatedAt := doc.CreatedAt, UpdatedAt := doc.UpdatedAt }

structure OrderItemDocument where
  ID : ObjectID
  ProductID : ObjectID
  ProductName : String
  Quantity : Int
  UnitPrice : Int
  deriving DecidableEq, Repr

structure OrderDocument where
  ID : ObjectID
  CustomerID : ObjectID
  Items : List OrderItemDocument
  Status : String
  TotalAmount : Int
  CreatedAt : Time
  UpdatedAt : Time
  deriving DecidableEq, Repr

def OrderItemDocument.ToDomain (itemDoc : OrderItemDocument) : OrderItem :=
  { ID := itemDoc.ID, ProductID := itemDoc.ProductID, ProductName := itemDoc.ProductName,
    Quantity := itemDoc.Quantity, UnitPrice := itemDoc.UnitPrice }

def OrderDocument.ToDomain (doc : OrderDocument) : Order :=
  { ID := doc.ID, CustomerID := doc.CustomerID,
    Items := doc.Items.map OrderItemDocument.ToDomain, Status := doc.Status,
    TotalAmount := doc.TotalAmount, CreatedAt := doc.CreatedAt, UpdatedAt := doc.UpdatedAt }

structure CustomerDocument where
  ID : ObjectID
  deriving DecidableEq, Repr

structure OutboxDocument where
  ID : ObjectID
  EventName : String
  EntityName : String
  EventData : JSON
  CreatedAt : Time

/-- outbox.Entry; the bytes of `EventData` are written as the JSON document they encode. -/
structure Entry where
  ID : String
  EventName : String
  EntityName : String
  EventData : JSON

/-! ## The world outside the process -/

/-- The four collections of the database. -/
structure DB where
  products : ObjectID → Option ProductDocument
  orders : ObjectID → Option OrderDocument
  customers : ObjectID → Option CustomerDocument
  outbox : List OutboxDocument

/-- A key-value map with one key rebound. -/
def setKey {V : Type} (m : String → Option V) (k : String) (v : Option V) :
    String → Option V :=
  fun x => if x = k then v else m x

/-- A value held by the key-value store, with the time to live it was written with. -/
structure Cached (V : Type) where
  value : V
  ttl : Nat

abbrev Cache (V : Type) := String → Option (Cached V)

/-- service.IdempotencyEntry, at the one type the service uses it with (`domain.Order`). -/
structure IdempotencyEntry where
  Status : String
  PayloadHash : String
  Result : Option Order
  deriving DecidableEq, Repr

def IdempotencyProcessing : String := "processing"

def IdempotencyCompleted : String := "completed"

inductive Coll
  | products
  | orders
  | customers
  | outbox
  deriving DecidableEq, Repr

inductive CacheName
  | order
  | idempotency
  deriving DecidableEq, Repr

/-- The calls that leave the process: a driver call on a collection, the start
and the commit of a session transaction, a command on one of the two caches. -/
inductive ExtCall
  | findOne (c : Coll)
  | insertOne (c : Coll)
  | updateOne (c : Coll)
  | findOneAndUpdate (c : Coll)
  | deleteOne (c : Coll)
  | startSession
  | commit
  | cacheGet (c : CacheName)
  | cacheSet (c : CacheName)
  | cacheSetNX (c : CacheName)
  | cacheDel (c : CacheName)
  deriving DecidableEq, Repr

/-- The database, the two caches, the clock, the id generator, the external
calls made so far, and the behaviour of the infrastructure: `fail n c` is the
error text with which external call number `n` fails when it is the call `c`,
or `none` when it goes through. -/
structure World where
  db : DB
  orderCache : Cache Order
  idemCache : Cache IdempotencyEntry
  clock : Time
  nextID : Nat
  log : List ExtCall
  fail : Nat → ExtCall → Option String

/-- One external call: it fails or not as the infrastructure decides, and is logged. -/
def World.call (w : World) (c : ExtCall) : Option GoError × World :=
  ((w.fail w.log.length c).map GoError.plain, { w with log := w.log ++ [c] })

/-- A fresh object id from the generator (`primitive.NewObjectID`, or the id the
driver gives a document inserted without one). -/
def World.newObjectID (w : World) : ObjectID × World :=
  (ObjectID.ofNat w.nextID, { w with nextID := w.nextID + 1 })

/-- The driver session method `WithTransaction`: the writes of `fn` are
kept when `fn` and the commit succeed and undone otherwise.  `st` is the Go
state captured by the closure, which no rollback restores. -/
def sessionWithTransaction {σ : Type} (st : σ)
    (fn : σ → World → (Option GoError × σ) × World) (w : World) :
    (Option GoError × σ) × World :=
  match fn st w with
  | ((some e, st1), w1) => ((some e, st1), { w1 with db := w.db })
  | ((none, st1), w1) =>
    match w1.call .commit with
    | (some e, w2) => ((some e, st1), { w2 with db := w.db })
    | (none, w2) => ((none, st1), w2)

/-- TransactionManager.WithTransaction (`internal/adapters/mongo/transaction.go`). -/
def TransactionManager.WithTransaction {σ : Type} (st : σ)
    (fn : σ → World → (Option GoError × σ) × World) (w : World) :
    (Option GoError × σ) × World :=
  match w.call .startSession with
  | (some e, w1) => ((some e, st), w1)
  | (none, w1) => sessionWithTransaction st fn w1

/-! ## Repositories (`internal/adapters/mongo/repository`) -/

def isInvalidObjectIDError (err : GoError) : Bool :=
  containsSub err.Error.data "not a valid ObjectID".data

def parseError (err : GoError) : GoError :=
  if err.isNoDocuments then NewNotFoundError "entity not found"
  else if err.isDuplicateKey then NewConflictError "duplicate key error"
  else if isInvalidObjectIDError err then NewInvalidRequestError "invalid ID format"
  else err

/-- BaseRepository.FindByID on the collection `c`, read from the database by `get`. -/
def BaseRepository.FindByID {T : Type} (c : Coll) (get : DB → ObjectID → Option T)
    (id : String) (w : World) : Except GoError T × World :=
  match ObjectIDFromHex id with
  | .error err => (.error (parseError err), w)
  | .ok objectID =>
    match w.call (.findOne c) with
    | (some err, w1) => (.error (parseError err), w1)
    | (none, w1) =>
      match get w1.db objectID with
      | none => (.error (parseError .errNoDocuments), w1)
      | some entity => (.ok entity, w1)

def ProductRepository.GetByID (id : ID) (w : World) : Except GoError Product × World :=
  match BaseRepository.FindByID .products DB.products id w with
  | (.error err, w1) => (.error err, w1)
  | (.ok doc, w1) => (.ok doc.ToDomain, w1)

/-- ProductRepository.DeductStock: one `FindOneAndUpdate` with the filter
`{_id, stock: {$gte: quantity}}` and the update `{$inc: {stock: -quantity}}`. -/
def ProductRepository.DeductStock (id : ID) (quantity : Int) (w : World) :
    Option GoError × World :=
  match ObjectIDFromHex id with
  | .error err => (some (parseError err), w)
  | .ok objectID =>
    match w.call (.findOneAndUpdate .products) with
    | (some err, w1) => (some err, w1)
    | (none, w1) =>
      match w1.db.products objectID with
      | none =>
        (some (NewUnprocessableEntityError ("insufficient stock for product " ++ id)), w1)
      | some doc =>
        if quantity ≤ doc.Stock then
          let updated : ProductDocument :=
            { doc with Stock := doc.Stock + wrapInt (-quantity) }
          let db1 : DB :=
            { w1.db with products := setKey w1.db.products objectID (some updated) }
          (none, { w1 with db := db1 })
        else
          (some (NewUnprocessableEntityError ("insufficient stock for product " ++ id)), w1)

def CustomerRepository.Exists (id : ID) (w : World) : Except GoError Bool × World :=
  match BaseRepository.FindByID .customers DB.customers id w with
  | (.error err, w1) => (.error (parseError err), w1)
  | (.ok _, w1) => (.ok true, w1)

/-- The id a Go id string converts to in `ToDocument`: the parse error is
dropped, which leaves the zero object id. -/
def objectIDOrNil (id : ID) : ObjectID :=
  match ObjectIDFromHex id with
  | .ok objectID => objectID
  | .error _ => NilObjectID

/-- The loop of `document.ToDocument` over the items. -/
def ToDocument.items : List OrderItem → World → List OrderItemDocument × World
  | [], w => ([], w)
  | item :: rest, w =>
    let r := if item.ID ≠ "" then (objectIDOrNil item.ID, w) else w.newObjectID
    let productID := if item.ProductID ≠ "" then objectIDOrNil item.ProductID else NilObjectID
    let itemDoc : OrderItemDocument :=
      { ID := r.1, ProductID := productID, ProductName := item.ProductName,
        Quantity := item.Quantity, UnitPrice := item.UnitPrice }
    let rs := ToDocument.items rest r.2
    (itemDoc :: rs.1, rs.2)

def ToDocument (order : Order) (w : World) : OrderDocument × World :=
  let rs := ToDocument.items order.Items w
  ({ ID := if order.ID ≠ "" then objectIDOrNil order.ID else NilObjectID,
     CustomerID := if order.CustomerID ≠ "" then objectIDOrNil order.CustomerID else NilObjectID,
     Items := rs.1, Status := order.Status, TotalAmount := order.TotalAmount,
     CreatedAt := order.CreatedAt, UpdatedAt := order.UpdatedAt }, rs.2)

/-- OrderRepository.Create; the second component of the result is the order
behind the pointer after the call.  The inserted document has no id of its own,
so the driver gives it a fresh one; an id already taken is a duplicate key. -/
def OrderRepository.Create (order : Order) (w : World) : (Option GoError × Order) × World :=
  if order.ID ≠ "" then ((some (.plain "cannot create order with existing ID"), order), w)
  else
    let rd := ToDocument order w
    let w1 := rd.2
    let doc : OrderDocument := { rd.1 with CreatedAt := w1.clock, UpdatedAt := w1.clock }
    match w1.call (.insertOne .orders) with
    | (some err, w2) => ((some (parseError err), order), w2)
    | (none, w2) =>
      let rid := w2.newObjectID
      let w3 := rid.2
      match w3.db.orders rid.1 with
      | some _ => ((some (parseError (.duplicateKey "E11000 duplicate key error")), order), w3)
      | none =>
        let stored : OrderDocument := { doc with ID := rid.1 }
        let db1 : DB := { w3.db with orders := setKey w3.db.orders rid.1 (some stored) }
        let order1 : Order :=
          { order with
            ID := rid.1, CreatedAt := doc.CreatedAt, UpdatedAt := doc.UpdatedAt,
            Items := List.zipWith (fun (item : OrderItem) (d : OrderItemDocument) =>
              { item with ID := d.ID }) order.Items doc.Items }
        ((none, order1), { w3 with db := db1 })

def OrderRepository.GetByID (id : ID) (w : World) : Except GoError Order × World :=
  match BaseRepository.FindByID .orders DB.orders id w with
  | (.error err, w1) => (.error err, w1)
  | (.ok doc, w1) => (.ok doc.ToDomain, w1)

/-- OutboxRepository.Insert -/
def OutboxRepository.Insert (entry : Entry) (w : World) : Option GoError × World :=
  match w.call (.insertOne .outbox) with
  | (some err, w1) => (some err, w1)
  | (none, w1) =>
    let rid := w1.newObjectID
    let doc : OutboxDocument :=
      { ID := rid.1, EventName := entry.EventName, EntityName := entry.EntityName,
        EventData := entry.EventData, CreatedAt := w1.clock }
    let db1 : DB := { rid.2.db with outbox := rid.2.db.outbox ++ [doc] }
    (none, { rid.2 with db := db1 })

/-- The closure that `UpdateStatusWithOutbox` hands to the session transaction. -/
def OrderRepository.UpdateStatusWithOutbox.body (objectID : ObjectID) (status : OrderStatus)
    (event : OrderUpdateStatusEvent) (eventData : JSON) (_st : Unit) (w : World) :
    (Option GoError × Unit) × World :=
  match w.call (.updateOne .orders) with
  | (some err, w1) => ((some (parseError err), ()), w1)
  | (none, w1) =>
    match w1.db.orders objectID with
    | none => ((some (NewNotFoundError "entity not found"), ()), w1)
    | some doc =>
      let updated : OrderDocument := { doc with Status := status, UpdatedAt := w1.clock }
      let db1 : DB := { w1.db with orders := setKey w1.db.orders objectID (some updated) }
      let entry : Entry :=
        { ID := "", EventName := event.GetName, EntityName := event.GetEntityName,
          EventData := eventData }
      match OutboxRepository.Insert entry { w1 with db := db1 } with
      | (some err, w2) => ((some err, ()), w2)
      | (none, w2) => ((none, ()), w2)

def OrderRepository.UpdateStatusWithOutbox (id : ID) (status : OrderStatus)
    (event : OrderUpdateStatusEvent) (w : World) : Option GoError × World :=
  match ObjectIDFromHex id with
  | .error err => (some (parseError err), w)
  | .ok objectID =>
    let eventData := event.marshal
    match w.call .startSession with
    | (some err, w1) => (some err, w1)
    | (none, w1) =>
      match sessionWithTransaction ()
          (OrderRepository.UpdateStatusWithOutbox.body objectID status event eventData) w1 with
      | ((err, _), w2) => (err, w2)

/-! ## Cache adapter (`internal/adapters/redis/cache.go`) -/

/-- One `redis.Cache[T]`: its name and where the world keeps its content.  Each
cache has a key prefix of its own, so the two caches never share a key. -/
structure CacheRef (V : Type) where
  name : CacheName
  get : World → Cache V
  set : World → Cache V → World

def orderCacheRef : CacheRef Order :=
  { name := .order, get := World.orderCache, set := fun w c => { w with orderCache := c } }

def idemCacheRef : CacheRef IdempotencyEntry :=
  { name := .idempotency, get := World.idemCache, set := fun w c => { w with idemCache := c } }

def RedisCache.Get {V : Type} (r : CacheRef V) (id : String) (w : World) :
    Except GoError (Option V) × World :=
  match w.call (.cacheGet r.name) with
  | (some err, w1) => (.error err, w1)
  | (none, w1) => (.ok ((r.get w1 id).map (fun c => c.value)), w1)

def RedisCache.Set {V : Type} (r : CacheRef V) (id : String) (value : V) (ttl : Nat)
    (w : World) : Option GoError × World :=
  match w.call (.cacheSet r.name) with
  | (some err, w1) => (some err, w1)
  | (none, w1) => (none, r.set w1 (setKey (r.get w1) id (some { value := value, ttl := ttl })))

def RedisCache.SetNX {V : Type} (r : CacheRef V) (id : String) (value : V) (ttl : Nat)
    (w : World) : Except GoError Bool × World :=
  match w.call (.cacheSetNX r.name) with
  | (some err, w1) => (.error err, w1)
  | (none, w1) =>
    match r.get w1 id with
    | some _ => (.ok false, w1)
    | none => (.ok true, r.set w1 (setKey (r.get w1) id (some { value := value, ttl := ttl })))

def RedisCache.Del {V : Type} (r : CacheRef V) (id : String) (w : World) :
    Option GoError × World :=
  match w.call (.cacheDel r.name) with
  | (some err, w1) => (some err, w1)
  | (none, w1) => (none, r.set w1 (setKey (r.get w1) id none))

/-! ## Services (`internal/core/service`) -/

def ProductService.GetByID (id : ID) (w : World) : Except GoError Product × World :=
  ProductRepository.GetByID id w

def ProductService.DeductStock (id : ID) (quantity : Int) (w : World) :
    Option GoError × World :=
  ProductRepository.DeductStock id quantity w

def CustomerService.Exists (id : ID) (w : World) : Option GoError × World :=
  match CustomerRepository.Exists id w with
  | (.error err, w1) =>
    if IsOfKind err .KindNotFound then (some (NewNotFoundError "customer not found"), w1)
    else (none, w1)
  | (.ok _, w1) => (none, w1)

/-- What wakes the `select` of the polling loop: the caller's context is done,
the overall timer fires, or the ticker ticks, in which case `others` is what
the other requests and key expiry did to the idempotency cache since the last look. -/
inductive Wake
  | done (err : GoError)
  | timeout
  | tick (others : Cache IdempotencyEntry → Cache IdempotencyEntry)

/-- A `context.Context` as the polling loop sees it: the wake-ups of its
`select`, in order.  The timer always fires in the end, so a list that runs out
reads as the timeout. -/
structure Context where
  wakes : List Wake

structure IdempotencyService where
  ttl : Nat
  pollInterval : Nat
  pollTimeout : Nat

def IdempotencyService.checkEntry (_s : IdempotencyService) (key payloadHash : String)
    (w : World) : Except GoError (Option Order) × World :=
  match RedisCache.Get idemCacheRef key w with
  | (.error err, w1) => (.error (.wrapped "idempotency check failed" err), w1)
  | (.ok none, w1) =>
    (.error (NewConflictError "previous request failed, retry with the same key"), w1)
  | (.ok (some entry), w1) =>
    if entry.PayloadHash ≠ payloadHash then
      (.error (NewUnprocessableEntityError
        "idempotency key already used with a different payload"), w1)
    else if entry.Status = IdempotencyCompleted then (.ok entry.Result, w1)
    else (.ok none, w1)

/-- The `for { select { ... } }` of `waitForCompletion`. -/
def IdempotencyService.waitForCompletion.loop (s : IdempotencyService)
    (key payloadHash : String) : List Wake → World → Except GoError (Option Order) × World
  | [], w =>
    (.error (NewConflictError "idempotency key still being processed, timed out"), w)
  | .done err :: _, w => (.error err, w)
  | .timeout :: _, w =>
    (.error (NewConflictError "idempotency key still being processed, timed out"), w)
  | .tick others :: rest, w =>
    match s.checkEntry key payloadHash { w with idemCache := others w.idemCache } with
    | (.error err, w1) => (.error err, w1)
    | (.ok (some result), w1) => (.ok (some result), w1)
    | (.ok none, w1) => IdempotencyService.waitForCompletion.loop s key payloadHash rest w1

def IdempotencyService.waitForCompletion (s : IdempotencyService) (ctx : Context)
    (key payloadHash : String) (w : World) : Except GoError (Option Order) × World :=
  match s.checkEntry key payloadHash w with
  | (.error err, w1) => (.error err, w1)
  | (.ok (some result), w1) => (.ok (some result), w1)
  | (.ok none, w1) => IdempotencyService.waitForCompletion.loop s key payloadHash ctx.wakes w1

def IdempotencyService.Claim (s : IdempotencyService) (ctx : Context)
    (key payloadHash : String) (w : World) : Except GoError (Option Order) × World :=
  match RedisCache.SetNX idemCacheRef key
      { Status := IdempotencyProcessing, PayloadHash := payloadHash, Result := none }
      s.ttl w with
  | (.error err, w1) => (.error (.wrapped "idempotency claim failed" err), w1)
  | (.ok true, w1) => (.ok none, w1)
  | (.ok false, w1) => s.waitForCompletion ctx key payloadHash w1

/-- Complete takes the result as a pointer, which may be nil. -/
def IdempotencyService.Complete (s : IdempotencyService) (key payloadHash : String)
    (result : Option Order) (w : World) : World :=
  (RedisCache.Set idemCacheRef key
    { Status := IdempotencyCompleted, PayloadHash := payloadHash, Result := result }
    s.ttl w).2

def IdempotencyService.Release (_s : IdempotencyService) (key : String) (w : World) : World :=
  (RedisCache.Del idemCacheRef key w).2

def ORDER_MAX_ITEMS : Nat := 100

/-- One minute as a `time.Duration` (nanoseconds). -/
def Minute : Nat := 60 * 1000000000

def orderCacheTTL : Nat := 15 * Minute

/-- The order service: its idempotency service, and `utils.HashJSON` on a
request (the SHA-256 of its JSON text, in hexadecimal), which is taken as given. -/
structure OrderService where
  idempotency : IdempotencyService
  HashJSON : CreateOrderRequest → String

def OrderService.getCacheKey (orderID : ID) : String := "order:" ++ orderID

def OrderService.GetOrderByID (orderID : ID) (w : World) : Except GoError Order × World :=
  match RedisCache.Get orderCacheRef (OrderService.getCacheKey orderID) w with
  | (.ok (some cached), w1) => (.ok cached, w1)
  | (_, w1) =>
    match OrderRepository.GetByID orderID w1 with
    | (.error err, w2) => (.error err, w2)
    | (.ok order, w2) =>
      (.ok order,
        (RedisCache.Set orderCacheRef (OrderService.getCacheKey orderID) order orderCacheTTL w2).2)

def OrderService.UpdateOrderStatus (orderID : ID) (status : OrderStatus) (w : World) :
    Option GoError × World :=
  if !status.IsValid then (some (NewInvalidRequestError "invalid status"), w)
  else
    match OrderRepository.GetByID orderID w with
    | (.error err, w1) => (some err, w1)
    | (.ok order, w1) =>
      if order.Status = status then
        (some (NewUnprocessableEntityError "order already has this status"), w1)
      else
        let event :=
          NewOrderUpdateStatusEvent orderID status order.Status w1.clock order.CustomerID
        match OrderRepository.UpdateStatusWithOutbox orderID status event w1 with
        | (some err, w2) => (some err, w2)
        | (none, w2) =>
          let order1 : Order := { order with Status := status, UpdatedAt := w2.clock }
          (none,
            (RedisCache.Set orderCacheRef (OrderService.getCacheKey orderID) order1
              orderCacheTTL w2).2)

def OrderService.getOrderItems : List DtoOrderItem → World →
    Except GoError (List OrderItem) × World
  | [], w => (.ok [], w)
  | item :: rest, w =>
    match ProductService.GetByID item.ProductID w with
    | (.error err, w1) => (.error err, w1)
    | (.ok product, w1) =>
      match OrderService.getOrderItems rest w1 with
      | (.error err, w2) => (.error err, w2)
      | (.ok items, w2) =>
        (.ok (NewOrderItem item.ProductID product.Name item.Quantity product.Price :: items),
          w2)

/-- The `for` loop over `order.Items` inside the transaction of `processOrder`. -/
def OrderService.processOrder.deduct : List OrderItem → World → Option GoError × World
  | [], w => (none, w)
  | item :: rest, w =>
    match ProductService.DeductStock item.ProductID item.Quantity w with
    | (some err, w1) => (some err, w1)
    | (none, w1) => OrderService.processOrder.deduct rest w1

/-- The closure that `processOrder` hands to the transaction manager. -/
def OrderService.processOrder.body (order : Order) (w : World) :
    (Option GoError × Order) × World :=
  match OrderService.processOrder.deduct order.Items w with
  | (some err, w1) => ((some err, order), w1)
  | (none, w1) => OrderRepository.Create order w1

def OrderService.processOrder (request : CreateOrderRequest) (w : World) :
    Except GoError Order × World :=
  if request.Items.length > ORDER_MAX_ITEMS then
    (.error (NewUnprocessableEntityError "order items limit exceeded"), w)
  else
    match CustomerService.Exists request.CustomerID w with
    | (some err, w1) => (.error err, w1)
    | (none, w1) =>
      match OrderService.getOrderItems request.Items w1 with
      | (.error err, w2) => (.error err, w2)
      | (.ok items, w2) =>
        let order := NewOrder w2.clock request.CustomerID OrderStatusCreated items
        match TransactionManager.WithTransaction order OrderService.processOrder.body w2 with
        | ((some err, _), w3) => (.error err, w3)
        | ((none, order1), w3) => (.ok order1, w3)

def OrderService.CreateOrder (s : OrderService) (ctx : Context) (idempotencyKey : String)
    (request : CreateOrderRequest) (w : World) : Except GoError Order × World :=
  if idempotencyKey = "" then OrderService.processOrder request w
  else
    let payloadHash := s.HashJSON request
    match s.idempotency.Claim ctx idempotencyKey payloadHash w with
    | (.error err, w1) => (.error err, w1)
    | (.ok (some existing), w1) => (.ok existing, w1)
    | (.ok none, w1) =>
      match OrderService.processOrder request w1 with
      | (.error err, w2) => (.error err, s.idempotency.Release idempotencyKey w2)
      | (.ok order, w2) =>
        (.ok order, s.idempotency.Complete idempotencyKey payloadHash (some order) w2)

/-! ## Outbox publisher (`internal/adapters/outbox`) -/

/-- The methods of `outbox.Repository` that the publisher calls, over the state
`σ` of whatever implements them. -/
structure Repository (σ : Type) where
  FetchPending : Int → σ → Except GoError (List Entry) × σ
  Delete : String → σ → Option GoError × σ

/-- The method of `port.BrokerPort` that the publisher calls. -/
structure BrokerPort (σ : Type) where
  PublishRaw : String → String → JSON → σ → Option GoError × σ

structure Handler (σ : Type) where
  outbox : Repository σ
  broker : BrokerPort σ
  interval : Nat
  batch : Int

/-- The `for _, entry := range entries` of `processEvents`. -/
def Handler.processEvents.loop {σ : Type} (h : Handler σ) : List Entry → σ → σ
  | [], st => st
  | entry :: rest, st =>
    match h.broker.PublishRaw entry.EventName entry.EntityName entry.EventData st with
    | (some _, st1) => Handler.processEvents.loop h rest st1
    | (none, st1) => Handler.processEvents.loop h rest (h.outbox.Delete entry.ID st1).2

def Handler.processEvents {σ : Type} (h : Handler σ) (st : σ) : σ :=
  match h.outbox.FetchPending h.batch st with
  | (.error _, st1) => st1
  | (.ok entries, st1) => Handler.processEvents.loop h entries st1

/-- A call on one of the publisher's ports, with the error it returned. -/
inductive PortCall
  | FetchPending (limit : Int)
  | PublishRaw (eventName entityName : String) (data : JSON) (err : Option GoError)
  | Delete (id : String) (err : Option GoError)

/-- The handler `h` with every port wrapped so that it appends its call to a log. -/
def Handler.recording {σ : Type} (h : Handler σ) : Handler (σ × List PortCall) :=
  { outbox :=
      { FetchPending := fun limit st =>
          let r := h.outbox.FetchPending limit st.1
          (r.1, (r.2, st.2 ++ [PortCall.FetchPending limit]))
        Delete := fun id st =>
          let r := h.outbox.Delete id st.1
          (r.1, (r.2, st.2 ++ [PortCall.Delete id r.1])) }
    broker :=
      { PublishRaw := fun eventName entityName data st =>
          let r := h.broker.PublishRaw eventName entityName data st.1
          (r.1, (r.2, st.2 ++ [PortCall.PublishRaw eventName entityName data r.1])) }
    interval := h.interval
    batch := h.batch }

/-! ## Rate limiter (`internal/adapters/redis/ratelimit.go`) -/

/-- A counter key of the key-value store: its value and, when it has a time to
live, the clock reading (in milliseconds) up to which it lives. -/
structure Counter where
  value : Int
  expireAt : Option Nat
  deriving DecidableEq, Repr

/-- The key-value store as the rate limiter uses it: the counters, the number
of script runs so far, and whether run number `n` fails before it reaches the
store (`fail n` is the error text). -/
structure Redis where
  counters : String → Option Counter
  runs : Nat
  fail : Nat → Option String

/-- The counter under `key` at the time `now`, unless its time to live is over. -/
def Redis.live (r : Redis) (now : Nat) (key : String) : Option Counter :=
  match r.counters key with
  | none => none
  | some c =>
    match c.expireAt with
    | none => some c
    | some t => if t < now then none else some c

/-- The store command `INCR key`: a missing key counts from 0 and gets no time
to live; a counter at the largest 64-bit integer makes the command fail. -/
def Redis.INCR (key : String) (now : Nat) (r : Redis) : Except GoError Int × Redis :=
  match r.live now key with
  | none =>
    (.ok 1, { r with counters := setKey r.counters key (some { value := 1, expireAt := none }) })
  | some c =>
    if c.value = maxInt then (.error (.plain "ERR increment or decrement would overflow"), r)
    else
      (.ok (c.value + 1),
        { r with counters := setKey r.counters key (some { c with value := c.value + 1 }) })

/-- The store command `EXPIRE key seconds`: the key lives for `seconds` more
seconds; with a time to live that is not positive the key is deleted at once. -/
def Redis.EXPIRE (key : String) (seconds : Int) (now : Nat) (r : Redis) : Redis :=
  match r.live now key with
  | none => r
  | some c =>
    if seconds ≤ 0 then { r with counters := setKey r.counters key none }
    else
      { r with counters :=
          setKey r.counters key (some { c with expireAt := some (now + seconds.toNat * 1000) }) }

/-- The Lua script `rateLimitScript`, which the store runs atomically. -/
def rateLimitScript (key : String) (seconds : Int) (now : Nat) (r : Redis) :
    Except GoError Int × Redis :=
  match Redis.INCR key now r with
  | (.error err, r1) => (.error err, r1)
  | (.ok count, r1) =>
    if count = 1 then (.ok count, Redis.EXPIRE key seconds now r1)
    else (.ok count, r1)

/-- Go `int(window.Seconds())` for a `time.Duration` of `window` nanoseconds:
the whole seconds of the window, the fraction dropped.  (`Seconds` is a
float64; its conversion is this quotient for every window below 2^24 seconds,
and for every window that is a whole number of seconds.) -/
def durationSeconds (window : Int) : Int := Int.tdiv window 1000000000

/-- RateLimiter.Allow, called at the clock reading `now`. -/
def RateLimiter.Allow (key : String) (limit : Int) (window : Int) (now : Nat) (r : Redis) :
    Except GoError Bool × Redis :=
  let redisKey := "ratelimit:" ++ key
  match r.fail r.runs with
  | some msg => (.error (.plain msg), { r with runs := r.runs + 1 })
  | none =>
    match rateLimitScript redisKey (durationSeconds window) now { r with runs := r.runs + 1 } with
    | (.error err, r1) => (.error err, r1)
    | (.ok count, r1) => (.ok (decide (count ≤ limit)), r1)

/-! ## Deleting by id (`repository/base.go`, `repository/order.go`, `repository/outbox.go`) -/

/-- BaseRepository.DeleteByID on the collection `c`: `get` reads the document
with an id and `del` removes it; a `DeletedCount` of 0 is answered with NotFound. -/
def BaseRepository.DeleteByID {T : Type} (c : Coll) (get : DB → ObjectID → Option T)
    (del : DB → ObjectID → DB) (id : String) (w : World) : Option GoError × World :=
  match ObjectIDFromHex id with
  | .error err => (some (parseError err), w)
  | .ok objectID =>
    match w.call (.deleteOne c) with
    | (some err, w1) => (some (parseError err), w1)
    | (none, w1) =>
      match get w1.db objectID with
      | none => (some (NewNotFoundError "entity not found"), w1)
      | some _ => (none, { w1 with db := del w1.db objectID })

def OrderRepository.Delete (id : ID) (w : World) : Option GoError × World :=
  BaseRepository.DeleteByID .orders DB.orders
    (fun db objectID => { db with orders := setKey db.orders objectID none }) id w

/-- OutboxRepository.Delete: one `DeleteOne` by id, whose `DeletedCount` is not looked at. -/
def OutboxRepository.Delete (id : String) (w : World) : Option GoError × World :=
  match ObjectIDFromHex id with
  | .error err => (some (parseError err), w)
  | .ok objectID =>
    match w.call (.deleteOne .outbox) with
    | (some err, w1) => (some err, w1)
    | (none, w1) =>
      let db1 : DB := { w1.db with outbox := w1.db.outbox.eraseP (fun d => d.ID == objectID) }
      (none, { w1 with db := db1 })

/-! ## HTTP adapter (`internal/adapters/http`, `internal/core/domain/shared.go`) -/

/-- The JSON body of a response: `handlers.ErrorResponse`, `MessageResponse`, or
an `OrderResponse`, which carries the fields of the order. -/
inductive ResponseBody
  | error (Error : String)
  | message (Message : String)
  | order (order : Order)
  deriving DecidableEq, Repr

/-- What `c.JSON(status, body)` sends. -/
structure Response where
  status : Nat
  body : ResponseBody
  deriving DecidableEq, Repr

def mapKindToHTTP : ErrorKind → Nat
  | .KindNotFound => 404
  | .KindConflict => 409
  | .KindUnprocessableEntity => 422
  | .KindInvalidRequest => 400

def HandleError (err : GoError) : Response :=
  match err.asService with
  | some (kind, message) => { status := mapKindToHTTP kind, body := .error message }
  | none => { status := 500, body := .error err.Error }

/-- domain.ValidateID: Go `len(id) == 24`, the length in bytes. -/
def ValidateID (id : String) : Bool := id.utf8ByteSize == 24

def OrderController.GetOrderByID (orderID : String) (w : World) : Response × World :=
  if !ValidateID orderID then (HandleError (NewInvalidRequestError "Invalid order ID"), w)
  else
    match OrderService.GetOrderByID orderID w with
    | (.error err, w1) => (HandleError err, w1)
    | (.ok order, w1) => ({ status := 200, body := .order order }, w1)

/-- OrderController.UpdateOrderStatus; `bound` is what `ShouldBindJSON` makes of
the request body: the `status` field, or the text of the binding error. -/
def OrderController.UpdateOrderStatus (orderID : String) (bound : Except String String)
    (w : World) : Response × World :=
  if !ValidateID orderID then (HandleError (NewInvalidRequestError "Invalid order ID"), w)
  else
    match bound with
    | .error text => (HandleError (NewInvalidRequestError text), w)
    | .ok status =>
      match OrderService.UpdateOrderStatus orderID status w with
      | (some err, w1) => (HandleError err, w1)
      | (none, w1) =>
        ({ status := 200, body := .message "Order status updated successfully" }, w1)

/-! ## Vocabulary of the statements -/

/-- The sum of Quantity × UnitPrice over the items, in the integers. -/
def exactTotal (items : List OrderItem) : Int :=
  (items.map (fun item => item.Quantity * item.UnitPrice)).sum

/-- The arguments of the `PublishRaw` calls of a log, in order. -/
def publishCalls (log : List PortCall) : List (String × String × JSON) :=
  log.filterMap (fun c => match c with
    | .PublishRaw eventName entityName data _ => some (eventName, entityName, data)
    | _ => none)

/-- The errors returned by the `PublishRaw` calls of a log, in order. -/
def publishResults (log : List PortCall) : List (Option GoError) :=
  log.filterMap (fun c => match c with
    | .PublishRaw _ _ _ err => some err
    | _ => none)

/-- The ids of the `Delete` calls of a log, in order. -/
def deleteCalls (log : List PortCall) : List String :=
  log.filterMap (fun c => match c with
    | .Delete id _ => some id
    | _ => none)

/-- The calls that one pass over a batch makes, entry by entry: the publish of
the entry, followed by its delete when the publish returned no error. -/
def passCalls {σ : Type} (h : Handler σ) : List Entry → σ → List PortCall
  | [], _ => []
  | entry :: rest, st =>
    let p := h.broker.PublishRaw entry.EventName entry.EntityName entry.EventData st
    match p.1 with
    | some err =>
      PortCall.PublishRaw entry.EventName entry.EntityName entry.EventData (some err)
        :: passCalls h rest p.2
    | none =>
      let d := h.outbox.Delete entry.ID p.2
      PortCall.PublishRaw entry.EventName entry.EntityName entry.EventData none
        :: PortCall.Delete entry.ID d.1 :: passCalls h rest d.2

/-- Whether an external call goes to the database (a driver call on a
collection, the start or the commit of a transaction) and not to a cache. -/
def ExtCall.onDatabase : ExtCall → Bool
  | .findOne _ => true
  | .insertOne _ => true
  | .updateOne _ => true
  | .findOneAndUpdate _ => true
  | .deleteOne _ => true
  | .startSession => true
  | .commit => true
  | _ => false

/-- The world `w1` is `w` after calls to the database that wrote nothing: only
the log has grown. -/
structure World.Reads (w w1 : World) : Prop where
  db : w1.db = w.db
  orderCache : w1.orderCache = w.orderCache
  idemCache : w1.idemCache = w.idemCache
  clock : w1.clock = w.clock
  nextID : w1.nextID = w.nextID
  fail : w1.fail = w.fail
  log : ∃ l, w1.log = w.log ++ l ∧ ∀ c ∈ l, ExtCall.onDatabase c = true

/-- What `getOrderItems` makes of a request item, given the product store it reads. -/
def snapshotOf (db : DB) (requested : DtoOrderItem) (item : OrderItem) : Prop :=
  ∃ objectID doc, ObjectIDFromHex requested.ProductID = .ok objectID ∧
    db.products objectID = some doc ∧
    item = NewOrderItem requested.ProductID doc.Name requested.Quantity doc.Price

/-- The world `w1` is `w` after calls to the database and nothing else. -/
structure World.Writes (w w1 : World) : Prop where
  orderCache : w1.orderCache = w.orderCache
  idemCache : w1.idemCache = w.idemCache
  clock : w1.clock = w.clock
  fail : w1.fail = w.fail
  log : ∃ l, w1.log = w.log ++ l ∧ ∀ c ∈ l, ExtCall.onDatabase c = true

/-- Whether the id string `id` names the object id `objectID`. -/
def refersTo (id : ID) (objectID : ObjectID) : Bool :=
  match ObjectIDFromHex id with
  | .ok o => o == objectID
  | .error _ => false

/-- What the deductions for `items` add to the stock of the product `objectID`. -/
def stockDelta : List OrderItem → ObjectID → Int
  | [], _ => 0
  | item :: rest, objectID =>
    (if refersTo item.ProductID objectID then wrapInt (-item.Quantity) else 0)
      + stockDelta rest objectID

/-- The total quantity of the request items that reference the product `objectID`. -/
def requestedQuantity (items : List DtoOrderItem) (objectID : ObjectID) : Int :=
  ((items.filter (fun item => refersTo item.ProductID objectID)).map
    (fun item => item.Quantity)).sum

/-- The product collection with `delta` added to the stock of every product. -/
def addStock (products : ObjectID → Option ProductDocument) (delta : ObjectID → Int) :
    ObjectID → Option ProductDocument :=
  fun objectID => (products objectID).map (fun doc => { doc with Stock := doc.Stock + delta objectID })

/-- The item `b` is the item `a` with an id assigned. -/
def sameButID (a b : OrderItem) : Prop :=
  b.ProductID = a.ProductID ∧ b.ProductName = a.ProductName ∧ b.Quantity = a.Quantity ∧
    b.UnitPrice = a.UnitPrice

/-- Whether an external call is a command on the idempotency cache. -/
def ExtCall.onIdempotencyCache : ExtCall → Bool
  | .cacheGet .idempotency => true
  | .cacheSet .idempotency => true
  | .cacheSetNX .idempotency => true
  | .cacheDel .idempotency => true
  | _ => false

/-- The world `w1` is `w` after commands on the idempotency cache and nothing else. -/
structure World.IdemOnly (w w1 : World) : Prop where
  db : w1.db = w.db
  orderCache : w1.orderCache = w.orderCache
  clock : w1.clock = w.clock
  fail : w1.fail = w.fail
  log : ∃ l, w1.log = w.log ++ l ∧ ∀ c ∈ l, ExtCall.onIdempotencyCache c = true

/-- The result of `checkEntry` as a function of what the cache read returns. -/
def checkResult (payloadHash : String) (read : Option IdempotencyEntry) :
    Except GoError (Option Order) :=
  match read with
  | none => .error (NewConflictError "previous request failed, retry with the same key")
  | some entry =>
    if entry.PayloadHash ≠ payloadHash then
      .error (NewUnprocessableEntityError
        "idempotency key already used with a different payload")
    else if entry.Status = IdempotencyCompleted then .ok entry.Result
    else .ok none

/-- What a call that returned an order from the idempotency cache has read there. -/
def completedWith (w : World) (key payloadHash : String) (result : Order) : Prop :=
  ∃ c, w.idemCache key = some c ∧ c.value.PayloadHash = payloadHash ∧
    c.value.Status = IdempotencyCompleted ∧ c.value.Result = some result

/-- The order item `item` is the request item `requested` with the name and the
price of its product as the product store `db` has them. -/
def carriesSnapshot (db : DB) (requested : DtoOrderItem) (item : OrderItem) : Prop :=
  item.ProductID = requested.ProductID ∧ item.Quantity = requested.Quantity ∧
    ∃ objectID doc, ObjectIDFromHex requested.ProductID = .ok objectID ∧
      db.products objectID = some doc ∧ item.UnitPrice = doc.Price ∧
      item.ProductName = doc.Name

/-- A sequence of `DeductStock` calls, whatever each of them returns. -/
def deductAll : List (ID × Int) → World → World
  | [], w => w
  | c :: rest, w => deductAll rest (ProductRepository.DeductStock c.1 c.2 w).2

/-- Every product in the store has a non-negative stock. -/
def stockNonNegative (w : World) : Prop :=
  ∀ objectID doc, w.db.products objectID = some doc → 0 ≤ doc.Stock

/-- The outbox document that a successful `UpdateStatusWithOutbox` inserts. -/
def outboxDocumentOf (w : World) (event : OrderUpdateStatusEvent) : OutboxDocument :=
  { ID := ObjectID.ofNat w.nextID, EventName := "order.update_status", EntityName := "order",
    EventData := event.marshal, CreatedAt := w.clock }

/-- The entry that `Claim` offers to the cache. -/
def processingEntry (payloadHash : String) : IdempotencyEntry :=
  { Status := IdempotencyProcessing, PayloadHash := payloadHash, Result := none }

/-- The `SetNX` command with which `Claim` begins. -/
def claimSetNX (s : IdempotencyService) (key payloadHash : String) (w : World) :
    Except GoError Bool × World :=
  RedisCache.SetNX idemCacheRef key (processingEntry payloadHash) s.ttl w

/-- The world in which the check of a tick runs: `others` is what the other
requests and key expiry did to the idempotency cache since the last look. -/
def World.afterOthers (others : Cache IdempotencyEntry → Cache IdempotencyEntry) (w : World) :
    World :=
  { w with idemCache := others w.idemCache }

/-- The `Get` of a check in the world `w` reads, under `key`, a processing entry
with the payload hash `payloadHash`. -/
def readsProcessing (key payloadHash : String) (w : World) : Prop :=
  match (RedisCache.Get idemCacheRef key w).1 with
  | .ok (some entry) => entry.PayloadHash = payloadHash ∧ entry.Status = IdempotencyProcessing
  | _ => False

/-- Every one of the successive checks, one for each element of the list (what
the others did before that check), reads a processing entry with the payload
hash `payloadHash` under `key`. -/
def everyCheckProcessing (key payloadHash : String) :
    List (Cache IdempotencyEntry → Cache IdempotencyEntry) → World → Prop
  | [], _ => True
  | others :: rest, w =>
    readsProcessing key payloadHash (w.afterOthers others) ∧
      everyCheckProcessing key payloadHash rest
        (RedisCache.Get idemCacheRef key (w.afterOthers others)).2

/-- The world after the successive checks, one `Get` for each element of the list. -/
def afterChecks (key : String) :
    List (Cache IdempotencyEntry → Cache IdempotencyEntry) → World → World
  | [], w => w
  | others :: rest, w =>
    afterChecks key rest (RedisCache.Get idemCacheRef key (w.afterOthers others)).2

/-- The wake-ups of a waiting `Claim` with its immediate first check counted
in: that check is a look at the cache before which the others did nothing. -/
def Context.checks (ctx : Context) : List Wake := Wake.tick (fun c => c) :: ctx.wakes

/-- The calls to `Allow` for one key, limit and window at the successive clock
readings of the list: their results in order, and the store afterwards. -/
def allowAll (key : String) (limit : Int) (window : Int) :
    List Nat → Redis → List (Except GoError Bool) × Redis
  | [], r => ([], r)
  | now :: rest, r =>
    ((RateLimiter.Allow key limit window now r).1 ::
        (allowAll key limit window rest (RateLimiter.Allow key limit window now r).2).1,
      (allowAll key limit window rest (RateLimiter.Allow key limit window now r).2).2)

/-- One second as a `time.Duration` (nanoseconds). -/
def Second : Int := 1000000000

/-- A step in the life of the idempotency cache: a request calls `Claim`; the
request that owns a key calls `Complete` or `Release`, as `CreateOrder` does
after its work; or the entry under a key reaches its time to live. -/
inductive IdemAction
  | claim (ctx : Context) (key payloadHash : String)
  | complete (key payloadHash : String) (result : Option Order)
  | release (key : String)
  | expire (key : String)

/-- The cache together with the requests at work: `owner key` is the payload
hash of the request whose `Claim` of `key` returned (nil, nil) and which has not
yet called `Complete` or `Release`. -/
structure IdemState where
  world : World
  owner : String → Option String

/-- The effect of a step.  A `Claim` that returns (nil, nil) makes its caller
the owner of the key; `Complete` and `Release` end the ownership. -/
def IdemAction.apply (s : IdempotencyService) : IdemAction → IdemState → IdemState
  | .claim ctx key payloadHash, st =>
    match s.Claim ctx key payloadHash st.world with
    | (.ok none, w1) => { world := w1, owner := setKey st.owner key (some payloadHash) }
    | (_, w1) => { world := w1, owner := st.owner }
  | .complete key payloadHash result, st =>
    { world := s.Complete key payloadHash result st.world, owner := setKey st.owner key none }
  | .release key, st =>
    { world := s.Release key st.world, owner := setKey st.owner key none }
  | .expire key, st =>
    { world := { st.world with idemCache := setKey st.world.idemCache key none },
      owner := st.owner }

/-- When a step can be taken in the program: `Complete` and `Release` are called
by the owner of the key, with its payload hash; an entry does not expire while
its owner is at work; and what other requests do during the wait of a `Claim`
is counted as steps of their own, not inside the wait. -/
def IdemAction.enabled : IdemAction → IdemState → Prop
  | .claim ctx _ _, _ =>
    ∀ others, Wake.tick others ∈ ctx.wakes → ∀ c : Cache IdempotencyEntry, others c = c
  | .complete key payloadHash _, st => st.owner key = some payloadHash
  | .release key, st => st.owner key ≠ none
  | .expire key, st => st.owner key = none

/-- The steps of the list, one after the other. -/
def IdemAction.run (s : IdempotencyService) : List IdemAction → IdemState → IdemState
  | [], st => st
  | a :: rest, st => IdemAction.run s rest (a.apply s st)

/-- The entry under `key`, if any. -/
def IdemState.entry (st : IdemState) (key : String) : Option IdempotencyEntry :=
  (st.world.idemCache key).map (fun c => c.value)

/-- One step on the path absent → processing → completed or back to absent:
a new entry is a processing one, an entry that stays keeps its payload hash and
either stays as it is or goes from processing to completed, and any entry may
go away. -/
def allowedTransition : Option IdempotencyEntry → Option IdempotencyEntry → Prop
  | none, none => True
  | none, some e1 => e1.Status = IdempotencyProcessing
  | some _, none => True
  | some e, some e1 =>
    e1.PayloadHash = e.PayloadHash ∧
      (e1 = e ∨ (e.Status = IdempotencyProcessing ∧ e1.Status = IdempotencyCompleted))

/-- Every owned key holds the processing entry of its owner. -/
def IdemState.Inv (st : IdemState) : Prop :=
  ∀ key payloadHash, st.owner key = some payloadHash →
    st.entry key = some (processingEntry payloadHash)

/-- The states the cache can be in: any cache with no request at work, and what
steps that can be taken make of it. -/
inductive IdemState.Reachable (s : IdempotencyService) : IdemState → Prop
  | start (w : World) : IdemState.Reachable s { world := w, owner := fun _ => none }
  | step (a : IdemAction) (st : IdemState) (hst : IdemState.Reachable s st)
      (hen : a.enabled st) : IdemState.Reachable s (a.apply s st)

/-- The commands whose failure `CreateOrder` treats as non-fatal: the cache
write of `Complete` and the cache delete of `Release`. -/
def ExtCall.isCompleteOrRelease : ExtCall → Bool
  | .cacheSet .idempotency => true
  | .cacheDel .idempotency => true
  | _ => false

/-- The world `w` on an infrastructure that decides the failures by `f`. -/
def World.withFail (f : Nat → ExtCall → Option String) (w : World) : World :=
  { w with fail := f }

/-- The infrastructures `f` and `f1` fail alike on every command other than the
cache write of `Complete` and the cache delete of `Release`. -/
def sameButCompleteRelease (f f1 : Nat → ExtCall → Option String) : Prop :=
  ∀ n c, ExtCall.isCompleteOrRelease c = false → f1 n c = f n c

/-- The error with which `processOrder` answers a request of more than 100 items. -/
def limitError : GoError := NewUnprocessableEntityError "order items limit exceeded"

/-- The statements of `processOrder` that follow the customer check. -/
def OrderService.processOrder.afterCustomerCheck (request : CreateOrderRequest) (w : World) :
    Except GoError Order × World :=
  match OrderService.getOrderItems request.Items w with
  | (.error err, w2) => (.error err, w2)
  | (.ok items, w2) =>
    let order := NewOrder w2.clock request.CustomerID OrderStatusCreated items
    match TransactionManager.WithTransaction order OrderService.processOrder.body w2 with
    | ((some err, _), w3) => (.error err, w3)
    | ((none, order1), w3) => (.ok order1, w3)

/-! ## Example inputs -/

def pidA : ID := "aabbccddee112233aabbccd1"

def pidB : ID := "aabbccddee112233aabbccd2"

def cidA : ID := "ccddaabbee112233aabbccdd"

/-- A store with the customer `cidA` and two products: `pidA` at 2999 with
stock 50 and `pidB` at 4611686018427387904 (2^62) with stock 2. -/
def exampleDB : DB :=
  { products := fun x =>
      if x = pidA then
        some { ID := pidA, Name := "Widget", Description := "", Price := 2999, Stock := 50,
               CreatedAt := 0, UpdatedAt := 0 }
      else if x = pidB then
        some { ID := pidB, Name := "Gem", Description := "", Price := 4611686018427387904,
               Stock := 2, CreatedAt := 0, UpdatedAt := 0 }
      else none
    orders := fun _ => none
    customers := fun x => if x = cidA then some { ID := cidA } else none
    outbox := [] }

/-- The example store with empty caches and an infrastructure on which no call fails. -/
def exampleWorld : World :=
  { db := exampleDB, orderCache := fun _ => none, idemCache := fun _ => none, clock := 7,
    nextID := 1, log := [], fail := fun _ _ => none }

/-- A stand-in for the payload hash in the examples: it tells apart requests
that differ in customer or in the products they list. -/
def exampleHash (r : CreateOrderRequest) : String :=
  r.CustomerID ++ String.join (r.Items.map (fun item => "/" ++ item.ProductID))

def exampleService : OrderService :=
  { idempotency := { ttl := 5 * Minute, pollInterval := 1000000000, pollTimeout := 10000000000 }
    HashJSON := exampleHash }

/-- A context whose polling loop sees two ticks without interference and then the timeout. -/
def exampleContext : Context := { wakes := [.tick id, .tick id, .timeout] }

def requestA : CreateOrderRequest :=
  { CustomerID := cidA, Items := [{ ProductID := pidA, Quantity := 3 }] }

/-- Two units of the product priced 2^62. -/
def requestBig : CreateOrderRequest :=
  { CustomerID := cidA, Items := [{ ProductID := pidB, Quantity := 2 }] }

/-- Two items, the second of which asks for more than the stock of `pidB`. -/
def requestShort : CreateOrderRequest :=
  { CustomerID := cidA,
    Items := [{ ProductID := pidA, Quantity := 2 }, { ProductID := pidB, Quantity := 5 }] }

/-- An item whose quantity is the smallest Go `int`. -/
def requestMinInt : CreateOrderRequest :=
  { CustomerID := cidA, Items := [{ ProductID := pidA, Quantity := -9223372036854775808 }] }

/-- The order of `requestA` as `CreateOrder` returns it in the example world. -/
def orderA : Order :=
  { ID := "000000000000000000000002", CustomerID := cidA,
    Items := [{ ID := "000000000000000000000001", ProductID := pidA, ProductName := "Widget",
                Quantity := 3, UnitPrice := 2999 }],
    Status := "created", CreatedAt := 7, UpdatedAt := 7, TotalAmount := 8997 }

/-- The example world on an infrastructure where every `Set` on the idempotency
cache fails, so that `Complete` cannot store its entry. -/
def worldSetFails : World :=
  { exampleWorld with
    fail := fun _ c => if c = .cacheSet .idempotency then some "redis down" else none }

def oidOrderA : ID := "000000000000000000000002"

/-- The example world after the order of `requestA` has been created in it. -/
def worldWithOrder : World :=
  (exampleService.CreateOrder exampleContext "" requestA exampleWorld).2

/-- The world with the order, on an infrastructure where every insert into the
outbox collection fails. -/
def worldOutboxDown : World :=
  { worldWithOrder with
    fail := fun _ c => if c = .insertOne .outbox then some "outbox down" else none }

def testEntries : List Entry :=
  [{ ID := "1", EventName := "order.fail", EntityName := "order",
     EventData := .obj [("id", .str "1")] },
   { ID := "2", EventName := "order.success", EntityName := "order",
     EventData := .obj [("id", .str "2")] },
   { ID := "3", EventName := "order.success", EntityName := "order",
     EventData := .obj [("id", .str "3")] }]

/-- A handler over stub ports: the batch is `testEntries`, publishing the event
`order.fail` fails, deleting the entry `2` fails. -/
def testHandler : Handler Unit :=
  { outbox :=
      { FetchPending := fun _ st => (.ok testEntries, st)
        Delete := fun id st => (if id = "2" then some (.plain "delete failed") else none, st) }
    broker :=
      { PublishRaw := fun eventName _ _ st =>
          (if eventName = "order.fail" then some (.plain "publish failed") else none, st) }
    interval := 50
    batch := 10 }

/-- The example world on an infrastructure where every `SetNX` on the
idempotency cache fails. -/
def worldSetNXFails : World :=
  { exampleWorld with
    fail := fun _ c => if c = .cacheSetNX .idempotency then some "redis down" else none }

/-- The example world after a request has claimed the key `k1` for `requestA`. -/
def worldClaimed : World :=
  (exampleService.idempotency.Claim exampleContext "k1" (exampleHash requestA) exampleWorld).2

/-- A context that is cancelled after one tick without interference. -/
def cancelledContext : Context := { wakes := [.tick id, .done (.plain "context canceled")] }

/-- A context during whose second tick the entry under `k1` has gone (released
by its owner, or expired). -/
def goneContext : Context :=
  { wakes := [.tick id, .tick (fun c => setKey c "k1" none), .timeout] }

/-- A context during whose second tick the owner of `k1` has completed it with `orderA`. -/
def completedContext : Context :=
  { wakes :=
      [.tick id,
       .tick (fun c => setKey c "k1" (some
          { value := { Status := IdempotencyCompleted, PayloadHash := exampleHash requestA,
                       Result := some orderA },
            ttl := 5 * Minute })),
       .timeout] }

/-- The example world after the key `k1` was claimed and then completed with a nil result. -/
def worldCompletedNil : World :=
  exampleService.idempotency.Complete "k1" (exampleHash requestA) none worldClaimed

/-- The example world after `CreateOrder` has run for `requestA` under the key `k1`. -/
def worldCompleted : World :=
  (exampleService.CreateOrder exampleContext "k1" requestA exampleWorld).2

/-- The world after `CreateOrder` has run for `requestA` under the key `k1` on
the infrastructure where `Complete` cannot store its entry. -/
def worldAfterFailedComplete : World :=
  (exampleService.CreateOrder exampleContext "k1" requestA worldSetFails).2

/-- A store without counters on which every script run goes through. -/
def emptyRedis : Redis := { counters := fun _ => none, runs := 0, fail := fun _ => none }

/-- The example world with no request at work. -/
def idemStart : IdemState := { world := exampleWorld, owner := fun _ => none }

/-- The state after a request with payload hash `h` has claimed the key `k1`. -/
def idemClaimed : IdemState :=
  (IdemAction.claim exampleContext "k1" "h").apply exampleService.idempotency idemStart

/-- The state after the entry under `k1` has expired although its owner is
still at work. -/
def idemExpired : IdemState :=
  (IdemAction.expire "k1").apply exampleService.idempotency idemClaimed

/-- The state after another request, with payload hash `h2`, has claimed the
expired key. -/
def idemReclaimed : IdemState :=
  (IdemAction.claim exampleContext "k1" "h2").apply exampleService.idempotency idemExpired

/-- The example world on an infrastructure where every delete on the
idempotency cache fails, so that `Release` cannot remove its entry. -/
def worldDelFails : World :=
  exampleWorld.withFail
    (fun _ c => if c = .cacheDel .idempotency then some "redis down" else none)

/-- The world with the order, on an infrastructure where every `Set` on the
order cache fails. -/
def worldOrderCacheDown : World :=
  worldWithOrder.withFail (fun _ c => if c = .cacheSet .order then some "redis down" else none)

/-- A request with 101 items. -/
def requestTooLong : CreateOrderRequest :=
  { CustomerID := cidA, Items := List.replicate 101 { ProductID := pidA, Quantity := 1 } }

/-- A request with no items. -/
def requestEmpty : CreateOrderRequest := { CustomerID := cidA, Items := [] }

def cidUnknown : ID := "ccddaabbee112233aabbcc00"

/-- The request `requestA` from a customer that the store does not have. -/
def requestUnknownCustomer : CreateOrderRequest :=
  { CustomerID := cidUnknown, Items := [{ ProductID := pidA, Quantity := 3 }] }

/-- The request `requestA` with a customer id that is not an object id. -/
def requestBadCustomerID : CreateOrderRequest :=
  { CustomerID := "nope", Items := [{ ProductID := pidA, Quantity := 3 }] }

/-- The example world on an infrastructure where every read of the customer
collection fails. -/
def worldCustomersDown : World :=
  exampleWorld.withFail
    (fun _ c => if c = .findOne .customers then some "connection refused" else none)

/-- The world with the order after its status has been set to delivered. -/
def worldDelivered : World :=
  (OrderService.UpdateOrderStatus oidOrderA "delivered" worldWithOrder).2

/-- The world with the order after `GetOrderByID` has read it once, which puts it
into the order cache. -/
def worldOrderCached : World := (OrderService.GetOrderByID oidOrderA worldWithOrder).2

/-- The world in which the order is cached (status created), on an
infrastructure where from then on every `Set` on the order cache fails. -/
def worldCachedThenDown : World :=
  worldOrderCached.withFail
    (fun _ c => if c = .cacheSet .order then some "redis down" else none)

/-- A path id of 24 bytes that is not hexadecimal. -/
def idNotHex : ID := "zzzzzzzzzzzzzzzzzzzzzzzz"

/-- A well-formed id that no document has. -/
def idAbsent : ID := "ffffffffffffffffffffffff"

/-- A request for zero units of `pidA`. -/
def requestZero : CreateOrderRequest :=
  { CustomerID := cidA, Items := [{ ProductID := pidA, Quantity := 0 }] }

/-- A request for minus five units of `pidA`. -/
def requestNegative : CreateOrderRequest :=
  { CustomerID := cidA, Items := [{ ProductID := pidA, Quantity := -5 }] }

/-! # Theorems -/

/-! ## Go integers and the order total -/
theorem wrapInt_eq_self (x : Int) (h1 : minInt ≤ x) (h2 : x ≤ maxInt) : wrapInt x = x := by
  unfold wrapInt minInt maxInt at *
  rw [Int.bmod_def]
  norm_num at *
  split <;> omega

theorem wrapInt_minInt_neg : wrapInt (-minInt) = minInt := by decide

theorem wrapInt_wrapInt_add (a b : Int) : wrapInt (wrapInt a + b) = wrapInt (a + b) := by
  unfold wrapInt; exact Int.bmod_add_bmod_congr

theorem wrapInt_add_wrapInt (a b : Int) : wrapInt (a + wrapInt b) = wrapInt (a + b) := by
  unfold wrapInt; exact Int.add_bmod_bmod

theorem CalculateTotalAmount_loop_eq (items : List OrderItem) :
    ∀ acc : Int, CalculateTotalAmount.loop (wrapInt acc) items
      = wrapInt (acc + exactTotal items) := by
  induction items with
  | nil => intro acc; simp [CalculateTotalAmount.loop, exactTotal]
  | cons item rest ih =>
    intro acc
    simp only [CalculateTotalAmount.loop, Amount.Add, Amount.Multiply]
    rw [ih]
    simp only [exactTotal, List.map_cons, List.sum_cons]
    rw [add_assoc, wrapInt_wrapInt_add, add_comm (wrapInt _) _, ← add_assoc,
      wrapInt_add_wrapInt]
    congr 1
    ring

theorem CalculateTotalAmount_eq (items : List OrderItem) :
    CalculateTotalAmount items = wrapInt (exactTotal items) := by
  have h := CalculateTotalAmount_loop_eq items 0
  have h0 : wrapInt 0 = 0 := by decide
  rw [h0] at h
  simpa [CalculateTotalAmount] using h

/-! ## The outbox publisher -/

theorem loop_cons_failed {σ : Type} (h : Handler σ) (entry : Entry) (rest : List Entry)
    (st : σ) (err : GoError)
    (hp : (h.broker.PublishRaw entry.EventName entry.EntityName entry.EventData st).1
      = some err) :
    Handler.processEvents.loop h (entry :: rest) st =
      Handler.processEvents.loop h rest
        (h.broker.PublishRaw entry.EventName entry.EntityName entry.EventData st).2 := by
  rw [Handler.processEvents.loop]
  generalize h.broker.PublishRaw entry.EventName entry.EntityName entry.EventData st = r at hp
  obtain ⟨a, b⟩ := r
  simp only at hp
  subst hp
  rfl

theorem loop_cons_published {σ : Type} (h : Handler σ) (entry : Entry) (rest : List Entry)
    (st : σ)
    (hp : (h.broker.PublishRaw entry.EventName entry.EntityName entry.EventData st).1 = none) :
    Handler.processEvents.loop h (entry :: rest) st =
      Handler.processEvents.loop h rest
        (h.outbox.Delete entry.ID
          (h.broker.PublishRaw entry.EventName entry.EntityName entry.EventData st).2).2 := by
  rw [Handler.processEvents.loop]
  generalize h.broker.PublishRaw entry.EventName entry.EntityName entry.EventData st = r at hp
  obtain ⟨a, b⟩ := r
  simp only at hp
  subst hp
  rfl

theorem recording_loop {σ : Type} (h : Handler σ) (entries : List Entry) :
    ∀ (st : σ) (log : List PortCall),
      Handler.processEvents.loop h.recording entries (st, log) =
        (Handler.processEvents.loop h entries st, log ++ passCalls h entries st) := by
  induction entries with
  | nil => intro st log; simp [Handler.processEvents.loop, passCalls]
  | cons entry rest ih =>
    intro st log
    cases hp : (h.broker.PublishRaw entry.EventName entry.EntityName entry.EventData st).1 with
    | none =>
      rw [loop_cons_published h.recording entry rest (st, log) (by simpa [Handler.recording] using hp),
        loop_cons_published h entry rest st hp]
      simp only [Handler.recording, passCalls, hp]
      rw [← Handler.recording, ih]
      simp
    | some e =>
      rw [loop_cons_failed h.recording entry rest (st, log) e (by simpa [Handler.recording] using hp),
        loop_cons_failed h entry rest st e hp]
      simp only [Handler.recording, passCalls, hp]
      rw [← Handler.recording, ih]
      simp


theorem publishCalls_passCalls {σ : Type} (h : Handler σ) (entries : List Entry) :
    ∀ st : σ, publishCalls (passCalls h entries st) =
      entries.map (fun e => (e.EventName, e.EntityName, e.EventData)) := by
  induction entries with
  | nil => intro st; rfl
  | cons entry rest ih =>
    intro st
    cases hp : (h.broker.PublishRaw entry.EventName entry.EntityName entry.EventData st).1 with
    | none =>
      simp only [passCalls, hp, List.map_cons]
      simp only [publishCalls, List.filterMap_cons] at ih ⊢
      rw [ih]
    | some e =>
      simp only [passCalls, hp, List.map_cons]
      simp only [publishCalls, List.filterMap_cons] at ih ⊢
      rw [ih]

theorem deleteCalls_passCalls {σ : Type} (h : Handler σ) (entries : List Entry) :
    ∀ st : σ, (publishResults (passCalls h entries st)).length = entries.length ∧
      deleteCalls (passCalls h entries st) =
        ((entries.zip (publishResults (passCalls h entries st))).filter
          (fun p => p.2.isNone)).map (fun p => p.1.ID) := by
  induction entries with
  | nil => intro st; exact ⟨rfl, rfl⟩
  | cons entry rest ih =>
    intro st
    cases hp : (h.broker.PublishRaw entry.EventName entry.EntityName entry.EventData st).1 with
    | none =>
      simp only [passCalls, hp]
      simp only [publishResults, deleteCalls, List.filterMap_cons] at ih ⊢
      obtain ⟨h1, h2⟩ := ih (h.outbox.Delete entry.ID
        (h.broker.PublishRaw entry.EventName entry.EntityName entry.EventData st).2).2
      simp [h1, h2]
    | some e =>
      simp only [passCalls, hp]
      simp only [publishResults, deleteCalls, List.filterMap_cons] at ih ⊢
      obtain ⟨h1, h2⟩ := ih
        (h.broker.PublishRaw entry.EventName entry.EntityName entry.EventData st).2
      simp [h1, h2]

theorem recording_processEvents_ok {σ : Type} (h : Handler σ) (st st1 : σ) (entries : List Entry)
    (hf : h.outbox.FetchPending h.batch st = (.ok entries, st1)) :
    h.recording.processEvents (st, []) =
      (h.processEvents st, PortCall.FetchPending h.batch :: passCalls h entries st1) := by
  have hr : h.recording.outbox.FetchPending h.recording.batch (st, [])
      = (.ok entries, (st1, [PortCall.FetchPending h.batch])) := by
    simp [Handler.recording, hf]
  simp only [Handler.processEvents, hr, hf, recording_loop]
  simp

theorem recording_processEvents_error {σ : Type} (h : Handler σ) (st st1 : σ) (err : GoError)
    (hf : h.outbox.FetchPending h.batch st = (.error err, st1)) :
    h.recording.processEvents (st, []) =
      (h.processEvents st, [PortCall.FetchPending h.batch]) := by
  have hr : h.recording.outbox.FetchPending h.recording.batch (st, [])
      = (.error err, (st1, [PortCall.FetchPending h.batch])) := by
    simp [Handler.recording, hf]
  simp only [Handler.processEvents, hr, hf]

/-- C9.  In one pass of the outbox publisher over any repository and any broker,
when FetchPending returns a batch, the PublishRaw calls of the pass are exactly
one per entry of the batch, in the order of the batch, each with the event
name, the entity name and the data of its entry, whatever the publishes and
the deletes return; recording the calls does not change what the pass does. -/
theorem processEvents_publishes_each_entry_once_in_order {σ : Type} (h : Handler σ)
    (st st1 : σ) (entries : List Entry)
    (hf : h.outbox.FetchPending h.batch st = (.ok entries, st1)) :
    (h.recording.processEvents (st, [])).1 = h.processEvents st ∧
    publishCalls (h.recording.processEvents (st, [])).2 =
      entries.map (fun e => (e.EventName, e.EntityName, e.EventData)) := by
  rw [recording_processEvents_ok h st st1 entries hf]
  refine ⟨rfl, ?_⟩
  have := publishCalls_passCalls h entries st1
  simpa [publishCalls] using this

/-- C9, witness: a batch of three whose first publish fails and whose second delete fails. -/
theorem processEvents_publishes_each_entry_once_in_order_witness :
    testHandler.outbox.FetchPending testHandler.batch () = (.ok testEntries, ()) ∧
    publishResults (testHandler.recording.processEvents ((), [])).2 =
      [some (.plain "publish failed"), none, none] ∧
    publishCalls (testHandler.recording.processEvents ((), [])).2 =
      testEntries.map (fun e => (e.EventName, e.EntityName, e.EventData)) :=
  ⟨rfl, by decide,
    (processEvents_publishes_each_entry_once_in_order testHandler () () testEntries rfl).2⟩

/-- C10.  In one pass of the outbox publisher over any repository and any broker:
when FetchPending returns a batch, there is one publish result per entry and
the Delete calls of the pass are, in order, exactly the ids of the entries whose
PublishRaw returned no error; when FetchPending fails, nothing is published and
nothing is deleted. -/
theorem processEvents_deletes_exactly_the_published {σ : Type} (h : Handler σ) (st : σ) :
    (h.recording.processEvents (st, [])).1 = h.processEvents st ∧
    match (h.outbox.FetchPending h.batch st).1 with
    | .ok entries =>
      (publishResults (h.recording.processEvents (st, [])).2).length = entries.length ∧
      deleteCalls (h.recording.processEvents (st, [])).2 =
        ((entries.zip (publishResults (h.recording.processEvents (st, [])).2)).filter
          (fun p => p.2.isNone)).map (fun p => p.1.ID)
    | .error _ =>
      publishCalls (h.recording.processEvents (st, [])).2 = [] ∧
      deleteCalls (h.recording.processEvents (st, [])).2 = [] := by
  cases hf : h.outbox.FetchPending h.batch st with
  | mk r st1 =>
    cases r with
    | ok entries =>
      rw [recording_processEvents_ok h st st1 entries hf]
      refine ⟨rfl, ?_⟩
      have := deleteCalls_passCalls h entries st1
      simpa [publishResults, deleteCalls] using this
    | error err =>
      rw [recording_processEvents_error h st st1 err hf]
      exact ⟨rfl, rfl, rfl⟩

theorem World.Reads.readsRefl (w : World) : w.Reads w :=
  ⟨rfl, rfl, rfl, rfl, rfl, rfl, [], by simp, by simp⟩

theorem World.Reads.readsThen {w w1 w2 : World} (h1 : w.Reads w1) (h2 : w1.Reads w2) :
    w.Reads w2 := by
  obtain ⟨l1, hl1, hc1⟩ := h1.log
  obtain ⟨l2, hl2, hc2⟩ := h2.log
  refine ⟨h2.db.trans h1.db, h2.orderCache.trans h1.orderCache,
    h2.idemCache.trans h1.idemCache, h2.clock.trans h1.clock, h2.nextID.trans h1.nextID,
    h2.fail.trans h1.fail, l1 ++ l2, by rw [hl2, hl1, List.append_assoc], ?_⟩
  intro c hc
  rcases List.mem_append.mp hc with h | h
  · exact hc1 c h
  · exact hc2 c h

theorem World.call_reads (w : World) (c : ExtCall) (hc : c.onDatabase = true) :
    w.Reads (w.call c).2 :=
  ⟨rfl, rfl, rfl, rfl, rfl, rfl, [c], rfl, by simpa using hc⟩

theorem FindByID_reads {T : Type} (c : Coll) (get : DB → ObjectID → Option T) (id : String)
    (w : World) : w.Reads (BaseRepository.FindByID c get id w).2 := by
  unfold BaseRepository.FindByID
  split
  · exact World.Reads.readsRefl w
  · split
    · rename_i h; have := w.call_reads (.findOne c) rfl; rw [h] at this; exact this
    · rename_i h; have := w.call_reads (.findOne c) rfl; rw [h] at this
      split <;> exact this

theorem FindByID_ok {T : Type} {c : Coll} {get : DB → ObjectID → Option T} {id : String}
    {w w1 : World} {entity : T}
    (h : BaseRepository.FindByID c get id w = (.ok entity, w1)) :
    ∃ objectID, ObjectIDFromHex id = .ok objectID ∧ get w.db objectID = some entity := by
  unfold BaseRepository.FindByID at h
  split at h
  · simp at h
  · rename_i objectID hid
    refine ⟨objectID, hid, ?_⟩
    split at h
    · simp at h
    · rename_i w2 hc
      have hdb : w2.db = w.db := by
        have := (w.call_reads (.findOne c) rfl).db; rw [hc] at this; exact this
      split at h
      · simp at h
      · rename_i e he
        simp only [Prod.mk.injEq, Except.ok.injEq] at h
        rw [← hdb, he, h.1]

theorem ProductService.GetByID_reads_product (id : ID) (w : World) :
    w.Reads (ProductService.GetByID id w).2 := by
  unfold ProductService.GetByID ProductRepository.GetByID
  have := FindByID_reads .products DB.products id w
  split <;> rename_i h <;> rw [h] at this <;> exact this

theorem ProductService.GetByID_ok_product {id : ID} {w w1 : World} {product : Product}
    (h : ProductService.GetByID id w = (.ok product, w1)) :
    ∃ objectID doc, ObjectIDFromHex id = .ok objectID ∧ w.db.products objectID = some doc ∧
      product = doc.ToDomain := by
  unfold ProductService.GetByID ProductRepository.GetByID at h
  split at h
  · simp at h
  · rename_i doc w2 hf
    obtain ⟨objectID, h1, h2⟩ := FindByID_ok hf
    simp only [Prod.mk.injEq, Except.ok.injEq] at h
    exact ⟨objectID, doc, h1, h2, h.1.symm⟩

theorem OrderRepository.GetByID_reads_order (id : ID) (w : World) :
    w.Reads (OrderRepository.GetByID id w).2 := by
  unfold OrderRepository.GetByID
  have := FindByID_reads .orders DB.orders id w
  split <;> rename_i h <;> rw [h] at this <;> exact this

theorem OrderRepository.GetByID_ok_order {id : ID} {w w1 : World} {order : Order}
    (h : OrderRepository.GetByID id w = (.ok order, w1)) :
    ∃ objectID doc, ObjectIDFromHex id = .ok objectID ∧ w.db.orders objectID = some doc ∧
      order = doc.ToDomain := by
  unfold OrderRepository.GetByID at h
  split at h
  · simp at h
  · rename_i doc w2 hf
    obtain ⟨objectID, h1, h2⟩ := FindByID_ok hf
    simp only [Prod.mk.injEq, Except.ok.injEq] at h
    exact ⟨objectID, doc, h1, h2, h.1.symm⟩

theorem CustomerService.Exists_reads (id : ID) (w : World) :
    w.Reads (CustomerService.Exists id w).2 := by
  unfold CustomerService.Exists CustomerRepository.Exists
  have := FindByID_reads .customers DB.customers id w
  split
  · rename_i err w1 h
    split at h
    · rename_i h2; rw [h2] at this
      simp only [Prod.mk.injEq] at h
      rw [← h.2]
      split <;> exact this
    · simp at h
  · rename_i b w1 h
    split at h
    · simp at h
    · rename_i h2; rw [h2] at this
      simp only [Prod.mk.injEq] at h
      rw [← h.2]; exact this

theorem getOrderItems_reads (dtoItems : List DtoOrderItem) :
    ∀ w : World, w.Reads (OrderService.getOrderItems dtoItems w).2 := by
  induction dtoItems with
  | nil => intro w; exact World.Reads.readsRefl w
  | cons item rest ih =>
    intro w
    unfold OrderService.getOrderItems
    have h1 := ProductService.GetByID_reads_product item.ProductID w
    split
    · rename_i h; rw [h] at h1; exact h1
    · rename_i product w1 h; rw [h] at h1
      have h2 := ih w1
      split <;> rename_i h3 <;> rw [h3] at h2 <;> exact h1.readsThen h2

theorem getOrderItems_ok (dtoItems : List DtoOrderItem) :
    ∀ (w w1 : World) (items : List OrderItem),
      OrderService.getOrderItems dtoItems w = (.ok items, w1) →
      List.Forall₂ (snapshotOf w.db) dtoItems items := by
  induction dtoItems with
  | nil =>
    intro w w1 items h
    simp only [OrderService.getOrderItems, Prod.mk.injEq, Except.ok.injEq] at h
    rw [← h.1]; exact List.Forall₂.nil
  | cons item rest ih =>
    intro w w1 items h
    unfold OrderService.getOrderItems at h
    split at h
    · simp at h
    · rename_i product w2 hp
      have hr := ProductService.GetByID_reads_product item.ProductID w
      rw [hp] at hr
      obtain ⟨objectID, doc, hid, hdoc, hprod⟩ := ProductService.GetByID_ok_product hp
      split at h
      · simp at h
      · rename_i items1 w3 hrest
        simp only [Prod.mk.injEq, Except.ok.injEq] at h
        have := ih w2 w3 items1 hrest
        rw [hr.db] at this
        rw [← h.1]
        refine List.Forall₂.cons ⟨objectID, doc, hid, hdoc, ?_⟩ this
        rw [hprod]; rfl

theorem World.Writes.writesRefl (w : World) : w.Writes w :=
  ⟨rfl, rfl, rfl, rfl, [], by simp, by simp⟩

theorem World.Writes.writesThen {w w1 w2 : World} (h1 : w.Writes w1) (h2 : w1.Writes w2) :
    w.Writes w2 := by
  obtain ⟨l1, hl1, hc1⟩ := h1.log
  obtain ⟨l2, hl2, hc2⟩ := h2.log
  refine ⟨h2.orderCache.trans h1.orderCache, h2.idemCache.trans h1.idemCache,
    h2.clock.trans h1.clock, h2.fail.trans h1.fail, l1 ++ l2,
    by rw [hl2, hl1, List.append_assoc], ?_⟩
  intro c hc
  rcases List.mem_append.mp hc with h | h
  · exact hc1 c h
  · exact hc2 c h

theorem World.Reads.writes {w w1 : World} (h : w.Reads w1) : w.Writes w1 :=
  ⟨h.orderCache, h.idemCache, h.clock, h.fail, h.log⟩

theorem DeductStock_writes (id : ID) (quantity : Int) (w : World) :
    w.Writes (ProductService.DeductStock id quantity w).2 := by
  unfold ProductService.DeductStock ProductRepository.DeductStock
  split
  · exact World.Writes.writesRefl w
  · have hc := (w.call_reads (.findOneAndUpdate .products) rfl).writes
    split
    · rename_i h; rw [h] at hc; exact hc
    · rename_i w1 h; rw [h] at hc
      split
      · exact hc
      · split
        · exact ⟨hc.orderCache, hc.idemCache, hc.clock, hc.fail, hc.log⟩
        · exact hc

theorem DeductStock_error {id : ID} {quantity : Int} {w w1 : World} {err : GoError}
    (h : ProductService.DeductStock id quantity w = (some err, w1)) : w1.db = w.db := by
  unfold ProductService.DeductStock ProductRepository.DeductStock at h
  split at h
  · simp only [Prod.mk.injEq] at h; rw [← h.2]
  · have hc := (w.call_reads (.findOneAndUpdate .products) rfl).db
    split at h
    · rename_i hcall; rw [hcall] at hc
      simp only [Prod.mk.injEq] at h; rw [← h.2]; exact hc
    · rename_i w2 hcall; rw [hcall] at hc
      split at h
      · simp only [Prod.mk.injEq] at h; rw [← h.2]; exact hc
      · split at h
        · simp at h
        · simp only [Prod.mk.injEq] at h; rw [← h.2]; exact hc

theorem DeductStock_ok {id : ID} {quantity : Int} {w w1 : World}
    (h : ProductService.DeductStock id quantity w = (none, w1)) :
    ∃ objectID doc, ObjectIDFromHex id = .ok objectID ∧ w.db.products objectID = some doc ∧
      quantity ≤ doc.Stock ∧
      w.fail w.log.length (.findOneAndUpdate .products) = none ∧
      w1.db.products = setKey w.db.products objectID
        (some { doc with Stock := doc.Stock + wrapInt (-quantity) }) ∧
      w1.db.orders = w.db.orders ∧ w1.db.customers = w.db.customers ∧
      w1.db.outbox = w.db.outbox := by
  unfold ProductService.DeductStock ProductRepository.DeductStock at h
  split at h
  · simp at h
  · rename_i objectID hid
    have hc := (w.call_reads (.findOneAndUpdate .products) rfl).db
    have hf : (w.call (.findOneAndUpdate .products)).1
        = (w.fail w.log.length (.findOneAndUpdate .products)).map GoError.plain := rfl
    split at h
    · simp at h
    · rename_i w2 hcall; rw [hcall] at hc hf
      split at h
      · simp at h
      · rename_i doc hdoc
        split at h
        · rename_i hle
          simp only [Prod.mk.injEq, true_and] at h
          refine ⟨objectID, doc, hid, hc ▸ hdoc, hle, ?_, ?_⟩
          · simpa using hf.symm
          · rw [← h, ← hc]; exact ⟨rfl, rfl, rfl, rfl⟩
        · simp at h

theorem deduct_writes (items : List OrderItem) :
    ∀ w : World, w.Writes (OrderService.processOrder.deduct items w).2 := by
  induction items with
  | nil => intro w; exact World.Writes.writesRefl w
  | cons item rest ih =>
    intro w
    unfold OrderService.processOrder.deduct
    have h1 := DeductStock_writes item.ProductID item.Quantity w
    split
    · rename_i h; rw [h] at h1; exact h1
    · rename_i w1 h; rw [h] at h1; exact h1.writesThen (ih w1)

theorem setKey_same {V : Type} (m : String → Option V) (k : String) (v : Option V) :
    setKey m k v k = v := by simp [setKey]

theorem setKey_other {V : Type} (m : String → Option V) (k x : String) (v : Option V)
    (h : x ≠ k) : setKey m k v x = m x := by simp [setKey, h]

theorem deduct_ok (items : List OrderItem) :
    ∀ w w1 : World, OrderService.processOrder.deduct items w = (none, w1) →
      w1.db.products = addStock w.db.products (stockDelta items) ∧
      w1.db.orders = w.db.orders ∧ w1.db.customers = w.db.customers ∧
      w1.db.outbox = w.db.outbox := by
  induction items with
  | nil =>
    intro w w1 h
    simp only [OrderService.processOrder.deduct, Prod.mk.injEq, true_and] at h
    subst h
    refine ⟨?_, rfl, rfl, rfl⟩
    funext objectID
    cases hp : w.db.products objectID <;> simp [addStock, stockDelta, hp]
  | cons item rest ih =>
    intro w w1 h
    unfold OrderService.processOrder.deduct at h
    split at h
    · simp at h
    · rename_i w2 hd
      obtain ⟨objectID, doc, hid, hdoc, _, _, hp, ho, hc, hx⟩ := DeductStock_ok hd
      obtain ⟨ip, io, ic, ix⟩ := ih w2 w1 h
      refine ⟨?_, io.trans ho, ic.trans hc, ix.trans hx⟩
      funext x
      rw [ip, hp]
      by_cases hxo : x = objectID
      · subst hxo
        simp [addStock, setKey_same, hdoc, stockDelta, refersTo, hid, add_assoc]
      · have hne : ¬ (objectID = x) := fun h => hxo h.symm
        simp [addStock, setKey_other _ _ _ _ hxo, stockDelta, refersTo, hid, hne]

theorem ToDocument_items_world (items : List OrderItem) :
    ∀ w : World, ∃ n, (ToDocument.items items w).2 = { w with nextID := n } ∧
      (ToDocument.items items w).1.length = items.length := by
  induction items with
  | nil => intro w; exact ⟨w.nextID, rfl, rfl⟩
  | cons item rest ih =>
    intro w
    simp only [ToDocument.items]
    by_cases hi : item.ID ≠ ""
    · rw [if_pos hi]
      obtain ⟨n, h1, h2⟩ := ih w
      exact ⟨n, h1, by simp [h2]⟩
    · rw [if_neg hi]
      simp only [World.newObjectID]
      obtain ⟨n, h1, h2⟩ := ih { w with nextID := w.nextID + 1 }
      exact ⟨n, h1, by simp [h2]⟩

theorem zipWith_sameButID (items : List OrderItem) :
    ∀ docs : List OrderItemDocument, docs.length = items.length →
      List.Forall₂ sameButID items
        (List.zipWith (fun (item : OrderItem) (d : OrderItemDocument) =>
          { item with ID := d.ID }) items docs) := by
  induction items with
  | nil => intro docs _; simp
  | cons item rest ih =>
    intro docs hlen
    cases docs with
    | nil => simp at hlen
    | cons d ds =>
      simp only [List.zipWith_cons_cons]
      exact List.Forall₂.cons ⟨rfl, rfl, rfl, rfl⟩ (ih ds (by simpa using hlen))

theorem Create_writes (order : Order) (w : World) :
    w.Writes (OrderRepository.Create order w).2 := by
  unfold OrderRepository.Create
  split
  · exact World.Writes.writesRefl w
  · obtain ⟨n, hn, _⟩ := ToDocument_items_world order.Items w
    simp only [ToDocument, hn]
    have h0 : w.Writes { w with nextID := n } := ⟨rfl, rfl, rfl, rfl, [], by simp, by simp⟩
    have hc := (World.call_reads { w with nextID := n } (.insertOne .orders) rfl).writes
    split
    · rename_i h; rw [h] at hc; exact h0.writesThen hc
    · rename_i w2 h; rw [h] at hc
      have h2 := h0.writesThen hc
      simp only [World.newObjectID]
      split
      · exact ⟨h2.orderCache, h2.idemCache, h2.clock, h2.fail, h2.log⟩
      · exact ⟨h2.orderCache, h2.idemCache, h2.clock, h2.fail, h2.log⟩

theorem Create_error {order order1 : Order} {w w1 : World} {err : GoError}
    (h : OrderRepository.Create order w = ((some err, order1), w1)) : w1.db = w.db := by
  unfold OrderRepository.Create at h
  split at h
  · simp only [Prod.mk.injEq] at h; rw [← h.2]
  · obtain ⟨n, hn, _⟩ := ToDocument_items_world order.Items w
    simp only [ToDocument, hn] at h
    have hc := (World.call_reads { w with nextID := n } (.insertOne .orders) rfl).db
    split at h
    · rename_i hcall; rw [hcall] at hc
      simp only [Prod.mk.injEq] at h; rw [← h.2]; exact hc
    · rename_i w2 hcall; rw [hcall] at hc
      simp only [World.newObjectID] at h
      split at h
      · simp only [Prod.mk.injEq] at h; rw [← h.2]; exact hc
      · simp at h

theorem Create_ok {order order1 : Order} {w w1 : World}
    (h : OrderRepository.Create order w = ((none, order1), w1)) :
    w1.db.products = w.db.products ∧ w1.db.customers = w.db.customers ∧
    w1.db.outbox = w.db.outbox ∧
    (∃ doc, w.db.orders order1.ID = none ∧
      w1.db.orders = setKey w.db.orders order1.ID (some doc) ∧ doc.ID = order1.ID ∧
      doc.Status = order.Status ∧ doc.TotalAmount = order.TotalAmount) ∧
    order1.CustomerID = order.CustomerID ∧ order1.Status = order.Status ∧
    order1.TotalAmount = order.TotalAmount ∧
    List.Forall₂ sameButID order.Items order1.Items := by
  unfold OrderRepository.Create at h
  split at h
  · simp at h
  · obtain ⟨n, hn, hlen⟩ := ToDocument_items_world order.Items w
    simp only [ToDocument, hn] at h
    have hc := (World.call_reads { w with nextID := n } (.insertOne .orders) rfl).db
    split at h
    · simp at h
    · rename_i w2 hcall; rw [hcall] at hc
      simp only [World.newObjectID] at h
      split at h
      · simp at h
      · rename_i hfree
        simp only [Prod.mk.injEq, true_and] at h
        obtain ⟨ho, hw⟩ := h
        subst ho hw
        simp only at hfree hc ⊢
        rw [hc] at hfree ⊢
        refine ⟨rfl, rfl, rfl, ⟨_, hfree, rfl, rfl, rfl, rfl⟩, trivial, trivial, trivial, ?_⟩
        exact zipWith_sameButID order.Items _ hlen

theorem sessionWithTransaction_error {σ : Type} {st st1 : σ}
    {fn : σ → World → (Option GoError × σ) × World} {w w1 : World} {err : GoError}
    (h : sessionWithTransaction st fn w = ((some err, st1), w1)) : w1.db = w.db := by
  unfold sessionWithTransaction at h
  split at h
  · simp only [Prod.mk.injEq] at h; rw [← h.2]
  · split at h
    · simp only [Prod.mk.injEq] at h; rw [← h.2]
    · simp at h

theorem sessionWithTransaction_ok {σ : Type} {st st1 : σ}
    {fn : σ → World → (Option GoError × σ) × World} {w w1 : World}
    (h : sessionWithTransaction st fn w = ((none, st1), w1)) :
    ∃ w2, fn st w = ((none, st1), w2) ∧ w1 = { w2 with log := w2.log ++ [.commit] } ∧
      w2.fail w2.log.length .commit = none := by
  unfold sessionWithTransaction at h
  split at h
  · simp at h
  · rename_i st2 w2 hfn
    have hf : (w2.call .commit) = ((w2.fail w2.log.length .commit).map GoError.plain,
      { w2 with log := w2.log ++ [.commit] }) := rfl
    split at h
    · simp at h
    · rename_i w3 hcall
      rw [hf] at hcall
      simp only [Prod.mk.injEq, true_and] at h hcall
      obtain ⟨h1, h2⟩ := h
      subst h1 h2
      exact ⟨w2, hfn, hcall.2.symm, by simpa using hcall.1⟩

theorem sessionWithTransaction_writes {σ : Type} (st : σ)
    (fn : σ → World → (Option GoError × σ) × World) (w : World)
    (hfn : w.Writes (fn st w).2) : w.Writes (sessionWithTransaction st fn w).2 := by
  unfold sessionWithTransaction
  split
  · rename_i h; rw [h] at hfn
    exact ⟨hfn.orderCache, hfn.idemCache, hfn.clock, hfn.fail, hfn.log⟩
  · rename_i st1 w1 h; rw [h] at hfn
    have hc := (w1.call_reads .commit rfl).writes
    split
    · rename_i hcall; rw [hcall] at hc
      have := hfn.writesThen hc
      exact ⟨this.orderCache, this.idemCache, this.clock, this.fail, this.log⟩
    · rename_i hcall; rw [hcall] at hc
      exact hfn.writesThen hc

theorem WithTransaction_error {σ : Type} {st st1 : σ}
    {fn : σ → World → (Option GoError × σ) × World} {w w1 : World} {err : GoError}
    (h : TransactionManager.WithTransaction st fn w = ((some err, st1), w1)) :
    w1.db = w.db := by
  unfold TransactionManager.WithTransaction at h
  have hc := (w.call_reads .startSession rfl).db
  split at h
  · rename_i hcall; rw [hcall] at hc
    simp only [Prod.mk.injEq] at h; rw [← h.2]; exact hc
  · rename_i w2 hcall; rw [hcall] at hc
    exact (sessionWithTransaction_error h).trans hc

theorem WithTransaction_ok {σ : Type} {st st1 : σ}
    {fn : σ → World → (Option GoError × σ) × World} {w w1 : World}
    (h : TransactionManager.WithTransaction st fn w = ((none, st1), w1)) :
    ∃ w2, fn st { w with log := w.log ++ [.startSession] } = ((none, st1), w2) ∧
      w1 = { w2 with log := w2.log ++ [.commit] } := by
  unfold TransactionManager.WithTransaction at h
  have hf : (w.call .startSession) = ((w.fail w.log.length .startSession).map GoError.plain,
      { w with log := w.log ++ [.startSession] }) := rfl
  split at h
  · simp at h
  · rename_i w2 hcall
    rw [hf] at hcall
    simp only [Prod.mk.injEq] at hcall
    obtain ⟨w3, h1, h2, _⟩ := sessionWithTransaction_ok h
    rw [← hcall.2] at h1
    exact ⟨w3, h1, h2⟩

theorem WithTransaction_writes {σ : Type} (st : σ)
    (fn : σ → World → (Option GoError × σ) × World) (w : World)
    (hfn : ∀ w0 : World, w0.Writes (fn st w0).2) :
    w.Writes (TransactionManager.WithTransaction st fn w).2 := by
  unfold TransactionManager.WithTransaction
  have hc := (w.call_reads .startSession rfl).writes
  split
  · rename_i hcall; rw [hcall] at hc; exact hc
  · rename_i w2 hcall; rw [hcall] at hc
    exact hc.writesThen (sessionWithTransaction_writes st fn w2 (hfn w2))

theorem body_writes (order : Order) (w : World) :
    w.Writes (OrderService.processOrder.body order w).2 := by
  unfold OrderService.processOrder.body
  have h1 := deduct_writes order.Items w
  split
  · rename_i h; rw [h] at h1; exact h1
  · rename_i w1 h; rw [h] at h1
    exact h1.writesThen (Create_writes order w1)

theorem body_ok {order order1 : Order} {w w1 : World}
    (h : OrderService.processOrder.body order w = ((none, order1), w1)) :
    w1.db.products = addStock w.db.products (stockDelta order.Items) ∧
    w1.db.customers = w.db.customers ∧ w1.db.outbox = w.db.outbox ∧
    (∃ doc, w.db.orders order1.ID = none ∧
      w1.db.orders = setKey w.db.orders order1.ID (some doc) ∧ doc.ID = order1.ID ∧
      doc.Status = order.Status ∧ doc.TotalAmount = order.TotalAmount) ∧
    order1.CustomerID = order.CustomerID ∧ order1.Status = order.Status ∧
    order1.TotalAmount = order.TotalAmount ∧
    List.Forall₂ sameButID order.Items order1.Items := by
  unfold OrderService.processOrder.body at h
  split at h
  · simp at h
  · rename_i w2 hd
    obtain ⟨dp, dor, dc, dx⟩ := deduct_ok order.Items w w2 hd
    obtain ⟨cp, cc, cx, ⟨doc, c1, c2, c3⟩, rest⟩ := Create_ok h
    refine ⟨cp.trans dp, cc.trans dc, cx.trans dx, ⟨doc, ?_, ?_, c3⟩, rest⟩
    · rw [← dor]; exact c1
    · rw [← dor]; exact c2

theorem processOrder_writes (request : CreateOrderRequest) (w : World) :
    w.Writes (OrderService.processOrder request w).2 := by
  unfold OrderService.processOrder
  split
  · exact World.Writes.writesRefl w
  · have h1 := (CustomerService.Exists_reads request.CustomerID w).writes
    split
    · rename_i h; rw [h] at h1; exact h1
    · rename_i w1 h; rw [h] at h1
      have h2 := (getOrderItems_reads request.Items w1).writes
      split
      · rename_i h'; rw [h'] at h2; exact h1.writesThen h2
      · rename_i items w2 h'; rw [h'] at h2
        have h3 := WithTransaction_writes
          (NewOrder w2.clock request.CustomerID OrderStatusCreated items)
          OrderService.processOrder.body w2 (fun w0 => body_writes _ w0)
        simp only
        split <;> rename_i h'' <;> rw [h''] at h3 <;> exact (h1.writesThen h2).writesThen h3

theorem processOrder_error {request : CreateOrderRequest} {w w1 : World} {err : GoError}
    (h : OrderService.processOrder request w = (.error err, w1)) : w1.db = w.db := by
  unfold OrderService.processOrder at h
  split at h
  · simp only [Prod.mk.injEq] at h; rw [← h.2]
  · have h1 := (CustomerService.Exists_reads request.CustomerID w).db
    split at h
    · rename_i hc; rw [hc] at h1
      simp only [Prod.mk.injEq] at h; rw [← h.2]; exact h1
    · rename_i w2 hc; rw [hc] at h1
      have h2 := (getOrderItems_reads request.Items w2).db
      split at h
      · rename_i hg; rw [hg] at h2
        simp only [Prod.mk.injEq] at h; rw [← h.2]; exact h2.trans h1
      · rename_i items w3 hg; rw [hg] at h2
        simp only at h
        split at h
        · rename_i ht
          simp only [Prod.mk.injEq] at h; rw [← h.2]
          exact ((WithTransaction_error ht).trans h2).trans h1
        · simp at h

theorem processOrder_ok {request : CreateOrderRequest} {w w1 : World} {order : Order}
    (h : OrderService.processOrder request w = (.ok order, w1)) :
    request.Items.length ≤ ORDER_MAX_ITEMS ∧
    ∃ items, List.Forall₂ (snapshotOf w.db) request.Items items ∧
      List.Forall₂ sameButID items order.Items ∧
      order.CustomerID = request.CustomerID ∧ order.Status = OrderStatusCreated ∧
      order.TotalAmount = CalculateTotalAmount items ∧
      w1.db.products = addStock w.db.products (stockDelta items) ∧
      w1.db.customers = w.db.customers ∧ w1.db.outbox = w.db.outbox ∧
      ∃ doc, w.db.orders order.ID = none ∧
        w1.db.orders = setKey w.db.orders order.ID (some doc) ∧ doc.ID = order.ID ∧
        doc.Status = OrderStatusCreated ∧ doc.TotalAmount = order.TotalAmount := by
  unfold OrderService.processOrder at h
  split at h
  · simp at h
  · rename_i hlen
    refine ⟨by omega, ?_⟩
    have h1 := (CustomerService.Exists_reads request.CustomerID w).db
    split at h
    · simp at h
    · rename_i w2 hc; rw [hc] at h1
      have h2 := (getOrderItems_reads request.Items w2).db
      split at h
      · simp at h
      · rename_i items w3 hg; rw [hg] at h2
        have hsnap := getOrderItems_ok request.Items w2 w3 items hg
        rw [h1] at hsnap
        simp only at h
        split at h
        · simp at h
        · rename_i order1 w4 ht
          simp only [Prod.mk.injEq, Except.ok.injEq] at h
          obtain ⟨ho, hw⟩ := h
          subst ho hw
          obtain ⟨w5, hb, hw4⟩ := WithTransaction_ok ht
          obtain ⟨bp, bc, bx, ⟨doc, b1, b2, b3, b4, b5⟩, oc, os, ot, oi⟩ := body_ok hb
          have hdb : w3.db = w.db := h2.trans h1
          simp only [NewOrder] at bp b4 b5 oc os ot oi
          refine ⟨items, hsnap, oi, oc, os, ot, ?_, ?_, ?_, doc, ?_, ?_, b3, b4, ?_⟩
          · rw [hw4]; simp only; rw [bp, hdb]
          · rw [hw4]; simp only; rw [bc, hdb]
          · rw [hw4]; simp only; rw [bx, hdb]
          · rw [← hdb]; exact b1
          · rw [hw4]; simp only; rw [b2, hdb]
          · rw [b5, ot]

theorem World.IdemOnly.idemRefl (w : World) : w.IdemOnly w :=
  ⟨rfl, rfl, rfl, rfl, [], by simp, by simp⟩

theorem World.IdemOnly.idemThen {w w1 w2 : World} (h1 : w.IdemOnly w1) (h2 : w1.IdemOnly w2) :
    w.IdemOnly w2 := by
  obtain ⟨l1, hl1, hc1⟩ := h1.log
  obtain ⟨l2, hl2, hc2⟩ := h2.log
  refine ⟨h2.db.trans h1.db, h2.orderCache.trans h1.orderCache, h2.clock.trans h1.clock,
    h2.fail.trans h1.fail, l1 ++ l2, by rw [hl2, hl1, List.append_assoc], ?_⟩
  intro c hc
  rcases List.mem_append.mp hc with h | h
  · exact hc1 c h
  · exact hc2 c h

theorem Get_idem (key : String) (w : World) :
    RedisCache.Get idemCacheRef key w =
      (match w.fail w.log.length (.cacheGet .idempotency) with
        | some msg => .error (.plain msg)
        | none => .ok ((w.idemCache key).map (fun c => c.value)),
       { w with log := w.log ++ [.cacheGet .idempotency] }) := by
  unfold RedisCache.Get
  simp only [World.call, idemCacheRef]
  cases w.fail w.log.length (.cacheGet .idempotency) <;> rfl

theorem SetNX_idem (key : String) (value : IdempotencyEntry) (ttl : Nat) (w : World) :
    RedisCache.SetNX idemCacheRef key value ttl w =
      match w.fail w.log.length (.cacheSetNX .idempotency) with
      | some msg => (.error (.plain msg), { w with log := w.log ++ [.cacheSetNX .idempotency] })
      | none =>
        match w.idemCache key with
        | some _ => (.ok false, { w with log := w.log ++ [.cacheSetNX .idempotency] })
        | none => (.ok true, { w with
            log := w.log ++ [.cacheSetNX .idempotency]
            idemCache := setKey w.idemCache key (some { value := value, ttl := ttl }) }) := by
  unfold RedisCache.SetNX
  simp only [World.call, idemCacheRef]
  cases w.fail w.log.length (.cacheSetNX .idempotency)
  · simp only [Option.map_none']
    cases w.idemCache key <;> rfl
  · rfl

theorem Set_idem (key : String) (value : IdempotencyEntry) (ttl : Nat) (w : World) :
    RedisCache.Set idemCacheRef key value ttl w =
      match w.fail w.log.length (.cacheSet .idempotency) with
      | some msg => (some (.plain msg), { w with log := w.log ++ [.cacheSet .idempotency] })
      | none => (none, { w with
          log := w.log ++ [.cacheSet .idempotency]
          idemCache := setKey w.idemCache key (some { value := value, ttl := ttl }) }) := by
  unfold RedisCache.Set
  simp only [World.call, idemCacheRef]
  cases w.fail w.log.length (.cacheSet .idempotency) <;> rfl

theorem Del_idem (key : String) (w : World) :
    RedisCache.Del idemCacheRef key w =
      match w.fail w.log.length (.cacheDel .idempotency) with
      | some msg => (some (.plain msg), { w with log := w.log ++ [.cacheDel .idempotency] })
      | none => (none, { w with
          log := w.log ++ [.cacheDel .idempotency]
          idemCache := setKey w.idemCache key none }) := by
  unfold RedisCache.Del
  simp only [World.call, idemCacheRef]
  cases w.fail w.log.length (.cacheDel .idempotency) <;> rfl

theorem idemOnly_of_log (w : World) (c : ExtCall) (hc : c.onIdempotencyCache = true)
    (cache : Cache IdempotencyEntry) :
    w.IdemOnly { w with log := w.log ++ [c], idemCache := cache } :=
  ⟨rfl, rfl, rfl, rfl, [c], rfl, by simpa using hc⟩

theorem checkEntry_eq (s : IdempotencyService) (key payloadHash : String) (w : World) :
    s.checkEntry key payloadHash w =
      (match w.fail w.log.length (.cacheGet .idempotency) with
        | some msg => .error (.wrapped "idempotency check failed" (.plain msg))
        | none => checkResult payloadHash ((w.idemCache key).map (fun c => c.value)),
       { w with log := w.log ++ [.cacheGet .idempotency] }) := by
  unfold IdempotencyService.checkEntry
  rw [Get_idem]
  cases w.fail w.log.length (.cacheGet .idempotency) with
  | some msg => rfl
  | none =>
    simp only
    cases w.idemCache key with
    | none => rfl
    | some c =>
      simp only [Option.map_some', checkResult]
      split <;> [rfl; (split <;> rfl)]

theorem checkEntry_idemOnly (s : IdempotencyService) (key payloadHash : String) (w : World) :
    w.IdemOnly (s.checkEntry key payloadHash w).2 ∧
      (s.checkEntry key payloadHash w).2.idemCache = w.idemCache := by
  rw [checkEntry_eq]
  exact ⟨⟨rfl, rfl, rfl, rfl, [.cacheGet .idempotency], rfl, by simp [ExtCall.onIdempotencyCache]⟩,
    rfl⟩

/-- A successful check that returns an order has read a completed entry with the
same payload hash and that order as its result. -/
theorem checkEntry_some {s : IdempotencyService} {key payloadHash : String} {w w1 : World}
    {result : Order} (h : s.checkEntry key payloadHash w = (.ok (some result), w1)) :
    ∃ c, w1.idemCache key = some c ∧ c.value.PayloadHash = payloadHash ∧
      c.value.Status = IdempotencyCompleted ∧ c.value.Result = some result := by
  rw [checkEntry_eq] at h
  simp only [Prod.mk.injEq] at h
  obtain ⟨h1, h2⟩ := h
  subst h2
  cases hf : w.fail w.log.length (.cacheGet .idempotency) with
  | some msg => rw [hf] at h1; simp at h1
  | none =>
    rw [hf] at h1
    simp only at h1
    cases hc : w.idemCache key with
    | none => rw [hc] at h1; simp [checkResult] at h1
    | some c =>
      rw [hc] at h1
      simp only [Option.map_some', checkResult] at h1
      refine ⟨c, rfl, ?_⟩
      by_cases hp : c.value.PayloadHash ≠ payloadHash
      · rw [if_pos hp] at h1; simp at h1
      · rw [if_neg hp] at h1
        by_cases hs : c.value.Status = IdempotencyCompleted
        · rw [if_pos hs] at h1
          simp only [Except.ok.injEq] at h1
          exact ⟨not_not.mp hp, hs, h1⟩
        · rw [if_neg hs] at h1; simp at h1

theorem loop_idemOnly (s : IdempotencyService) (key payloadHash : String)
    (wakes : List Wake) :
    ∀ w : World, w.IdemOnly (IdempotencyService.waitForCompletion.loop s key payloadHash wakes w).2 := by
  induction wakes with
  | nil => intro w; exact World.IdemOnly.idemRefl w
  | cons wake rest ih =>
    intro w
    cases wake with
    | done err => exact World.IdemOnly.idemRefl w
    | timeout => exact World.IdemOnly.idemRefl w
    | tick others =>
      unfold IdempotencyService.waitForCompletion.loop
      have h0 : w.IdemOnly { w with idemCache := others w.idemCache } :=
        ⟨rfl, rfl, rfl, rfl, [], by simp, by simp⟩
      have h1 := (checkEntry_idemOnly s key payloadHash
        { w with idemCache := others w.idemCache }).1
      split
      · rename_i h; rw [h] at h1; exact h0.idemThen h1
      · rename_i h; rw [h] at h1; exact h0.idemThen h1
      · rename_i w1 h; rw [h] at h1; exact (h0.idemThen h1).idemThen (ih w1)

theorem loop_result (s : IdempotencyService) (key payloadHash : String)
    (wakes : List Wake) :
    ∀ (w w1 : World) (r : Option Order),
      IdempotencyService.waitForCompletion.loop s key payloadHash wakes w = (.ok r, w1) →
      ∃ result, r = some result ∧ completedWith w1 key payloadHash result := by
  induction wakes with
  | nil => intro w w1 r h; simp [IdempotencyService.waitForCompletion.loop] at h
  | cons wake rest ih =>
    intro w w1 r h
    cases wake with
    | done err => simp [IdempotencyService.waitForCompletion.loop] at h
    | timeout => simp [IdempotencyService.waitForCompletion.loop] at h
    | tick others =>
      unfold IdempotencyService.waitForCompletion.loop at h
      split at h
      · simp at h
      · rename_i result w2 hc
        simp only [Prod.mk.injEq, Except.ok.injEq] at h
        obtain ⟨h1, h2⟩ := h
        subst h1 h2
        exact ⟨result, rfl, checkEntry_some hc⟩
      · rename_i w2 hc
        exact ih w2 w1 r h

theorem waitForCompletion_idemOnly (s : IdempotencyService) (ctx : Context)
    (key payloadHash : String) (w : World) :
    w.IdemOnly (s.waitForCompletion ctx key payloadHash w).2 := by
  unfold IdempotencyService.waitForCompletion
  have h1 := (checkEntry_idemOnly s key payloadHash w).1
  split
  · rename_i h; rw [h] at h1; exact h1
  · rename_i h; rw [h] at h1; exact h1
  · rename_i w1 h; rw [h] at h1
    exact h1.idemThen (loop_idemOnly s key payloadHash ctx.wakes w1)

theorem waitForCompletion_result {s : IdempotencyService} {ctx : Context}
    {key payloadHash : String} {w w1 : World} {r : Option Order}
    (h : s.waitForCompletion ctx key payloadHash w = (.ok r, w1)) :
    ∃ result, r = some result ∧ completedWith w1 key payloadHash result := by
  unfold IdempotencyService.waitForCompletion at h
  split at h
  · simp at h
  · rename_i result w2 hc
    simp only [Prod.mk.injEq, Except.ok.injEq] at h
    obtain ⟨h1, h2⟩ := h
    subst h1 h2
    exact ⟨result, rfl, checkEntry_some hc⟩
  · exact loop_result s key payloadHash ctx.wakes _ w1 r h

theorem Claim_idemOnly (s : IdempotencyService) (ctx : Context) (key payloadHash : String)
    (w : World) : w.IdemOnly (s.Claim ctx key payloadHash w).2 := by
  unfold IdempotencyService.Claim
  rw [SetNX_idem]
  cases w.fail w.log.length (.cacheSetNX .idempotency) with
  | some msg =>
    exact idemOnly_of_log w (.cacheSetNX .idempotency) rfl w.idemCache
  | none =>
    cases w.idemCache key with
    | none => exact idemOnly_of_log w (.cacheSetNX .idempotency) rfl _
    | some c =>
      exact (idemOnly_of_log w (.cacheSetNX .idempotency) rfl w.idemCache).idemThen
        (waitForCompletion_idemOnly s ctx key payloadHash _)

/-- Claim returns (nil, nil) only by inserting the processing entry under a free key. -/
theorem Claim_none {s : IdempotencyService} {ctx : Context} {key payloadHash : String}
    {w w1 : World} (h : s.Claim ctx key payloadHash w = (.ok none, w1)) :
    w.idemCache key = none ∧
    w1 = { w with
      log := w.log ++ [.cacheSetNX .idempotency]
      idemCache := setKey w.idemCache key (some
        { value := { Status := IdempotencyProcessing, PayloadHash := payloadHash,
                     Result := none },
          ttl := s.ttl }) } := by
  unfold IdempotencyService.Claim at h
  rw [SetNX_idem] at h
  cases hf : w.fail w.log.length (.cacheSetNX .idempotency) with
  | some msg => rw [hf] at h; simp at h
  | none =>
    rw [hf] at h
    cases hc : w.idemCache key with
    | none =>
      rw [hc] at h
      simp only [Prod.mk.injEq, true_and] at h
      exact ⟨rfl, h.symm⟩
    | some c =>
      rw [hc] at h
      simp only at h
      obtain ⟨result, hr, _⟩ := waitForCompletion_result h
      simp at hr

theorem Claim_some {s : IdempotencyService} {ctx : Context} {key payloadHash : String}
    {w w1 : World} {result : Order}
    (h : s.Claim ctx key payloadHash w = (.ok (some result), w1)) :
    completedWith w1 key payloadHash result := by
  unfold IdempotencyService.Claim at h
  rw [SetNX_idem] at h
  cases hf : w.fail w.log.length (.cacheSetNX .idempotency) with
  | some msg => rw [hf] at h; simp at h
  | none =>
    rw [hf] at h
    cases hc : w.idemCache key with
    | none => rw [hc] at h; simp at h
    | some c =>
      rw [hc] at h
      simp only at h
      obtain ⟨result1, hr, hcw⟩ := waitForCompletion_result h
      simp only [Option.some.injEq] at hr
      rw [hr]; exact hcw

theorem forall₂_snapshot {db : DB} :
    ∀ (requested : List DtoOrderItem) (items items1 : List OrderItem),
      List.Forall₂ (snapshotOf db) requested items → List.Forall₂ sameButID items items1 →
      List.Forall₂ (carriesSnapshot db) requested items1 := by
  intro requested
  induction requested with
  | nil =>
    intro items items1 h1 h2
    cases h1; cases h2; exact List.Forall₂.nil
  | cons r rs ih =>
    intro items items1 h1 h2
    cases h1 with
    | cons hr hrs =>
      cases h2 with
      | cons hs hss =>
        refine List.Forall₂.cons ?_ (ih _ _ hrs hss)
        obtain ⟨objectID, doc, hid, hdoc, heq⟩ := hr
        obtain ⟨s1, s2, s3, s4⟩ := hs
        subst heq
        exact ⟨s1, s3, objectID, doc, hid, hdoc, s4, s2⟩

theorem exactTotal_sameButID :
    ∀ (items items1 : List OrderItem), List.Forall₂ sameButID items items1 →
      exactTotal items1 = exactTotal items := by
  intro items
  induction items with
  | nil => intro items1 h; cases h; rfl
  | cons a as ih =>
    intro items1 h
    cases h with
    | cons hs hss =>
      have := ih _ hss
      simp only [exactTotal, List.map_cons, List.sum_cons] at this ⊢
      rw [this, hs.2.2.1, hs.2.2.2]

theorem stockDelta_sameButID (objectID : ObjectID) :
    ∀ (items items1 : List OrderItem), List.Forall₂ sameButID items items1 →
      stockDelta items1 objectID = stockDelta items objectID := by
  intro items
  induction items with
  | nil => intro items1 h; cases h; rfl
  | cons a as ih =>
    intro items1 h
    cases h with
    | cons hs hss =>
      simp only [stockDelta]
      rw [ih _ hss, hs.1, hs.2.2.1]

theorem wrapInt_neg_eq (q : Int) (h1 : minInt < q) (h2 : q ≤ maxInt) : wrapInt (-q) = -q := by
  apply wrapInt_eq_self
  · unfold minInt maxInt at *; omega
  · unfold minInt maxInt at *; omega

theorem stockDelta_snapshot (db : DB) (objectID : ObjectID) :
    ∀ (requested : List DtoOrderItem) (items : List OrderItem),
      List.Forall₂ (snapshotOf db) requested items →
      (∀ r ∈ requested, minInt < r.Quantity ∧ r.Quantity ≤ maxInt) →
      stockDelta items objectID = - requestedQuantity requested objectID := by
  intro requested
  induction requested with
  | nil => intro items h _; cases h; rfl
  | cons r rs ih =>
    intro items h hq
    cases h with
    | cons hr hrs =>
      obtain ⟨oid, doc, hid, hdoc, heq⟩ := hr
      have hrest := ih _ hrs (fun x hx => hq x (List.mem_cons_of_mem _ hx))
      have hr := hq r (List.mem_cons_self _ _)
      subst heq
      simp only [stockDelta, NewOrderItem, hrest, requestedQuantity, List.filter_cons]
      by_cases href : refersTo r.ProductID objectID = true
      · simp only [href, if_true, List.map_cons, List.sum_cons]
        rw [wrapInt_neg_eq _ hr.1 hr.2]
        ring
      · simp only [href]
        simp

theorem Complete_idemOnly (s : IdempotencyService) (key payloadHash : String)
    (result : Option Order)
    (w : World) : w.IdemOnly (s.Complete key payloadHash result w) := by
  unfold IdempotencyService.Complete
  rw [Set_idem]
  cases w.fail w.log.length (.cacheSet .idempotency) with
  | some msg => exact idemOnly_of_log w (.cacheSet .idempotency) rfl w.idemCache
  | none => exact idemOnly_of_log w (.cacheSet .idempotency) rfl _

theorem Release_idemOnly (s : IdempotencyService) (key : String) (w : World) :
    w.IdemOnly (s.Release key w) := by
  unfold IdempotencyService.Release
  rw [Del_idem]
  cases w.fail w.log.length (.cacheDel .idempotency) with
  | some msg => exact idemOnly_of_log w (.cacheDel .idempotency) rfl w.idemCache
  | none => exact idemOnly_of_log w (.cacheDel .idempotency) rfl _

/-- A successful `CreateOrder` either returns what `Claim` found stored, or has
run `processOrder` after claiming the key (or without a key). -/
theorem CreateOrder_ok_cases {s : OrderService} {ctx : Context} {key : String}
    {request : CreateOrderRequest} {w w1 : World} {order : Order}
    (h : s.CreateOrder ctx key request w = (.ok order, w1)) :
    (key ≠ "" ∧ s.idempotency.Claim ctx key (s.HashJSON request) w = (.ok (some order), w1)) ∨
    (∃ w0 w2, OrderService.processOrder request w0 = (.ok order, w2) ∧
      ((key = "" ∧ w0 = w ∧ w1 = w2) ∨
       (key ≠ "" ∧ s.idempotency.Claim ctx key (s.HashJSON request) w = (.ok none, w0) ∧
        w1 = s.idempotency.Complete key (s.HashJSON request) (some order) w2))) := by
  unfold OrderService.CreateOrder at h
  split at h
  · rename_i hk
    exact Or.inr ⟨w, w1, h, Or.inl ⟨hk, rfl, rfl⟩⟩
  · rename_i hk
    simp only at h
    split at h
    · simp at h
    · rename_i existing w2 hc
      simp only [Prod.mk.injEq, Except.ok.injEq] at h
      obtain ⟨h1, h2⟩ := h
      subst h1 h2
      exact Or.inl ⟨hk, hc⟩
    · rename_i w2 hc
      split at h
      · simp at h
      · rename_i order1 w3 hp
        simp only [Prod.mk.injEq, Except.ok.injEq] at h
        obtain ⟨h1, h2⟩ := h
        subst h1
        exact Or.inr ⟨w2, w3, hp, Or.inr ⟨hk, hc, h2.symm⟩⟩

theorem CreateOrder_error_db {s : OrderService} {ctx : Context} {key : String}
    {request : CreateOrderRequest} {w w1 : World} {err : GoError}
    (h : s.CreateOrder ctx key request w = (.error err, w1)) : w1.db = w.db := by
  unfold OrderService.CreateOrder at h
  split at h
  · exact processOrder_error h
  · simp only at h
    have hc := (Claim_idemOnly s.idempotency ctx key (s.HashJSON request) w).db
    split at h
    · rename_i hcl; rw [hcl] at hc
      simp only [Prod.mk.injEq] at h; rw [← h.2]; exact hc
    · simp at h
    · rename_i w2 hcl; rw [hcl] at hc
      split at h
      · rename_i err1 w3 hp
        simp only [Prod.mk.injEq] at h
        rw [← h.2, (Release_idemOnly s.idempotency key w3).db, processOrder_error hp, hc]
      · simp at h

/-- C1 (amended).  A successful CreateOrder either returns the order that Claim
found stored under the idempotency key, or it has processed the request itself,
and then: the items of the returned order are the request items in request
order, each with the name and the unit price of its product as the product
store held them at the call; the status is created; and TotalAmount is the sum
over the items of Quantity × UnitPrice reduced to the signed 64-bit range of a
Go int, hence that sum itself (0 for no items) whenever the sum lies in the range. -/
theorem createOrder_items_status_total (s : OrderService) (ctx : Context) (key : String)
    (request : CreateOrderRequest) (w w1 : World) (order : Order)
    (h : s.CreateOrder ctx key request w = (.ok order, w1)) :
    (key ≠ "" ∧
      s.idempotency.Claim ctx key (s.HashJSON request) w = (.ok (some order), w1)) ∨
    (List.Forall₂ (carriesSnapshot w.db) request.Items order.Items ∧
      order.Status = OrderStatusCreated ∧
      order.TotalAmount = wrapInt (exactTotal order.Items) ∧
      (minInt ≤ exactTotal order.Items → exactTotal order.Items ≤ maxInt →
        order.TotalAmount = exactTotal order.Items)) := by
  rcases CreateOrder_ok_cases h with hreplay | ⟨w0, w2, hp, hpath⟩
  · exact Or.inl hreplay
  · right
    obtain ⟨_, items, hsnap, hsame, _, hstatus, htotal, _⟩ := processOrder_ok hp
    have hdb : w0.db = w.db := by
      rcases hpath with ⟨_, h0, _⟩ | ⟨_, hc, _⟩
      · rw [h0]
      · have := (Claim_idemOnly s.idempotency ctx key (s.HashJSON request) w).db
        rw [hc] at this; exact this
    have ht : order.TotalAmount = wrapInt (exactTotal order.Items) := by
      rw [htotal, CalculateTotalAmount_eq, exactTotal_sameButID _ _ hsame]
    refine ⟨?_, hstatus, ht, ?_⟩
    · rw [← hdb]; exact forall₂_snapshot _ _ _ hsnap hsame
    · intro h1 h2
      rw [ht, wrapInt_eq_self _ h1 h2]

/-- C1, witness: the order for three units of a product priced 2999 in the example world. -/
theorem createOrder_items_status_total_witness :
    exampleService.CreateOrder exampleContext "" requestA exampleWorld
      = (.ok orderA, (exampleService.CreateOrder exampleContext "" requestA exampleWorld).2) ∧
    orderA.TotalAmount = exactTotal orderA.Items ∧ exactTotal orderA.Items = 3 * 2999 := by
  have h : exampleService.CreateOrder exampleContext "" requestA exampleWorld
      = (.ok orderA, (exampleService.CreateOrder exampleContext "" requestA exampleWorld).2) :=
    Prod.ext rfl rfl
  refine ⟨h, ?_, by decide⟩
  rcases createOrder_items_status_total exampleService exampleContext "" requestA exampleWorld
    _ orderA h with hr | ⟨_, _, _, hexact⟩
  · exact absurd rfl hr.1
  · exact hexact (by decide) (by decide)

/-- C1 as stated fails: the order for two units of a product priced 2^62 is
created with TotalAmount −2^63, while the sum of Quantity × UnitPrice is 2^63. -/
theorem createOrder_total_overflow :
    (exampleService.CreateOrder exampleContext "" requestBig exampleWorld).1.toOption.map
      (fun order => (order.Items.map (fun item => (item.Quantity, item.UnitPrice)),
        order.TotalAmount, exactTotal order.Items))
      = some ([(2, 4611686018427387904)], -9223372036854775808, 9223372036854775808) := by
  decide

/-- C2 (amended).  Over the in-memory product store: a successful CreateOrder
that replays a stored result leaves the database as it was; a successful
CreateOrder that processes the request, none of whose quantities is the smallest
Go int, leaves every product with its stock before the call minus the total
quantity of the request items that reference it and otherwise as it was, so a
product that no request item references is unchanged. -/
theorem createOrder_stock_after (s : OrderService) (ctx : Context) (key : String)
    (request : CreateOrderRequest) (w w1 : World) (order : Order)
    (h : s.CreateOrder ctx key request w = (.ok order, w1))
    (hq : ∀ item ∈ request.Items, minInt < item.Quantity ∧ item.Quantity ≤ maxInt) :
    (key ≠ "" ∧
      s.idempotency.Claim ctx key (s.HashJSON request) w = (.ok (some order), w1) ∧
      w1.db = w.db) ∨
    ((∀ objectID, w1.db.products objectID = (w.db.products objectID).map
        (fun doc => { doc with Stock := doc.Stock - requestedQuantity request.Items objectID })) ∧
      (∀ objectID, (∀ item ∈ request.Items, refersTo item.ProductID objectID = false) →
        w1.db.products objectID = w.db.products objectID)) := by
  rcases CreateOrder_ok_cases h with hreplay | ⟨w0, w2, hp, hpath⟩
  · left
    have := (Claim_idemOnly s.idempotency ctx key (s.HashJSON request) w).db
    rw [hreplay.2] at this
    exact ⟨hreplay.1, hreplay.2, this⟩
  · right
    obtain ⟨_, items, hsnap, _, _, _, _, hprod, _⟩ := processOrder_ok hp
    have hdb0 : w0.db = w.db := by
      rcases hpath with ⟨_, h0, _⟩ | ⟨_, hc, _⟩
      · rw [h0]
      · have := (Claim_idemOnly s.idempotency ctx key (s.HashJSON request) w).db
        rw [hc] at this; exact this
    have hdb1 : w1.db = w2.db := by
      rcases hpath with ⟨_, _, h1⟩ | ⟨_, _, h1⟩
      · rw [h1]
      · rw [h1]; exact (Complete_idemOnly s.idempotency key _ order w2).db
    have hall : ∀ objectID, w1.db.products objectID = (w.db.products objectID).map
        (fun doc => { doc with Stock := doc.Stock - requestedQuantity request.Items objectID }) := by
      intro objectID
      rw [hdb1, hprod, hdb0]
      simp only [addStock]
      rw [stockDelta_snapshot w0.db objectID request.Items items hsnap hq]
      cases w.db.products objectID with
      | none => rfl
      | some doc => simp only [Option.map_some', Int.sub_eq_add_neg]
    refine ⟨hall, ?_⟩
    intro objectID hno
    rw [hall objectID]
    have hz : requestedQuantity request.Items objectID = 0 := by
      unfold requestedQuantity
      rw [List.filter_eq_nil_iff.mpr (fun item hi => by simp [hno item hi])]
      rfl
    rw [hz]
    cases w.db.products objectID with
    | none => rfl
    | some doc => simp

/-- C2, witness: processing `requestA` in the example world takes the stock of `pidA` from 50 to 47. -/
theorem createOrder_stock_after_witness :
    exampleService.CreateOrder exampleContext "" requestA exampleWorld
      = (.ok orderA, (exampleService.CreateOrder exampleContext "" requestA exampleWorld).2) ∧
    (∀ item ∈ requestA.Items, minInt < item.Quantity ∧ item.Quantity ≤ maxInt) ∧
    requestedQuantity requestA.Items pidA = 3 ∧
    (exampleWorld.db.products pidA).map (fun doc => doc.Stock) = some 50 ∧
    ((exampleService.CreateOrder exampleContext "" requestA exampleWorld).2.db.products pidA).map
      (fun doc => doc.Stock) = some (50 - requestedQuantity requestA.Items pidA) := by
  have h : exampleService.CreateOrder exampleContext "" requestA exampleWorld
      = (.ok orderA, (exampleService.CreateOrder exampleContext "" requestA exampleWorld).2) :=
    Prod.ext rfl rfl
  have hq : ∀ item ∈ requestA.Items, minInt < item.Quantity ∧ item.Quantity ≤ maxInt := by
    decide
  refine ⟨h, hq, by decide, by decide, ?_⟩
  rcases createOrder_stock_after exampleService exampleContext "" requestA exampleWorld
    _ orderA h hq with hr | ⟨hall, _⟩
  · exact absurd rfl hr.1
  · rw [hall pidA]; rfl

/-- C2 as stated fails on a replay: the second of two CreateOrder calls with the
same key and request succeeds, and the stock of the product it names is 47
before and after it, not 47 minus the requested 3.  It also fails for the
quantity −2^63: that order is created and takes the stock from 50 to 50 − 2^63. -/
theorem createOrder_replay_keeps_stock :
    ((exampleService.CreateOrder exampleContext "k1" requestA exampleWorld).2.db.products
        pidA).map (fun doc => doc.Stock) = some 47 ∧
    (exampleService.CreateOrder exampleContext "k1" requestA
        (exampleService.CreateOrder exampleContext "k1" requestA exampleWorld).2).1 = .ok orderA ∧
    ((exampleService.CreateOrder exampleContext "k1" requestA
        (exampleService.CreateOrder exampleContext "k1" requestA exampleWorld).2).2.db.products
        pidA).map (fun doc => doc.Stock) = some 47 ∧
    requestedQuantity requestA.Items pidA = 3 ∧
    (exampleService.CreateOrder exampleContext "" requestMinInt exampleWorld).1.toOption.isSome
      = true ∧
    ((exampleService.CreateOrder exampleContext "" requestMinInt exampleWorld).2.db.products
        pidA).map (fun doc => doc.Stock) = some (-9223372036854775758) := by
  refine ⟨by decide, rfl, by decide, by decide, by decide, by decide⟩

/-- C3.  If CreateOrder returns an error, at whatever step, the database after
the call is the database before it: no stock has changed and no order document
has been added (nor a customer or an outbox entry). -/
theorem createOrder_error_rolls_back (s : OrderService) (ctx : Context) (key : String)
    (request : CreateOrderRequest) (w w1 : World) (err : GoError)
    (h : s.CreateOrder ctx key request w = (.error err, w1)) :
    w1.db = w.db ∧ w1.db.products = w.db.products ∧ w1.db.orders = w.db.orders := by
  have := CreateOrder_error_db h
  exact ⟨this, by rw [this], by rw [this]⟩

/-- C3, witness: the second item of `requestShort` fails for lack of stock after
the first was deducted (stock 48 inside the transaction); CreateOrder returns the
error and the database is the one before the call. -/
theorem createOrder_error_rolls_back_witness :
    exampleService.CreateOrder exampleContext "" requestShort exampleWorld
      = (.error (NewUnprocessableEntityError
          "insufficient stock for product aabbccddee112233aabbccd2"),
        (exampleService.CreateOrder exampleContext "" requestShort exampleWorld).2) ∧
    ((OrderService.processOrder.deduct
        [NewOrderItem pidA "Widget" 2 2999, NewOrderItem pidB "Gem" 5 4611686018427387904]
        exampleWorld).2.db.products pidA).map (fun doc => doc.Stock) = some 48 ∧
    (exampleService.CreateOrder exampleContext "" requestShort exampleWorld).2.db
      = exampleWorld.db := by
  have h : exampleService.CreateOrder exampleContext "" requestShort exampleWorld
      = (.error (NewUnprocessableEntityError
          "insufficient stock for product aabbccddee112233aabbccd2"),
        (exampleService.CreateOrder exampleContext "" requestShort exampleWorld).2) :=
    Prod.ext rfl rfl
  exact ⟨h, by decide,
    (createOrder_error_rolls_back exampleService exampleContext "" requestShort exampleWorld
      _ _ h).1⟩

/-- After a successful `CreateOrder` under a key, the key holds an entry: the
completed one with the returned order, unless the cache write of `Complete` failed. -/
theorem CreateOrder_leaves_entry {s : OrderService} {ctx : Context} {key : String}
    {request : CreateOrderRequest} {w w1 : World} {order : Order} (hk : key ≠ "")
    (h : s.CreateOrder ctx key request w = (.ok order, w1)) :
    w1.fail = w.fail ∧ (∃ c, w1.idemCache key = some c) ∧
    (completedWith w1 key (s.HashJSON request) order ∨
      ∃ n, w.fail n (.cacheSet .idempotency) ≠ none) := by
  rcases CreateOrder_ok_cases h with ⟨_, hc⟩ | ⟨w0, w2, hp, hpath⟩
  · have hf := (Claim_idemOnly s.idempotency ctx key (s.HashJSON request) w).fail
    rw [hc] at hf
    have hcw := Claim_some hc
    obtain ⟨c, h1, _⟩ := hcw
    exact ⟨hf, ⟨c, h1⟩, Or.inl ⟨c, h1, by assumption⟩⟩
  · rcases hpath with ⟨hk0, _, _⟩ | ⟨_, hc, hw1⟩
    · exact absurd hk0 hk
    · obtain ⟨_, hw0⟩ := Claim_none hc
      have hwr := processOrder_writes request w0
      rw [hp] at hwr
      have hfail2 : w2.fail = w.fail := by rw [hwr.fail, hw0]
      have hidem2 : w2.idemCache key = some
          { value := { Status := IdempotencyProcessing, PayloadHash := s.HashJSON request,
                       Result := none },
            ttl := s.idempotency.ttl } := by
        rw [hwr.idemCache, hw0]; exact setKey_same _ _ _
      unfold IdempotencyService.Complete at hw1
      rw [Set_idem] at hw1
      cases hf : w2.fail w2.log.length (.cacheSet .idempotency) with
      | some msg =>
        rw [hf] at hw1
        simp only at hw1
        subst hw1
        refine ⟨hfail2, ⟨_, hidem2⟩, Or.inr ⟨w2.log.length, ?_⟩⟩
        rw [← hfail2, hf]; simp
      | none =>
        rw [hf] at hw1
        simp only at hw1
        subst hw1
        exact ⟨hfail2, ⟨_, setKey_same _ _ _⟩, Or.inl ⟨_, setKey_same _ _ _, rfl, rfl, rfl⟩⟩

/-- Under a key that holds an entry, `CreateOrder` makes commands on the
idempotency cache and nothing else. -/
theorem CreateOrder_present_idemOnly (s : OrderService) (ctx : Context) {key : String}
    (request : CreateOrderRequest) {w : World} {c : Cached IdempotencyEntry} (hk : key ≠ "")
    (hc : w.idemCache key = some c) :
    w.IdemOnly (s.CreateOrder ctx key request w).2 := by
  unfold OrderService.CreateOrder
  rw [if_neg hk]
  simp only
  have hi := Claim_idemOnly s.idempotency ctx key (s.HashJSON request) w
  split
  · rename_i h; rw [h] at hi; exact hi
  · rename_i h; rw [h] at hi; exact hi
  · rename_i w2 h
    have := (Claim_none h).1
    rw [hc] at this
    simp at this

/-- Under a key that holds a completed entry with the payload hash of the
request, `CreateOrder` returns the stored order after one SetNX and one Get. -/
theorem CreateOrder_present_completed (s : OrderService) (ctx : Context) {key : String}
    (request : CreateOrderRequest) {w : World} {order : Order} (hk : key ≠ "")
    (hc : completedWith w key (s.HashJSON request) order)
    (hsetnx : ∀ n, w.fail n (.cacheSetNX .idempotency) = none)
    (hget : ∀ n, w.fail n (.cacheGet .idempotency) = none) :
    s.CreateOrder ctx key request w = (.ok order,
      { w with log := w.log ++ [.cacheSetNX .idempotency, .cacheGet .idempotency] }) := by
  obtain ⟨c, h1, h2, h3, h4⟩ := hc
  unfold OrderService.CreateOrder
  rw [if_neg hk]
  simp only
  unfold IdempotencyService.Claim
  rw [SetNX_idem, hsetnx, h1]
  simp only
  unfold IdempotencyService.waitForCompletion
  rw [checkEntry_eq, hget]
  simp only [h1, Option.map_some', checkResult, h2, h3, h4, ne_eq, not_true_eq_false,
    if_false, if_true, List.append_assoc, List.singleton_append]

/-- C4 (amended).  After a CreateOrder with a non-empty idempotency key has
returned an order, a second CreateOrder with the same key and request makes
commands on the idempotency cache only (no customer check, no product lookup,
no stock deduction, no order insert) and leaves the database as the first call
left it, so the stock shows the one deduction; and when the commands on the
idempotency cache go through (the Set of the first call's Complete, the SetNX
and the Get of the second call), the second call returns the very order of the
first, hence the same id, after one SetNX and one Get. -/
theorem createOrder_same_key_same_order (s : OrderService) (ctx1 ctx2 : Context)
    (key : String) (request : CreateOrderRequest) (w w1 : World) (order1 : Order)
    (hk : key ≠ "") (h1 : s.CreateOrder ctx1 key request w = (.ok order1, w1)) :
    (s.CreateOrder ctx2 key request w1).2.db = w1.db ∧
    (∃ l, (s.CreateOrder ctx2 key request w1).2.log = w1.log ++ l ∧
      ∀ c ∈ l, ExtCall.onIdempotencyCache c = true) ∧
    ((∀ n, w.fail n (.cacheSet .idempotency) = none) →
      (∀ n, w.fail n (.cacheSetNX .idempotency) = none) →
      (∀ n, w.fail n (.cacheGet .idempotency) = none) →
      (s.CreateOrder ctx2 key request w1).1 = .ok order1 ∧
      (s.CreateOrder ctx2 key request w1).2.log
        = w1.log ++ [.cacheSetNX .idempotency, .cacheGet .idempotency]) := by
  obtain ⟨hfail, ⟨c, hc⟩, hentry⟩ := CreateOrder_leaves_entry hk h1
  have hi := CreateOrder_present_idemOnly s ctx2 request hk hc
  refine ⟨hi.db, hi.log, ?_⟩
  intro hset hsetnx hget
  rcases hentry with hcw | ⟨n, hn⟩
  · rw [CreateOrder_present_completed s ctx2 request hk hcw
      (by rw [hfail]; exact hsetnx) (by rw [hfail]; exact hget)]
    exact ⟨rfl, rfl⟩
  · exact absurd (hset n) hn

/-- C4, witness: two calls with the key `k1` and `requestA` in the example world. -/
theorem createOrder_same_key_same_order_witness :
    exampleService.CreateOrder exampleContext "k1" requestA exampleWorld
      = (.ok orderA, (exampleService.CreateOrder exampleContext "k1" requestA exampleWorld).2) ∧
    (exampleService.CreateOrder exampleContext "k1" requestA
      (exampleService.CreateOrder exampleContext "k1" requestA exampleWorld).2).1
      = .ok orderA ∧
    (exampleService.CreateOrder exampleContext "k1" requestA
      (exampleService.CreateOrder exampleContext "k1" requestA exampleWorld).2).2.db
      = (exampleService.CreateOrder exampleContext "k1" requestA exampleWorld).2.db := by
  have h : exampleService.CreateOrder exampleContext "k1" requestA exampleWorld
      = (.ok orderA, (exampleService.CreateOrder exampleContext "k1" requestA exampleWorld).2) :=
    Prod.ext rfl rfl
  have hall := createOrder_same_key_same_order exampleService exampleContext exampleContext
    "k1" requestA exampleWorld _ orderA (by decide) h
  exact ⟨h, (hall.2.2 (fun _ => rfl) (fun _ => rfl) (fun _ => rfl)).1, hall.1⟩

/-- C5.  When the idempotency key holds an entry whose payload hash differs from
that of the request, whatever the status of the entry, CreateOrder (its SetNX
and its Get going through) fails with UnprocessableEntity "idempotency key
already used with a different payload", and all it has done is that SetNX and
that Get: nothing is processed, the database and the caches are as before. -/
theorem createOrder_payload_mismatch (s : OrderService) (ctx : Context) (key : String)
    (request : CreateOrderRequest) (w : World) (c : Cached IdempotencyEntry)
    (hk : key ≠ "") (hc : w.idemCache key = some c)
    (hh : c.value.PayloadHash ≠ s.HashJSON request)
    (hsetnx : ∀ n, w.fail n (.cacheSetNX .idempotency) = none)
    (hget : ∀ n, w.fail n (.cacheGet .idempotency) = none) :
    s.CreateOrder ctx key request w =
      (.error (NewUnprocessableEntityError
          "idempotency key already used with a different payload"),
       { w with log := w.log ++ [.cacheSetNX .idempotency, .cacheGet .idempotency] }) := by
  unfold OrderService.CreateOrder
  rw [if_neg hk]
  simp only
  unfold IdempotencyService.Claim
  rw [SetNX_idem, hsetnx, hc]
  simp only
  unfold IdempotencyService.waitForCompletion
  rw [checkEntry_eq, hget]
  simp only [hc, Option.map_some', checkResult, hh, ne_eq, not_false_eq_true, if_true,
    List.append_assoc, List.singleton_append]

/-- C5, witness: `requestBig` under the key of `requestA`, once with the entry
completed and once with the entry left processing because `Complete` failed. -/
theorem createOrder_payload_mismatch_witness :
    ((exampleService.CreateOrder exampleContext "k1" requestA exampleWorld).2.idemCache
        "k1").map (fun c => c.value.Status) = some "completed" ∧
    (exampleService.CreateOrder exampleContext "k1" requestBig
      (exampleService.CreateOrder exampleContext "k1" requestA exampleWorld).2).1
      = .error (NewUnprocessableEntityError
          "idempotency key already used with a different payload") ∧
    ((exampleService.CreateOrder exampleContext "k1" requestA worldSetFails).2.idemCache
        "k1").map (fun c => c.value.Status) = some "processing" ∧
    (exampleService.CreateOrder exampleContext "k1" requestBig
      (exampleService.CreateOrder exampleContext "k1" requestA worldSetFails).2).1
      = .error (NewUnprocessableEntityError
          "idempotency key already used with a different payload") := by
  refine ⟨by decide, ?_, by decide, ?_⟩
  · rw [createOrder_payload_mismatch exampleService exampleContext "k1" requestBig
      (exampleService.CreateOrder exampleContext "k1" requestA exampleWorld).2
      { value := { Status := "completed", PayloadHash := exampleHash requestA,
                   Result := some orderA },
        ttl := 5 * Minute }
      (by decide) rfl (by decide) (fun _ => rfl) (fun _ => rfl)]
  · rw [createOrder_payload_mismatch exampleService exampleContext "k1" requestBig
      (exampleService.CreateOrder exampleContext "k1" requestA worldSetFails).2
      { value := { Status := "processing", PayloadHash := exampleHash requestA,
                   Result := none },
        ttl := 5 * Minute }
      (by decide) rfl (by decide) (fun _ => rfl) (fun _ => rfl)]

/-- DeductStock on an existing product, for a quantity other than the smallest
Go int and a driver call that goes through: it succeeds and leaves the stock at
s − q (touching no other product) when q ≤ s, and otherwise fails with
UnprocessableEntity and leaves the database unchanged. -/
theorem deductStock_conditional (id : ID) (quantity : Int) (w : World) (objectID : ObjectID)
    (doc : ProductDocument) (hid : ObjectIDFromHex id = .ok objectID)
    (hdoc : w.db.products objectID = some doc)
    (hcall : w.fail w.log.length (.findOneAndUpdate .products) = none)
    (hq : minInt < quantity ∧ quantity ≤ maxInt) :
    (quantity ≤ doc.Stock →
      (ProductRepository.DeductStock id quantity w).1 = none ∧
      (ProductRepository.DeductStock id quantity w).2.db.products objectID
        = some { doc with Stock := doc.Stock - quantity } ∧
      ∀ x, x ≠ objectID →
        (ProductRepository.DeductStock id quantity w).2.db.products x = w.db.products x) ∧
    (doc.Stock < quantity →
      (ProductRepository.DeductStock id quantity w).1
        = some (NewUnprocessableEntityError ("insufficient stock for product " ++ id)) ∧
      (ProductRepository.DeductStock id quantity w).2.db = w.db) := by
  unfold ProductRepository.DeductStock
  simp only [hid, World.call, hcall, Option.map_none', hdoc]
  constructor
  · intro hle
    simp only [hle, if_true, true_and]
    refine ⟨?_, fun x hx => setKey_other _ _ _ _ hx⟩
    rw [setKey_same, wrapInt_neg_eq _ hq.1 hq.2, Int.sub_eq_add_neg]
  · intro hlt
    have : ¬ quantity ≤ doc.Stock := not_le.mpr hlt
    simp only [this, if_false, and_self]

theorem deductStock_keeps_nonneg_step (id : ID) (quantity : Int) (w : World)
    (hq : minInt < quantity ∧ quantity ≤ maxInt) (hw : stockNonNegative w) :
    stockNonNegative (ProductRepository.DeductStock id quantity w).2 := by
  cases hr : ProductRepository.DeductStock id quantity w with
  | mk r w1 =>
    cases r with
    | some err =>
      have : w1.db = w.db := DeductStock_error (by simpa [ProductService.DeductStock] using hr)
      intro objectID doc hd
      rw [this] at hd
      exact hw objectID doc hd
    | none =>
      obtain ⟨oid, doc0, _, hdoc0, hle, _, hp, _⟩ :=
        DeductStock_ok (by simpa [ProductService.DeductStock] using hr)
      intro objectID doc hd
      simp only at hd
      rw [hp] at hd
      by_cases hx : objectID = oid
      · subst hx
        rw [setKey_same] at hd
        simp only [Option.some.injEq] at hd
        rw [← hd]
        simp only
        rw [wrapInt_neg_eq _ hq.1 hq.2]
        have := hw objectID doc0 hdoc0
        omega
      · rw [setKey_other _ _ _ _ hx] at hd
        exact hw objectID doc hd

/-- No sequence of DeductStock calls with quantities other than the smallest Go
int takes a product from a non-negative stock to a negative one. -/
theorem deductStock_keeps_nonneg (calls : List (ID × Int))
    (hq : ∀ c ∈ calls, minInt < c.2 ∧ c.2 ≤ maxInt) :
    ∀ w : World, stockNonNegative w → stockNonNegative (deductAll calls w) := by
  induction calls with
  | nil => intro w hw; exact hw
  | cons c rest ih =>
    intro w hw
    exact ih (fun x hx => hq x (List.mem_cons_of_mem _ hx)) _
      (deductStock_keeps_nonneg_step c.1 c.2 w (hq c (List.mem_cons_self _ _)) hw)

/-- C6, the failing input.  DeductStock with the quantity −2^63 on the product
`pidA`, whose stock is 50, returns no error and leaves the stock at 50 − 2^63:
the filter `stock ≥ quantity` holds and the increment `-quantity` overflows back
to −2^63. -/
theorem deductStock_minInt_makes_stock_negative :
    (exampleWorld.db.products pidA).map (fun doc => doc.Stock) = some 50 ∧
    (ProductRepository.DeductStock pidA (-9223372036854775808) exampleWorld).1 = none ∧
    ((ProductRepository.DeductStock pidA (-9223372036854775808) exampleWorld).2.db.products
      pidA).map (fun doc => doc.Stock) = some (-9223372036854775758) := by
  decide

theorem Insert_writes (entry : Entry) (w : World) :
    w.Writes (OutboxRepository.Insert entry w).2 := by
  unfold OutboxRepository.Insert
  have hc := (w.call_reads (.insertOne .outbox) rfl).writes
  split
  · rename_i h; rw [h] at hc; exact hc
  · rename_i w1 h; rw [h] at hc
    exact ⟨hc.orderCache, hc.idemCache, hc.clock, hc.fail, hc.log⟩

theorem Insert_writes_of_eq {entry : Entry} {w w1 : World} {r : Option GoError}
    (h : OutboxRepository.Insert entry w = (r, w1)) : w.Writes w1 := by
  have := Insert_writes entry w
  rw [h] at this
  exact this

theorem World.writes_db (w : World) (db1 : DB) : w.Writes { w with db := db1 } :=
  ⟨rfl, rfl, rfl, rfl, [], by simp, by simp⟩

theorem updateBody_writes (objectID : ObjectID) (status : OrderStatus)
    (event : OrderUpdateStatusEvent) (eventData : JSON) (w : World) :
    w.Writes (OrderRepository.UpdateStatusWithOutbox.body objectID status event eventData
      () w).2 := by
  unfold OrderRepository.UpdateStatusWithOutbox.body
  have hc := (w.call_reads (.updateOne .orders) rfl).writes
  split
  · rename_i h; rw [h] at hc; exact hc
  · rename_i w1 h; rw [h] at hc
    split
    · exact hc
    · rename_i doc hdoc
      simp only
      split <;> rename_i h2 <;>
        exact (hc.writesThen (World.writes_db _ _)).writesThen (Insert_writes_of_eq h2)

theorem UpdateStatusWithOutbox_writes (id : ID) (status : OrderStatus)
    (event : OrderUpdateStatusEvent) (w : World) :
    w.Writes (OrderRepository.UpdateStatusWithOutbox id status event w).2 := by
  unfold OrderRepository.UpdateStatusWithOutbox
  split
  · exact World.Writes.writesRefl w
  · rename_i objectID hid
    simp only
    have hc := (w.call_reads .startSession rfl).writes
    split
    · rename_i h; rw [h] at hc; exact hc
    · rename_i w1 h; rw [h] at hc
      have hs := sessionWithTransaction_writes ()
        (OrderRepository.UpdateStatusWithOutbox.body objectID status event event.marshal) w1
        (updateBody_writes objectID status event event.marshal w1)
      exact hc.writesThen hs

theorem UpdateStatusWithOutbox_error {id : ID} {status : OrderStatus}
    {event : OrderUpdateStatusEvent} {w w1 : World} {err : GoError}
    (h : OrderRepository.UpdateStatusWithOutbox id status event w = (some err, w1)) :
    w1.db = w.db := by
  unfold OrderRepository.UpdateStatusWithOutbox at h
  split at h
  · simp only [Prod.mk.injEq] at h; rw [← h.2]
  · rename_i objectID hid
    simp only at h
    have hc := (w.call_reads .startSession rfl).db
    split at h
    · rename_i hcall; rw [hcall] at hc
      simp only [Prod.mk.injEq] at h; rw [← h.2]; exact hc
    · rename_i w2 hcall; rw [hcall] at hc
      simp only [Prod.mk.injEq] at h
      obtain ⟨h1, h2⟩ := h
      have hs : sessionWithTransaction ()
          (OrderRepository.UpdateStatusWithOutbox.body objectID status event event.marshal) w2
          = ((some err, ()), w1) := by
        rw [← h1, ← h2]
      exact (sessionWithTransaction_error hs).trans hc

theorem UpdateStatusWithOutbox_ok {id : ID} {status : OrderStatus}
    {event : OrderUpdateStatusEvent} {w w1 : World}
    (h : OrderRepository.UpdateStatusWithOutbox id status event w = (none, w1)) :
    ∃ objectID doc, ObjectIDFromHex id = .ok objectID ∧ w.db.orders objectID = some doc ∧
      w1.db.orders = setKey w.db.orders objectID
        (some { doc with Status := status, UpdatedAt := w.clock }) ∧
      w1.db.outbox = w.db.outbox ++ [outboxDocumentOf w event] ∧
      w1.db.products = w.db.products ∧ w1.db.customers = w.db.customers ∧
      w1.log = w.log ++ [.startSession, .updateOne .orders, .insertOne .outbox, .commit] ∧
      w1.clock = w.clock := by
  unfold OrderRepository.UpdateStatusWithOutbox at h
  split at h
  · simp at h
  · rename_i objectID hid
    simp only [World.call] at h
    cases hf1 : w.fail w.log.length .startSession with
    | some m => rw [hf1] at h; simp at h
    | none =>
      rw [hf1] at h
      simp only [Option.map_none', sessionWithTransaction,
        OrderRepository.UpdateStatusWithOutbox.body, World.call] at h
      cases hf2 : w.fail (w.log ++ [ExtCall.startSession]).length (.updateOne .orders) with
      | some m => rw [hf2] at h; simp at h
      | none =>
        rw [hf2] at h
        simp only [Option.map_none'] at h
        cases hdoc : w.db.orders objectID with
        | none => rw [hdoc] at h; simp at h
        | some doc =>
          rw [hdoc] at h
          simp only [OutboxRepository.Insert, World.call] at h
          cases hf3 : w.fail (w.log ++ [ExtCall.startSession] ++ [ExtCall.updateOne .orders]).length
              (.insertOne .outbox) with
          | some m => rw [hf3] at h; simp at h
          | none =>
            rw [hf3] at h
            simp only [Option.map_none', World.newObjectID] at h
            cases hf4 : w.fail (w.log ++ [ExtCall.startSession] ++ [ExtCall.updateOne .orders]
                ++ [ExtCall.insertOne .outbox]).length .commit with
            | some m => rw [hf4] at h; simp at h
            | none =>
              rw [hf4] at h
              simp only [Option.map_none', Prod.mk.injEq, true_and] at h
              subst h
              refine ⟨objectID, doc, hid, hdoc, rfl, rfl, rfl, rfl, ?_, rfl⟩
              simp

theorem FindByID_ok_world {T : Type} {c : Coll} {get : DB → ObjectID → Option T} {id : String}
    {w w1 : World} {entity : T}
    (h : BaseRepository.FindByID c get id w = (.ok entity, w1)) :
    w1 = { w with log := w.log ++ [.findOne c] } := by
  unfold BaseRepository.FindByID at h
  split at h
  · simp at h
  · simp only [World.call] at h
    cases hf : w.fail w.log.length (.findOne c) with
    | some m => rw [hf] at h; simp at h
    | none =>
      rw [hf] at h
      simp only [Option.map_none'] at h
      split at h
      · simp at h
      · simp only [Prod.mk.injEq] at h; exact h.2.symm

theorem OrderRepository.GetByID_world_order {id : ID} {w w1 : World} {order : Order}
    (h : OrderRepository.GetByID id w = (.ok order, w1)) :
    w1 = { w with log := w.log ++ [.findOne .orders] } := by
  unfold OrderRepository.GetByID at h
  split at h
  · simp at h
  · rename_i doc w2 hf
    simp only [Prod.mk.injEq] at h
    rw [← h.2]; exact FindByID_ok_world hf

theorem Set_order (key : String) (value : Order) (ttl : Nat) (w : World) :
    RedisCache.Set orderCacheRef key value ttl w =
      match w.fail w.log.length (.cacheSet .order) with
      | some msg => (some (.plain msg), { w with log := w.log ++ [.cacheSet .order] })
      | none => (none, { w with
          log := w.log ++ [.cacheSet .order]
          orderCache := setKey w.orderCache key (some { value := value, ttl := ttl }) }) := by
  unfold RedisCache.Set
  simp only [World.call, orderCacheRef]
  cases w.fail w.log.length (.cacheSet .order) <;> rfl

theorem Set_order_world (key : String) (value : Order) (ttl : Nat) (w : World) :
    (RedisCache.Set orderCacheRef key value ttl w).2.db = w.db ∧
    (RedisCache.Set orderCacheRef key value ttl w).2.log = w.log ++ [.cacheSet .order] := by
  rw [Set_order]
  cases w.fail w.log.length (.cacheSet .order) <;> exact ⟨rfl, rfl⟩

/-- C7.  A successful UpdateOrderStatus(id, s) on an order stored with status c
and customer u makes, after reading the order, one UpdateStatusWithOutbox call
and then one cache write (the log shows one transaction: start, the update of
the order, the insert into the outbox, commit).  That transaction sets the
status of the order to s and appends exactly one entry to the outbox, with
event name "order.update_status", entity name "order" and a JSON body whose
order_id is id, status is s, old_status is c and customer_id is u; products and
customers are untouched. -/
theorem updateOrderStatus_writes_status_and_event (id : ID) (status : OrderStatus)
    (w w1 : World) (objectID : ObjectID) (doc : OrderDocument)
    (hid : ObjectIDFromHex id = .ok objectID) (hdoc : w.db.orders objectID = some doc)
    (h : OrderService.UpdateOrderStatus id status w = (none, w1)) :
    w1.db.orders = setKey w.db.orders objectID
      (some { doc with Status := status, UpdatedAt := w.clock }) ∧
    (∃ entry, w1.db.outbox = w.db.outbox ++ [entry] ∧
      entry.EventName = "order.update_status" ∧ entry.EntityName = "order" ∧
      entry.EventData.field "order_id" = some (.str id) ∧
      entry.EventData.field "status" = some (.str status) ∧
      entry.EventData.field "old_status" = some (.str doc.Status) ∧
      entry.EventData.field "customer_id" = some (.str doc.CustomerID)) ∧
    w1.db.products = w.db.products ∧ w1.db.customers = w.db.customers ∧
    w1.log = w.log ++ [.findOne .orders, .startSession, .updateOne .orders,
      .insertOne .outbox, .commit, .cacheSet .order] := by
  unfold OrderService.UpdateOrderStatus at h
  split at h
  · simp at h
  · split at h
    · simp at h
    · rename_i order w0 hg
      obtain ⟨oid, doc0, hid0, hdoc0, hord⟩ := OrderRepository.GetByID_ok_order hg
      have hw0 := OrderRepository.GetByID_world_order hg
      rw [hid] at hid0
      simp only [Except.ok.injEq] at hid0
      subst hid0
      rw [hdoc] at hdoc0
      simp only [Option.some.injEq] at hdoc0
      subst hdoc0
      split at h
      · simp at h
      · simp only at h
        split at h
        · simp at h
        · rename_i w2 hu
          simp only [Prod.mk.injEq, true_and] at h
          obtain ⟨oid2, doc2, hid2, hdoc2, ho, hx, hp, hc, hl, hclock⟩ :=
            UpdateStatusWithOutbox_ok hu
          rw [hid] at hid2
          simp only [Except.ok.injEq] at hid2
          subst hid2
          have hdb0 : w0.db = w.db := by rw [hw0]
          have hcl0 : w0.clock = w.clock := by rw [hw0]
          have hlog0 : w0.log = w.log ++ [.findOne .orders] := by rw [hw0]
          rw [hdb0] at hdoc2 ho hx hp hc
          rw [hdoc] at hdoc2
          simp only [Option.some.injEq] at hdoc2
          subst hdoc2
          obtain ⟨sdb, slog⟩ := Set_order_world (OrderService.getCacheKey id)
            { order with Status := status, UpdatedAt := w2.clock } orderCacheTTL w2
          rw [← h, sdb, slog, hl, hlog0, ho, hx, hp, hc, hcl0]
          refine ⟨rfl, ⟨_, rfl, rfl, rfl, ?_, ?_, ?_, ?_⟩, rfl, rfl, by simp⟩
          · rfl
          · rfl
          · rw [hord]; rfl
          · rw [hord]; rfl

/-- C7, witness: the stored order goes from created to processing and the outbox gets one entry. -/
theorem updateOrderStatus_writes_status_and_event_witness :
    (worldWithOrder.db.orders oidOrderA).map (fun d => (d.Status, d.CustomerID))
      = some ("created", cidA) ∧
    OrderService.UpdateOrderStatus oidOrderA "processing" worldWithOrder
      = (none, (OrderService.UpdateOrderStatus oidOrderA "processing" worldWithOrder).2) ∧
    ((OrderService.UpdateOrderStatus oidOrderA "processing" worldWithOrder).2.db.orders
      oidOrderA).map (fun d => d.Status) = some "processing" ∧
    (OrderService.UpdateOrderStatus oidOrderA "processing" worldWithOrder).2.db.outbox.length
      = 1 := by
  have h : OrderService.UpdateOrderStatus oidOrderA "processing" worldWithOrder
      = (none, (OrderService.UpdateOrderStatus oidOrderA "processing" worldWithOrder).2) :=
    Prod.ext rfl rfl
  obtain ⟨ho, ⟨entry, hx, _⟩, _⟩ := updateOrderStatus_writes_status_and_event oidOrderA
    "processing" worldWithOrder _ oidOrderA
    { ID := oidOrderA, CustomerID := cidA,
      Items := [{ ID := "000000000000000000000001", ProductID := pidA,
                  ProductName := "Widget", Quantity := 3, UnitPrice := 2999 }],
      Status := "created", TotalAmount := 8997, CreatedAt := 7, UpdatedAt := 7 }
    rfl rfl h
  refine ⟨by decide, h, ?_, ?_⟩
  · rw [ho, setKey_same]; rfl
  · rw [hx]; rfl

/-- C8.  A failing UpdateStatusWithOutbox, whatever the error (no order matched,
the update or the outbox insert failed, the transaction could not start or
commit), leaves the database and both caches as they were.  And when
UpdateOrderStatus has read the order and its UpdateStatusWithOutbox call fails,
UpdateOrderStatus returns that very error, has made calls to the database only
(no cache write), and leaves the database and the order cache as before the
call: neither a status change nor an outbox entry persists. -/
theorem updateOrderStatus_store_failure (id : ID) (status : OrderStatus) (w : World) :
    (∀ event err w2, OrderRepository.UpdateStatusWithOutbox id status event w = (some err, w2) →
      w2.db = w.db ∧ w2.orderCache = w.orderCache ∧ w2.idemCache = w.idemCache) ∧
    (∀ order w1 err w2, status.IsValid = true →
      OrderRepository.GetByID id w = (.ok order, w1) → order.Status ≠ status →
      OrderRepository.UpdateStatusWithOutbox id status
        (NewOrderUpdateStatusEvent id status order.Status w1.clock order.CustomerID) w1
        = (some err, w2) →
      OrderService.UpdateOrderStatus id status w = (some err, w2) ∧
      w2.db = w.db ∧ w2.orderCache = w.orderCache ∧
      ∃ l, w2.log = w.log ++ l ∧ ∀ c ∈ l, ExtCall.onDatabase c = true) := by
  constructor
  · intro event err w2 hu
    have hw := UpdateStatusWithOutbox_writes id status event w
    rw [hu] at hw
    exact ⟨UpdateStatusWithOutbox_error hu, hw.orderCache, hw.idemCache⟩
  · intro order w1 err w2 hv hg hs hu
    have hr := OrderRepository.GetByID_reads_order id w
    rw [hg] at hr
    have hw := UpdateStatusWithOutbox_writes id status
      (NewOrderUpdateStatusEvent id status order.Status w1.clock order.CustomerID) w1
    rw [hu] at hw
    have ht := hr.writes.writesThen hw
    refine ⟨?_, (UpdateStatusWithOutbox_error hu).trans hr.db, ht.orderCache, ht.log⟩
    unfold OrderService.UpdateOrderStatus
    simp only [hv, Bool.not_true, Bool.false_eq_true, if_false, hg, hs, hu]

/-- C8, witness: NotFound from the repository for an id without an order, and an
outbox insert that fails after the status update inside the transaction. -/
theorem updateOrderStatus_store_failure_witness :
    (OrderRepository.UpdateStatusWithOutbox "00000000000000000000000f" "processing"
      (NewOrderUpdateStatusEvent "00000000000000000000000f" "processing" "created" 7 cidA)
      worldWithOrder).1 = some (NewNotFoundError "entity not found") ∧
    (OrderRepository.UpdateStatusWithOutbox "00000000000000000000000f" "processing"
      (NewOrderUpdateStatusEvent "00000000000000000000000f" "processing" "created" 7 cidA)
      worldWithOrder).2.db = worldWithOrder.db ∧
    (OrderService.UpdateOrderStatus oidOrderA "processing" worldOutboxDown).1
      = some (.plain "outbox down") ∧
    (OrderService.UpdateOrderStatus oidOrderA "processing" worldOutboxDown).2.db
      = worldOutboxDown.db ∧
    ((OrderService.UpdateOrderStatus oidOrderA "processing" worldOutboxDown).2.db.orders
      oidOrderA).map (fun d => d.Status) = some "created" := by
  have h1 := (updateOrderStatus_store_failure "00000000000000000000000f" "processing"
    worldWithOrder).1
    (NewOrderUpdateStatusEvent "00000000000000000000000f" "processing" "created" 7 cidA)
    (NewNotFoundError "entity not found") _ (Prod.ext rfl rfl)
  have h2 := (updateOrderStatus_store_failure oidOrderA "processing" worldOutboxDown).2
    orderA (OrderRepository.GetByID oidOrderA worldOutboxDown).2 (.plain "outbox down")
    (OrderService.UpdateOrderStatus oidOrderA "processing" worldOutboxDown).2
    rfl (Prod.ext rfl rfl) (by decide) (Prod.ext rfl rfl)
  refine ⟨rfl, h1.1, ?_, ?_, by decide⟩
  · rw [h2.1]
  · exact h2.2.1

/-- C10, witness: of a batch of three whose first publish fails, the second and third are deleted. -/
theorem processEvents_deletes_exactly_the_published_witness :
    publishResults (testHandler.recording.processEvents ((), [])).2
      = [some (.plain "publish failed"), none, none] ∧
    deleteCalls (testHandler.recording.processEvents ((), [])).2 = ["2", "3"] ∧
    deleteCalls (testHandler.recording.processEvents ((), [])).2 =
      ((testEntries.zip (publishResults (testHandler.recording.processEvents ((), [])).2)).filter
        (fun p => p.2.isNone)).map (fun p => p.1.ID) :=
  ⟨by decide, by decide, (processEvents_deletes_exactly_the_published testHandler ()).2.2⟩

/-- DeductStock with the smallest Go int as quantity, on any existing product
whose stock is a non-negative Go int and with a driver call that goes through:
it returns no error and leaves the stock at s − 2^63, which is negative. -/
theorem deductStock_minInt_general (id : ID) (w : World) (objectID : ObjectID)
    (doc : ProductDocument) (hid : ObjectIDFromHex id = .ok objectID)
    (hdoc : w.db.products objectID = some doc)
    (hcall : w.fail w.log.length (.findOneAndUpdate .products) = none)
    (hs : 0 ≤ doc.Stock ∧ doc.Stock ≤ maxInt) :
    (ProductRepository.DeductStock id minInt w).1 = none ∧
    (ProductRepository.DeductStock id minInt w).2.db.products objectID
      = some { doc with Stock := doc.Stock + minInt } ∧
    doc.Stock + minInt < 0 := by
  unfold ProductRepository.DeductStock
  simp only [hid, World.call, hcall, Option.map_none', hdoc]
  have hle : minInt ≤ doc.Stock := by unfold minInt; omega
  simp only [hle, if_true, true_and]
  refine ⟨?_, ?_⟩
  · rw [setKey_same, wrapInt_minInt_neg]
  · unfold minInt maxInt at *; omega

theorem checkEntry_world (s : IdempotencyService) (key payloadHash : String) (w : World) :
    (s.checkEntry key payloadHash w).2 = (RedisCache.Get idemCacheRef key w).2 := by
  rw [checkEntry_eq, Get_idem]

theorem checkEntry_value (s : IdempotencyService) (key payloadHash : String) (w : World) :
    (s.checkEntry key payloadHash w).1 =
      match (RedisCache.Get idemCacheRef key w).1 with
      | .error err => .error (.wrapped "idempotency check failed" err)
      | .ok read => checkResult payloadHash read := by
  rw [checkEntry_eq, Get_idem]
  cases w.fail w.log.length (.cacheGet .idempotency) <;> rfl

theorem checkEntry_processing {s : IdempotencyService} {key payloadHash : String} {w : World}
    (h : readsProcessing key payloadHash w) :
    s.checkEntry key payloadHash w = (.ok none, (RedisCache.Get idemCacheRef key w).2) := by
  refine Prod.ext ?_ (checkEntry_world s key payloadHash w)
  rw [checkEntry_value]
  unfold readsProcessing at h
  split at h
  · rename_i entry hg
    rw [hg]
    simp only [checkResult]
    rw [if_neg (not_not.mpr h.1), if_neg]
    rw [h.2]; decide
  · exact h.elim

theorem loop_through (s : IdempotencyService) (key payloadHash : String) (rest : List Wake) :
    ∀ (looks : List (Cache IdempotencyEntry → Cache IdempotencyEntry)) (w : World),
      everyCheckProcessing key payloadHash looks w →
      IdempotencyService.waitForCompletion.loop s key payloadHash
          (looks.map Wake.tick ++ rest) w =
        IdempotencyService.waitForCompletion.loop s key payloadHash rest
          (afterChecks key looks w) := by
  intro looks
  induction looks with
  | nil => intro w _; rfl
  | cons others more ih =>
    intro w h
    obtain ⟨h1, h2⟩ := h
    have hc := checkEntry_processing (s := s) h1
    simp only [List.map_cons, List.cons_append, afterChecks]
    rw [← ih _ h2]
    conv_lhs => unfold IdempotencyService.waitForCompletion.loop
    simp only [World.afterOthers] at hc
    rw [hc]
    rfl

theorem waitForCompletion_eq_loop (s : IdempotencyService) (ctx : Context)
    (key payloadHash : String) (w : World) :
    s.waitForCompletion ctx key payloadHash w =
      IdempotencyService.waitForCompletion.loop s key payloadHash
        (Wake.tick (fun c => c) :: ctx.wakes) w := by
  unfold IdempotencyService.waitForCompletion
  conv_rhs => unfold IdempotencyService.waitForCompletion.loop

theorem Claim_present {s : IdempotencyService} {key payloadHash : String} {w : World}
    (ctx : Context) (h : (claimSetNX s key payloadHash w).1 = .ok false) :
    s.Claim ctx key payloadHash w =
      s.waitForCompletion ctx key payloadHash (claimSetNX s key payloadHash w).2 := by
  unfold IdempotencyService.Claim
  unfold claimSetNX processingEntry at h ⊢
  split
  · rename_i h1; rw [h1] at h; simp at h
  · rename_i h1; rw [h1] at h; simp at h
  · rename_i h1; rw [h1]

/-- C12: Claim returns (nil, nil) if and only if its SetNX reported that the
processing entry was inserted; the wait-for-completion path never returns a nil
result with a nil error; and when SetNX fails, Claim returns the wrapped error
after that one command, without a read of the cache. -/
theorem claim_owns_iff_setNX_inserted (s : IdempotencyService) (ctx : Context)
    (key payloadHash : String) (w : World) :
    ((s.Claim ctx key payloadHash w).1 = .ok none ↔
      (claimSetNX s key payloadHash w).1 = .ok true) ∧
    (∀ w0 : World, (s.waitForCompletion ctx key payloadHash w0).1 ≠ .ok none) ∧
    (∀ err, (claimSetNX s key payloadHash w).1 = .error err →
      (s.Claim ctx key payloadHash w).1 = .error (.wrapped "idempotency claim failed" err) ∧
      (s.Claim ctx key payloadHash w).2.log = w.log ++ [.cacheSetNX .idempotency]) := by
  have hwait : ∀ w0 : World, (s.waitForCompletion ctx key payloadHash w0).1 ≠ .ok none := by
    intro w0 h
    obtain ⟨result, hr, _⟩ :=
      waitForCompletion_result (Prod.ext h rfl :
        s.waitForCompletion ctx key payloadHash w0 =
          (.ok none, (s.waitForCompletion ctx key payloadHash w0).2))
    simp at hr
  refine ⟨?_, hwait, ?_⟩
  · unfold IdempotencyService.Claim claimSetNX processingEntry
    split
    · rename_i h; rw [h]; simp
    · rename_i h; rw [h]; simp
    · rename_i w1 h; rw [h]
      constructor
      · intro h1; exact absurd h1 (hwait w1)
      · intro h1; simp at h1
  · intro err h
    unfold IdempotencyService.Claim
    unfold claimSetNX processingEntry at h
    have hl := SetNX_idem key
      { Status := IdempotencyProcessing, PayloadHash := payloadHash, Result := none } s.ttl w
    split
    · rename_i err1 w1 h1
      rw [h1] at h hl
      simp only [Except.error.injEq] at h
      subst h
      refine ⟨rfl, ?_⟩
      cases hf : w.fail w.log.length (.cacheSetNX .idempotency) with
      | some msg => rw [hf] at hl; simp only [Prod.mk.injEq] at hl; rw [hl.2]
      | none =>
        rw [hf] at hl
        cases hc : w.idemCache key with
        | none => rw [hc] at hl; simp at hl
        | some c => rw [hc] at hl; simp at hl
    · rename_i h1; rw [h1] at h; simp at h
    · rename_i h1; rw [h1] at h; simp at h

theorem claim_owns_iff_setNX_inserted_witness :
    (exampleService.idempotency.Claim exampleContext "k1" "h" exampleWorld).1 = .ok none ∧
    (exampleService.idempotency.Claim exampleContext "k1" "h" worldSetNXFails).1 =
      .error (.wrapped "idempotency claim failed" (.plain "redis down")) ∧
    (exampleService.idempotency.Claim exampleContext "k1" "h" worldSetNXFails).2.log =
      [.cacheSetNX .idempotency] :=
  ⟨(claim_owns_iff_setNX_inserted exampleService.idempotency exampleContext "k1" "h"
      exampleWorld).1.mpr rfl,
   (claim_owns_iff_setNX_inserted exampleService.idempotency exampleContext "k1" "h"
      worldSetNXFails).2.2 (.plain "redis down") rfl⟩

/-- A `Claim` that finds the key present runs the polling loop; after checks
that all read a processing entry it is where the loop is after them. -/
theorem Claim_checks {s : IdempotencyService} {ctx : Context} {key payloadHash : String}
    {w : World} {looks : List (Cache IdempotencyEntry → Cache IdempotencyEntry)}
    {rest : List Wake}
    (hpresent : (claimSetNX s key payloadHash w).1 = .ok false)
    (hwakes : ctx.checks = looks.map Wake.tick ++ rest)
    (hchecks : everyCheckProcessing key payloadHash looks (claimSetNX s key payloadHash w).2) :
    s.Claim ctx key payloadHash w =
      IdempotencyService.waitForCompletion.loop s key payloadHash rest
        (afterChecks key looks (claimSetNX s key payloadHash w).2) := by
  rw [Claim_present ctx hpresent, waitForCompletion_eq_loop]
  have h : Wake.tick (fun c => c) :: ctx.wakes = looks.map Wake.tick ++ rest := hwakes
  rw [h]
  exact loop_through s key payloadHash rest looks _ hchecks

theorem loop_tick_value (s : IdempotencyService) (key payloadHash : String)
    (others : Cache IdempotencyEntry → Cache IdempotencyEntry) (rest : List Wake) (w : World)
    (h : ∀ w1, s.checkEntry key payloadHash (w.afterOthers others) ≠ (.ok none, w1)) :
    (IdempotencyService.waitForCompletion.loop s key payloadHash (.tick others :: rest) w).1 =
      (s.checkEntry key payloadHash (w.afterOthers others)).1 := by
  unfold IdempotencyService.waitForCompletion.loop
  simp only [World.afterOthers] at h ⊢
  split
  · rename_i h1; rw [h1]
  · rename_i h1; rw [h1]
  · rename_i w1 h1; exact absurd h1 (h w1)

theorem loop_tick_of_value (s : IdempotencyService) (key payloadHash : String)
    (others : Cache IdempotencyEntry → Cache IdempotencyEntry) (rest : List Wake) (w : World)
    (r : Except GoError (Option Order)) (hr : r ≠ .ok none)
    (h : (s.checkEntry key payloadHash (w.afterOthers others)).1 = r) :
    (IdempotencyService.waitForCompletion.loop s key payloadHash (.tick others :: rest) w).1 =
      r := by
  rw [loop_tick_value, h]
  intro w1 h1
  rw [h1] at h
  exact hr h.symm

/-- C15: while every check (the immediate one and one per tick) reads a
processing entry with a matching payload hash, a waiting Claim ends only when
the context is done, with the context's error itself, or when the timeout
fires, with Conflict "idempotency key still being processed, timed out"; it
never returns a result. -/
theorem claim_polling_exits (s : IdempotencyService) (ctx : Context)
    (key payloadHash : String) (w : World)
    (looks : List (Cache IdempotencyEntry → Cache IdempotencyEntry)) (rest : List Wake)
    (hpresent : (claimSetNX s key payloadHash w).1 = .ok false)
    (hwakes : ctx.checks = looks.map Wake.tick ++ rest)
    (hrest : ∀ others more, rest ≠ Wake.tick others :: more)
    (hchecks : everyCheckProcessing key payloadHash looks (claimSetNX s key payloadHash w).2) :
    (∀ err more, rest = Wake.done err :: more →
      (s.Claim ctx key payloadHash w).1 = .error err) ∧
    ((rest = [] ∨ ∃ more, rest = Wake.timeout :: more) →
      (s.Claim ctx key payloadHash w).1 =
        .error (NewConflictError "idempotency key still being processed, timed out")) ∧
    (∀ r, (s.Claim ctx key payloadHash w).1 ≠ .ok r) := by
  rw [Claim_checks hpresent hwakes hchecks]
  cases rest with
  | nil =>
    refine ⟨fun err more h => by simp at h, fun _ => rfl, fun r h => ?_⟩
    simp [IdempotencyService.waitForCompletion.loop] at h
  | cons wake more =>
    cases wake with
    | done err =>
      refine ⟨fun err1 more1 h => ?_, fun h => ?_, fun r h => ?_⟩
      · simp only [List.cons.injEq, Wake.done.injEq] at h
        rw [← h.1]; rfl
      · rcases h with h | ⟨m, h⟩ <;> simp at h
      · simp [IdempotencyService.waitForCompletion.loop] at h
    | timeout =>
      refine ⟨fun err1 more1 h => by simp at h, fun _ => rfl, fun r h => ?_⟩
      simp [IdempotencyService.waitForCompletion.loop] at h
    | tick others => exact absurd rfl (hrest others more)

theorem claim_polling_exits_witness :
    (exampleService.idempotency.Claim exampleContext "k1" (exampleHash requestA)
        worldClaimed).1 =
      .error (NewConflictError "idempotency key still being processed, timed out") ∧
    (exampleService.idempotency.Claim cancelledContext "k1" (exampleHash requestA)
        worldClaimed).1 = .error (.plain "context canceled") ∧
    IsOfKind (.plain "context canceled") .KindConflict = false :=
  ⟨(claim_polling_exits exampleService.idempotency exampleContext "k1" (exampleHash requestA)
      worldClaimed [fun c => c, id, id] [.timeout] rfl rfl (by simp)
      ⟨⟨rfl, rfl⟩, ⟨rfl, rfl⟩, ⟨rfl, rfl⟩, trivial⟩).2.1 (Or.inr ⟨[], rfl⟩),
   (claim_polling_exits exampleService.idempotency cancelledContext "k1" (exampleHash requestA)
      worldClaimed [fun c => c, id] [.done (.plain "context canceled")] rfl rfl (by simp)
      ⟨⟨rfl, rfl⟩, ⟨rfl, rfl⟩, trivial⟩).1 (.plain "context canceled") [] rfl,
   rfl⟩

theorem checkEntry_absent {s : IdempotencyService} {key payloadHash : String} {w : World}
    (h : (RedisCache.Get idemCacheRef key w).1 = .ok none) :
    (s.checkEntry key payloadHash w).1 =
      .error (NewConflictError "previous request failed, retry with the same key") := by
  rw [checkEntry_value, h]; rfl

theorem checkEntry_completed {s : IdempotencyService} {key payloadHash : String} {w : World}
    {entry : IdempotencyEntry} (h : (RedisCache.Get idemCacheRef key w).1 = .ok (some entry))
    (hhash : entry.PayloadHash = payloadHash) (hstatus : entry.Status = IdempotencyCompleted) :
    (s.checkEntry key payloadHash w).1 = .ok entry.Result := by
  rw [checkEntry_value, h]
  simp only [checkResult]
  rw [if_neg (not_not.mpr hhash), if_pos hstatus]

/-- C14: when Claim finds the key present at SetNX and, after checks that read a
processing entry, a Get reads no entry, Claim fails with Conflict "previous
request failed, retry with the same key"; the wait path does so at its first
check in any world, whatever the payload hash is. -/
theorem claim_entry_gone (s : IdempotencyService) (ctx : Context)
    (key payloadHash : String) (w : World)
    (looks : List (Cache IdempotencyEntry → Cache IdempotencyEntry))
    (others : Cache IdempotencyEntry → Cache IdempotencyEntry) (rest : List Wake)
    (hpresent : (claimSetNX s key payloadHash w).1 = .ok false)
    (hwakes : ctx.checks = looks.map Wake.tick ++ Wake.tick others :: rest)
    (hearlier : everyCheckProcessing key payloadHash looks (claimSetNX s key payloadHash w).2)
    (hgone : (RedisCache.Get idemCacheRef key
      ((afterChecks key looks (claimSetNX s key payloadHash w).2).afterOthers others)).1 =
        .ok none) :
    (s.Claim ctx key payloadHash w).1 =
      .error (NewConflictError "previous request failed, retry with the same key") ∧
    (∀ (hash2 : String) (ctx2 : Context) (w0 : World),
      (RedisCache.Get idemCacheRef key w0).1 = .ok none →
      (s.waitForCompletion ctx2 key hash2 w0).1 =
        .error (NewConflictError "previous request failed, retry with the same key")) := by
  constructor
  · rw [Claim_checks hpresent hwakes hearlier]
    exact loop_tick_of_value s key payloadHash others rest _ _ (by simp)
      (checkEntry_absent hgone)
  · intro hash2 ctx2 w0 h
    rw [waitForCompletion_eq_loop]
    exact loop_tick_of_value s key hash2 _ _ _ _ (by simp) (checkEntry_absent h)

theorem claim_entry_gone_witness :
    (exampleService.idempotency.Claim goneContext "k1" (exampleHash requestA)
        worldClaimed).1 =
      .error (NewConflictError "previous request failed, retry with the same key") ∧
    (exampleService.idempotency.waitForCompletion exampleContext "k1" "another hash"
        exampleWorld).1 =
      .error (NewConflictError "previous request failed, retry with the same key") :=
  have h := claim_entry_gone exampleService.idempotency goneContext "k1"
    (exampleHash requestA) worldClaimed [fun c => c, id] (fun c => setKey c "k1" none)
    [.timeout] rfl rfl ⟨⟨rfl, rfl⟩, ⟨rfl, rfl⟩, trivial⟩ rfl
  ⟨h.1, h.2 "another hash" exampleContext exampleWorld rfl⟩

/-- C13, as stated, fails: a completed entry with a matching payload hash and a
nil result (here written by `Complete` itself) is read by every check, and
Claim never returns it: the polling loop runs on and ends with the timeout. -/
theorem claim_completed_without_result :
    (claimSetNX exampleService.idempotency "k1" (exampleHash requestA) worldCompletedNil).1 =
      .ok false ∧
    (RedisCache.Get idemCacheRef "k1"
        (claimSetNX exampleService.idempotency "k1" (exampleHash requestA)
          worldCompletedNil).2).1 =
      .ok (some { Status := IdempotencyCompleted, PayloadHash := exampleHash requestA,
                  Result := none }) ∧
    (exampleService.idempotency.Claim exampleContext "k1" (exampleHash requestA)
        worldCompletedNil).1 ≠ .ok none ∧
    (exampleService.idempotency.Claim exampleContext "k1" (exampleHash requestA)
        worldCompletedNil).1 =
      .error (NewConflictError "idempotency key still being processed, timed out") := by
  refine ⟨rfl, rfl, ?_, rfl⟩
  intro h
  have h2 : (exampleService.idempotency.Claim exampleContext "k1" (exampleHash requestA)
      worldCompletedNil).1 =
    .error (NewConflictError "idempotency key still being processed, timed out") := rfl
  rw [h2] at h
  cases h

/-- C13 (amended): when a check of an existing key (the immediate first one, or
that of a later tick reached through checks that read a processing entry) reads
a completed entry with a matching payload hash that carries a result, Claim
returns that result with no error; when the first check reads it, Claim returns
after the SetNX and that one read, whatever the context's wake-ups are. -/
theorem claim_returns_completed_result (s : IdempotencyService) (ctx : Context)
    (key payloadHash : String) (w : World)
    (looks : List (Cache IdempotencyEntry → Cache IdempotencyEntry))
    (others : Cache IdempotencyEntry → Cache IdempotencyEntry) (rest : List Wake)
    (entry : IdempotencyEntry) (result : Order)
    (hpresent : (claimSetNX s key payloadHash w).1 = .ok false)
    (hwakes : ctx.checks = looks.map Wake.tick ++ Wake.tick others :: rest)
    (hearlier : everyCheckProcessing key payloadHash looks (claimSetNX s key payloadHash w).2)
    (hread : (RedisCache.Get idemCacheRef key
      ((afterChecks key looks (claimSetNX s key payloadHash w).2).afterOthers others)).1 =
        .ok (some entry))
    (hhash : entry.PayloadHash = payloadHash) (hstatus : entry.Status = IdempotencyCompleted)
    (hresult : entry.Result = some result) :
    (s.Claim ctx key payloadHash w).1 = .ok (some result) ∧
    (∀ (first : IdempotencyEntry) (result0 : Order) (ctx2 : Context),
      (RedisCache.Get idemCacheRef key (claimSetNX s key payloadHash w).2).1 =
        .ok (some first) →
      first.PayloadHash = payloadHash → first.Status = IdempotencyCompleted →
      first.Result = some result0 →
      s.Claim ctx2 key payloadHash w =
        (.ok (some result0),
          (RedisCache.Get idemCacheRef key (claimSetNX s key payloadHash w).2).2)) := by
  constructor
  · rw [Claim_checks hpresent hwakes hearlier]
    refine loop_tick_of_value s key payloadHash others rest _ _ (by simp) ?_
    rw [checkEntry_completed hread hhash hstatus, hresult]
  · intro first result0 ctx2 h1 h2 h3 h4
    rw [Claim_present ctx2 hpresent]
    have hc : s.checkEntry key payloadHash (claimSetNX s key payloadHash w).2 =
        (.ok (some result0),
          (RedisCache.Get idemCacheRef key (claimSetNX s key payloadHash w).2).2) := by
      refine Prod.ext ?_ (checkEntry_world s key payloadHash _)
      rw [checkEntry_completed h1 h2 h3, h4]
    unfold IdempotencyService.waitForCompletion
    rw [hc]

theorem claim_returns_completed_result_witness :
    (exampleService.idempotency.Claim completedContext "k1" (exampleHash requestA)
        worldClaimed).1 = .ok (some orderA) ∧
    (exampleService.idempotency.Claim { wakes := [] } "k1" (exampleHash requestA)
        worldCompleted).1 = .ok (some orderA) :=
  ⟨(claim_returns_completed_result exampleService.idempotency completedContext "k1"
      (exampleHash requestA) worldClaimed [fun c => c, id] _ [.timeout]
      { Status := IdempotencyCompleted, PayloadHash := exampleHash requestA,
        Result := some orderA } orderA
      rfl rfl ⟨⟨rfl, rfl⟩, ⟨rfl, rfl⟩, trivial⟩ rfl rfl rfl rfl).1,
   congrArg Prod.fst
    ((claim_returns_completed_result exampleService.idempotency exampleContext "k1"
      (exampleHash requestA) worldCompleted [] (fun c => c) exampleContext.wakes
      { Status := IdempotencyCompleted, PayloadHash := exampleHash requestA,
        Result := some orderA } orderA
      rfl rfl trivial rfl rfl rfl rfl).2
      { Status := IdempotencyCompleted, PayloadHash := exampleHash requestA,
        Result := some orderA } orderA { wakes := [] } rfl rfl rfl rfl)⟩

theorem Release_ok {s : IdempotencyService} {key : String} {w : World}
    (hdel : w.fail w.log.length (.cacheDel .idempotency) = none) :
    s.Release key w =
      { w with log := w.log ++ [.cacheDel .idempotency]
               idemCache := setKey w.idemCache key none } := by
  unfold IdempotencyService.Release
  rw [Del_idem, hdel]

theorem Claim_free (s : IdempotencyService) (ctx : Context) (key payloadHash : String)
    {w : World} (hfree : w.idemCache key = none)
    (hset : w.fail w.log.length (.cacheSetNX .idempotency) = none) :
    s.Claim ctx key payloadHash w =
      (.ok none,
        { w with
          log := w.log ++ [.cacheSetNX .idempotency]
          idemCache := setKey w.idemCache key (some
            { value := { Status := IdempotencyProcessing, PayloadHash := payloadHash,
                         Result := none },
              ttl := s.ttl }) }) := by
  unfold IdempotencyService.Claim
  rw [SetNX_idem, hset, hfree]

theorem CreateOrder_claimed_value {s : OrderService} {ctx : Context} {key : String}
    {request : CreateOrderRequest} {w w1 : World} (hkey : key ≠ "")
    (hclaim : s.idempotency.Claim ctx key (s.HashJSON request) w = (.ok none, w1)) :
    (s.CreateOrder ctx key request w).1 = (OrderService.processOrder request w1).1 := by
  unfold OrderService.CreateOrder
  rw [if_neg hkey]
  simp only [hclaim]
  split
  · rename_i h; rw [h]
  · rename_i h; rw [h]

/-- C16: when CreateOrder has claimed a non-empty key and processing fails, it
returns the processing error itself and ends with the delete command of
Release; when that command goes through, the key is free again and every other
key is as before the call, so that a following CreateOrder with the same key
(whose SetNX goes through) claims the key with that one command, without a
check of an old entry, and returns what its own processing returns. -/
theorem createOrder_failure_releases_key (s : OrderService) (ctx : Context) (key : String)
    (request : CreateOrderRequest) (w w1 w2 : World) (err : GoError)
    (hkey : key ≠ "")
    (hclaim : s.idempotency.Claim ctx key (s.HashJSON request) w = (.ok none, w1))
    (hwork : OrderService.processOrder request w1 = (.error err, w2))
    (hdel : w2.fail w2.log.length (.cacheDel .idempotency) = none) :
    (s.CreateOrder ctx key request w).1 = .error err ∧
    (s.CreateOrder ctx key request w).2.log = w2.log ++ [.cacheDel .idempotency] ∧
    (s.CreateOrder ctx key request w).2.idemCache key = none ∧
    (∀ k, k ≠ key → (s.CreateOrder ctx key request w).2.idemCache k = w.idemCache k) ∧
    (∀ (ctx2 : Context) (request2 : CreateOrderRequest),
      (s.CreateOrder ctx key request w).2.fail (s.CreateOrder ctx key request w).2.log.length
        (.cacheSetNX .idempotency) = none →
      ∃ w4, s.idempotency.Claim ctx2 key (s.HashJSON request2)
          (s.CreateOrder ctx key request w).2 = (.ok none, w4) ∧
        w4.log = (s.CreateOrder ctx key request w).2.log ++ [.cacheSetNX .idempotency] ∧
        (s.CreateOrder ctx2 key request2 (s.CreateOrder ctx key request w).2).1 =
          (OrderService.processOrder request2 w4).1) := by
  have hco : s.CreateOrder ctx key request w =
      (.error err, { w2 with log := w2.log ++ [.cacheDel .idempotency]
                             idemCache := setKey w2.idemCache key none }) := by
    unfold OrderService.CreateOrder
    rw [if_neg hkey]
    simp only [hclaim, hwork]
    rw [Release_ok hdel]
  rw [hco]
  refine ⟨rfl, rfl, setKey_same _ _ _, ?_, ?_⟩
  · intro k hk
    simp only
    rw [setKey_other _ _ _ _ hk]
    have h1 := (processOrder_writes request w1).idemCache
    rw [hwork] at h1
    simp only at h1
    rw [h1, (Claim_none hclaim).2]
    exact setKey_other _ _ _ _ hk
  · intro ctx2 request2 hset
    have hc := Claim_free s.idempotency ctx2 key (s.HashJSON request2)
      (setKey_same w2.idemCache key none :
        ({ w2 with log := w2.log ++ [.cacheDel .idempotency]
                   idemCache := setKey w2.idemCache key none } : World).idemCache key = none)
      hset
    exact ⟨_, hc, rfl, CreateOrder_claimed_value hkey hc⟩

theorem createOrder_failure_releases_key_witness :
    (exampleService.CreateOrder exampleContext "k1" requestShort exampleWorld).1 =
      .error (NewUnprocessableEntityError
        "insufficient stock for product aabbccddee112233aabbccd2") ∧
    (exampleService.CreateOrder exampleContext "k1" requestShort exampleWorld).2.idemCache "k1" =
      none ∧
    (exampleService.CreateOrder exampleContext "k1" requestA
      (exampleService.CreateOrder exampleContext "k1" requestShort exampleWorld).2).1 =
      .ok orderA := by
  have h := createOrder_failure_releases_key exampleService exampleContext "k1" requestShort
    exampleWorld
    (exampleService.idempotency.Claim exampleContext "k1" (exampleHash requestShort)
      exampleWorld).2
    (OrderService.processOrder requestShort
      (exampleService.idempotency.Claim exampleContext "k1" (exampleHash requestShort)
        exampleWorld).2).2
    (NewUnprocessableEntityError "insufficient stock for product aabbccddee112233aabbccd2")
    (by decide) (Prod.ext rfl rfl) (Prod.ext rfl rfl) rfl
  obtain ⟨w4, hc, _, hv⟩ := h.2.2.2.2 exampleContext requestA rfl
  refine ⟨h.1, h.2.2.1, ?_⟩
  have hw : (exampleService.idempotency.Claim exampleContext "k1"
      (exampleService.HashJSON requestA)
      (exampleService.CreateOrder exampleContext "k1" requestShort exampleWorld).2).2 = w4 :=
    congrArg Prod.snd hc
  rw [hv, ← hw]
  rfl

/-- Checks during which the entry under `key` stays a processing entry with the
hash `payloadHash`, on a cache whose reads go through, all read that entry. -/
theorem everyCheck_of_kept (key payloadHash : String) :
    ∀ (looks : List (Cache IdempotencyEntry → Cache IdempotencyEntry)) (w : World),
      (∀ n, w.fail n (.cacheGet .idempotency) = none) →
      (∃ c, w.idemCache key = some c ∧ c.value.PayloadHash = payloadHash ∧
        c.value.Status = IdempotencyProcessing) →
      (∀ o ∈ looks, ∀ c : Cache IdempotencyEntry, o c key = c key) →
      everyCheckProcessing key payloadHash looks w ∧
        (afterChecks key looks w).idemCache key = w.idemCache key ∧
        (afterChecks key looks w).fail = w.fail := by
  intro looks
  induction looks with
  | nil => intro w _ _ _; exact ⟨trivial, rfl, rfl⟩
  | cons o more ih =>
    intro w hget hentry hkept
    obtain ⟨c, hc, hh, hs⟩ := hentry
    have hkey : (w.afterOthers o).idemCache key = some c := by
      show o w.idemCache key = some c
      rw [hkept o (List.mem_cons_self o more), hc]
    have hg : RedisCache.Get idemCacheRef key (w.afterOthers o) =
        (.ok (some c.value),
          { w.afterOthers o with log := (w.afterOthers o).log ++ [.cacheGet .idempotency] }) := by
      rw [Get_idem]
      have hf : (w.afterOthers o).fail (w.afterOthers o).log.length (.cacheGet .idempotency) =
          none := hget _
      rw [hf, hkey]
      rfl
    have hnext := ih
      { w.afterOthers o with log := (w.afterOthers o).log ++ [.cacheGet .idempotency] }
      hget ⟨c, hkey, hh, hs⟩ (fun o1 ho1 => hkept o1 (List.mem_cons_of_mem o ho1))
    simp only [everyCheckProcessing, afterChecks, readsProcessing]
    rw [hg]
    refine ⟨⟨⟨hh, hs⟩, hnext.1⟩, ?_, hnext.2.2⟩
    rw [hnext.2.1]
    show o w.idemCache key = w.idemCache key
    exact hkept o (List.mem_cons_self o more) _

theorem claimSetNX_present (s : IdempotencyService) (key payloadHash : String) (w : World)
    {c : Cached IdempotencyEntry} (hc : w.idemCache key = some c)
    (hset : w.fail w.log.length (.cacheSetNX .idempotency) = none) :
    claimSetNX s key payloadHash w =
      (.ok false, { w with log := w.log ++ [.cacheSetNX .idempotency] }) := by
  unfold claimSetNX
  rw [SetNX_idem, hset, hc]

/-- C18 (amended): when Complete fails to write the completed entry, CreateOrder
still returns the order and the processing entry written by Claim stays under
the key.  A following duplicate Claim (same key and payload hash, SetNX and
reads going through) polls: while its checks find that entry it ends with the
timeout Conflict, or with the context's error when the context is done; it
fails with the Conflict for an absent entry only at a check before which the
entry has gone. -/
theorem claim_after_failed_complete (s : OrderService) (ctx : Context) (key : String)
    (request : CreateOrderRequest) (w w1 w2 : World) (order : Order) (msg : String)
    (hkey : key ≠ "")
    (hclaim : s.idempotency.Claim ctx key (s.HashJSON request) w = (.ok none, w1))
    (hwork : OrderService.processOrder request w1 = (.ok order, w2))
    (hfail : w2.fail w2.log.length (.cacheSet .idempotency) = some msg)
    (hsetnx : w2.fail (w2.log.length + 1) (.cacheSetNX .idempotency) = none)
    (hget : ∀ n, w2.fail n (.cacheGet .idempotency) = none) :
    (s.CreateOrder ctx key request w).1 = .ok order ∧
    ((s.CreateOrder ctx key request w).2.idemCache key).map (fun c => c.value) =
      some (processingEntry (s.HashJSON request)) ∧
    (∀ (ctx2 : Context) (looks : List (Cache IdempotencyEntry → Cache IdempotencyEntry))
        (rest : List Wake),
      ctx2.checks = looks.map Wake.tick ++ rest →
      (∀ o ∈ looks, ∀ c : Cache IdempotencyEntry, o c key = c key) →
      ((rest = [] ∨ ∃ more, rest = Wake.timeout :: more) →
        (s.idempotency.Claim ctx2 key (s.HashJSON request)
          (s.CreateOrder ctx key request w).2).1 =
          .error (NewConflictError "idempotency key still being processed, timed out")) ∧
      (∀ err more, rest = Wake.done err :: more →
        (s.idempotency.Claim ctx2 key (s.HashJSON request)
          (s.CreateOrder ctx key request w).2).1 = .error err) ∧
      (∀ others more, rest = Wake.tick others :: more →
        (∀ c : Cache IdempotencyEntry, others c key = none) →
        (s.idempotency.Claim ctx2 key (s.HashJSON request)
          (s.CreateOrder ctx key request w).2).1 =
          .error (NewConflictError "previous request failed, retry with the same key"))) := by
  have hco : s.CreateOrder ctx key request w =
      (.ok order, { w2 with log := w2.log ++ [.cacheSet .idempotency] }) := by
    unfold OrderService.CreateOrder
    rw [if_neg hkey]
    simp only [hclaim, hwork]
    unfold IdempotencyService.Complete
    rw [Set_idem, hfail]
  have hcache : w2.idemCache key = some
      { value := processingEntry (s.HashJSON request), ttl := s.idempotency.ttl } := by
    have h1 := (processOrder_writes request w1).idemCache
    rw [hwork] at h1
    simp only at h1
    rw [h1, (Claim_none hclaim).2]
    exact setKey_same _ _ _
  rw [hco]
  refine ⟨rfl, ?_, ?_⟩
  · show (w2.idemCache key).map (fun c => c.value) = _
    rw [hcache]; rfl
  · intro ctx2 looks rest hwakes hkept
    have hnx := claimSetNX_present s.idempotency key (s.HashJSON request)
      { w2 with log := w2.log ++ [.cacheSet .idempotency] } hcache
      (by simpa using hsetnx)
    have hpresent := congrArg Prod.fst hnx
    simp only at hpresent
    have hk := everyCheck_of_kept key (s.HashJSON request) looks
      (claimSetNX s.idempotency key (s.HashJSON request)
        { w2 with log := w2.log ++ [.cacheSet .idempotency] }).2
      (by rw [hnx]; exact hget)
      (by rw [hnx]; exact ⟨_, hcache, rfl, rfl⟩) hkept
    rw [Claim_checks hpresent hwakes hk.1]
    refine ⟨?_, ?_, ?_⟩
    · intro h
      rcases h with h | ⟨more, h⟩ <;> subst h <;> rfl
    · intro err more h; subst h; rfl
    · intro others more h hgone
      subst h
      refine loop_tick_of_value _ _ _ others more _ _ (by simp) (checkEntry_absent ?_)
      rw [Get_idem]
      have hf : ((afterChecks key looks
          (claimSetNX s.idempotency key (s.HashJSON request)
            { w2 with log := w2.log ++ [.cacheSet .idempotency] }).2).afterOthers others).fail =
          w2.fail := by
        show (afterChecks key looks _).fail = w2.fail
        rw [hk.2.2, hnx]
      rw [hf, hget]
      show Except.ok (Option.map _ (others _ key)) = _
      rw [hgone]
      rfl

/-- C18, as stated, fails: after a Complete whose cache write failed, the key
still holds the processing entry, and a duplicate Claim with the same key and
payload hash does not meet the Conflict for an absent entry: it polls and ends
with the timeout Conflict. -/
theorem claim_after_failed_complete_times_out :
    (exampleService.CreateOrder exampleContext "k1" requestA worldSetFails).1 = .ok orderA ∧
    (worldAfterFailedComplete.idemCache "k1").map (fun c => c.value) =
      some (processingEntry (exampleHash requestA)) ∧
    (exampleService.idempotency.Claim exampleContext "k1" (exampleHash requestA)
        worldAfterFailedComplete).1 =
      .error (NewConflictError "idempotency key still being processed, timed out") ∧
    (exampleService.idempotency.Claim exampleContext "k1" (exampleHash requestA)
        worldAfterFailedComplete).1 ≠
      .error (NewConflictError "previous request failed, retry with the same key") := by
  refine ⟨rfl, rfl, rfl, ?_⟩
  intro h
  have h2 : (exampleService.idempotency.Claim exampleContext "k1" (exampleHash requestA)
      worldAfterFailedComplete).1 =
    .error (NewConflictError "idempotency key still being processed, timed out") := rfl
  rw [h2] at h
  simp [NewConflictError] at h

theorem claim_after_failed_complete_witness :
    (exampleService.idempotency.Claim cancelledContext "k1" (exampleHash requestA)
        worldAfterFailedComplete).1 = .error (.plain "context canceled") ∧
    (exampleService.idempotency.Claim goneContext "k1" (exampleHash requestA)
        worldAfterFailedComplete).1 =
      .error (NewConflictError "previous request failed, retry with the same key") := by
  have h := claim_after_failed_complete exampleService exampleContext "k1" requestA
    worldSetFails
    (exampleService.idempotency.Claim exampleContext "k1" (exampleHash requestA)
      worldSetFails).2
    (OrderService.processOrder requestA
      (exampleService.idempotency.Claim exampleContext "k1" (exampleHash requestA)
        worldSetFails).2).2
    orderA "redis down" (by decide) (Prod.ext rfl rfl) (Prod.ext rfl rfl) rfl rfl
    (fun _ => rfl)
  exact ⟨(h.2.2 cancelledContext [fun c => c, id] [.done (.plain "context canceled")] rfl
      (by intro o ho c; simp at ho; rcases ho with rfl | rfl <;> rfl)).2.1 _ [] rfl,
    (h.2.2 goneContext [fun c => c, id]
      [.tick (fun c => setKey c "k1" none), .timeout] rfl
      (by intro o ho c; simp at ho; rcases ho with rfl | rfl <;> rfl)).2.2 _ [.timeout] rfl
      (fun c => setKey_same c "k1" none)⟩

theorem durationSeconds_whole (k : Int) : durationSeconds (k * Second) = k := by
  unfold durationSeconds Second
  exact Int.mul_tdiv_cancel k (by decide)

/-- A call that finds no live counter is call 1 of a new window. -/
theorem Allow_first (key : String) (limit window : Int) {now : Nat} {r : Redis}
    (hfail : r.fail r.runs = none) (hlive : r.live now ("ratelimit:" ++ key) = none)
    (hw : 0 < durationSeconds window) :
    RateLimiter.Allow key limit window now r =
      (.ok (decide (1 ≤ limit)),
        ⟨setKey r.counters ("ratelimit:" ++ key)
            (some ⟨1, some (now + (durationSeconds window).toNat * 1000)⟩),
          r.runs + 1, r.fail⟩) := by
  have hl : (⟨r.counters, r.runs + 1, r.fail⟩ : Redis).live now ("ratelimit:" ++ key) = none :=
    hlive
  have hI : Redis.INCR ("ratelimit:" ++ key) now ⟨r.counters, r.runs + 1, r.fail⟩ =
      (.ok 1, ⟨setKey r.counters ("ratelimit:" ++ key) (some ⟨1, none⟩), r.runs + 1, r.fail⟩) := by
    unfold Redis.INCR
    rw [hl]
  have hE : Redis.EXPIRE ("ratelimit:" ++ key) (durationSeconds window) now
      ⟨setKey r.counters ("ratelimit:" ++ key) (some ⟨1, none⟩), r.runs + 1, r.fail⟩ =
      ⟨setKey r.counters ("ratelimit:" ++ key)
          (some ⟨1, some (now + (durationSeconds window).toNat * 1000)⟩),
        r.runs + 1, r.fail⟩ := by
    unfold Redis.EXPIRE Redis.live
    simp only [setKey_same, if_neg (not_le.mpr hw)]
    congr 1
    funext x
    by_cases hx : x = "ratelimit:" ++ key
    · subst hx; simp only [setKey_same]
    · simp only [setKey_other _ _ _ _ hx]
  unfold RateLimiter.Allow
  simp only [hfail]
  unfold rateLimitScript
  rw [hI]
  simp only [if_true, hE]

/-- A call that finds a live counter of value at least 1 below the largest
integer adds one to it and leaves its time to live alone. -/
theorem Allow_next (key : String) (limit window : Int) {now e : Nat} {r : Redis} {v : Int}
    (hfail : r.fail r.runs = none)
    (hc : r.counters ("ratelimit:" ++ key) = some ⟨v, some e⟩) (hnow : now ≤ e)
    (hv1 : 1 ≤ v) (hv2 : v ≠ maxInt) :
    RateLimiter.Allow key limit window now r =
      (.ok (decide (v + 1 ≤ limit)),
        ⟨setKey r.counters ("ratelimit:" ++ key) (some ⟨v + 1, some e⟩), r.runs + 1, r.fail⟩) := by
  have hl : (⟨r.counters, r.runs + 1, r.fail⟩ : Redis).live now ("ratelimit:" ++ key) =
      some ⟨v, some e⟩ := by
    unfold Redis.live
    simp only [hc, if_neg (not_lt.mpr hnow)]
  have hI : Redis.INCR ("ratelimit:" ++ key) now ⟨r.counters, r.runs + 1, r.fail⟩ =
      (.ok (v + 1),
        ⟨setKey r.counters ("ratelimit:" ++ key) (some ⟨v + 1, some e⟩), r.runs + 1, r.fail⟩) := by
    unfold Redis.INCR
    rw [hl]
    simp only [if_neg hv2]
  have hne : v + 1 ≠ 1 := by omega
  unfold RateLimiter.Allow
  simp only [hfail]
  unfold rateLimitScript
  rw [hI]
  simp only [if_neg hne]

theorem Allow_overflow (key : String) (limit window : Int) {now e : Nat} {r : Redis}
    (hfail : r.fail r.runs = none)
    (hc : r.counters ("ratelimit:" ++ key) = some ⟨maxInt, some e⟩) (hnow : now ≤ e) :
    RateLimiter.Allow key limit window now r =
      (.error (.plain "ERR increment or decrement would overflow"),
        ⟨r.counters, r.runs + 1, r.fail⟩) := by
  have hl : (⟨r.counters, r.runs + 1, r.fail⟩ : Redis).live now ("ratelimit:" ++ key) =
      some ⟨maxInt, some e⟩ := by
    unfold Redis.live
    simp only [hc, if_neg (not_lt.mpr hnow)]
  have hI : Redis.INCR ("ratelimit:" ++ key) now ⟨r.counters, r.runs + 1, r.fail⟩ =
      (.error (.plain "ERR increment or decrement would overflow"),
        ⟨r.counters, r.runs + 1, r.fail⟩) := by
    unfold Redis.INCR
    rw [hl]
    simp only [if_true]
  unfold RateLimiter.Allow
  simp only [hfail]
  unfold rateLimitScript
  rw [hI]

/-- Calls within the life of a counter of value `v`: call number `n` (from 0) is
allowed exactly when `v + n + 1 ≤ limit`, and the counter keeps its time to live. -/
theorem allowAll_counting (key : String) (limit window : Int) (e : Nat)
    (hlim : limit ≤ maxInt) :
    ∀ (ts : List Nat) (r : Redis) (v : Int),
      (∀ n, r.fail n = none) → r.counters ("ratelimit:" ++ key) = some ⟨v, some e⟩ →
      1 ≤ v → v ≤ maxInt → (∀ t ∈ ts, t ≤ e) →
      (allowAll key limit window ts r).1.length = ts.length ∧
      (∀ (n : Nat) (res : Except GoError Bool),
        (allowAll key limit window ts r).1[n]? = some res →
        (res = .ok true ↔ v + n + 1 ≤ limit)) ∧
      (∀ n, (allowAll key limit window ts r).2.fail n = none) ∧
      ∃ v2, (allowAll key limit window ts r).2.counters ("ratelimit:" ++ key) =
        some ⟨v2, some e⟩ := by
  intro ts
  induction ts with
  | nil =>
    intro r v hf hc _ _ _
    exact ⟨rfl, fun n res h => by simp [allowAll] at h, hf, v, hc⟩
  | cons t rest ih =>
    intro r v hf hc hv1 hv2 hts
    have ht : t ≤ e := hts t (List.mem_cons_self t rest)
    have hrest : ∀ t1 ∈ rest, t1 ≤ e := fun t1 h1 => hts t1 (List.mem_cons_of_mem t h1)
    by_cases hmax : v = maxInt
    · subst hmax
      have ha := Allow_overflow key limit window (hf r.runs) hc ht
      obtain ⟨h1, h2, h3, h4⟩ := ih ⟨r.counters, r.runs + 1, r.fail⟩ maxInt hf hc hv1 hv2 hrest
      simp only [allowAll, ha]
      refine ⟨by simp [h1], ?_, h3, h4⟩
      intro n res hn
      cases n with
      | zero =>
        simp only [List.getElem?_cons_zero, Option.some.injEq] at hn
        subst hn
        simp only [Nat.cast_zero, add_zero]
        constructor
        · intro h; cases h
        · intro h; omega
      | succ m =>
        simp only [List.getElem?_cons_succ] at hn
        have := h2 m res hn
        push_cast
        constructor
        · intro h; have := this.mp h; omega
        · intro h; omega
    · have ha := Allow_next key limit window (hf r.runs) hc ht
        hv1 hmax
      have hv3 : v + 1 ≤ maxInt := by
        have := lt_of_le_of_ne hv2 hmax
        omega
      obtain ⟨h1, h2, h3, h4⟩ := ih
        ⟨setKey r.counters ("ratelimit:" ++ key) (some ⟨v + 1, some e⟩), r.runs + 1, r.fail⟩
        (v + 1) hf (setKey_same _ _ _) (by omega) hv3 hrest
      simp only [allowAll, ha]
      refine ⟨by simp [h1], ?_, h3, h4⟩
      intro n res hn
      cases n with
      | zero =>
        simp only [List.getElem?_cons_zero, Option.some.injEq] at hn
        subst hn
        simp
      | succ m =>
        simp only [List.getElem?_cons_succ] at hn
        have := h2 m res hn
        push_cast
        rw [this]
        constructor <;> intro h <;> omega

/-- C11, as stated, fails for a window that is not a whole number of seconds:
with a window of 1.5 s and limit 1 the counter lives for one second only, so a
second call 1.2 s after the first, within the window, is allowed; with a window
of half a second the counter is deleted at once and every call is allowed. -/
theorem allow_fractional_window :
    (allowAll "client" 1 1500000000 [0, 1200] emptyRedis).1 = [.ok true, .ok true] ∧
    (allowAll "client" 1 500000000 [0, 100, 200] emptyRedis).1 =
      [.ok true, .ok true, .ok true] :=
  ⟨rfl, rfl⟩

/-- C11 (amended): for every key, every limit (a Go int) and every window of a
whole number of seconds, at least one, on a store whose script runs go through:
starting from an absent counter, call number n within the window (the first
call at `t0`, the others at the readings `ts` before the counter's time to live
is over) returns true exactly when n ≤ limit, and the first call after the time
to live is over is call 1 of a new window, allowed exactly when 1 ≤ limit. -/
theorem allow_counts_calls_in_window (key : String) (limit : Int) (k t0 : Nat)
    (ts : List Nat) (later : Nat) (r : Redis)
    (hk : 1 ≤ k) (hlim : limit ≤ maxInt) (hfail : ∀ n, r.fail n = none)
    (habsent : r.live t0 ("ratelimit:" ++ key) = none)
    (hwithin : ∀ t ∈ ts, t < t0 + k * 1000)
    (hlater : t0 + k * 1000 < later) :
    (allowAll key limit (k * Second) (t0 :: ts) r).1.length = ts.length + 1 ∧
    (∀ (n : Nat) (res : Except GoError Bool),
      (allowAll key limit (k * Second) (t0 :: ts) r).1[n]? = some res →
      (res = .ok true ↔ (n : Int) + 1 ≤ limit)) ∧
    (RateLimiter.Allow key limit (k * Second) later
      (allowAll key limit (k * Second) (t0 :: ts) r).2).1 = .ok (decide (1 ≤ limit)) := by
  have hw : 0 < durationSeconds (k * Second) := by
    rw [durationSeconds_whole]; exact_mod_cast hk
  have hfirst := Allow_first key limit (k * Second) (hfail r.runs) habsent hw
  rw [durationSeconds_whole, Int.toNat_ofNat] at hfirst
  obtain ⟨h1, h2, h3, v2, h4⟩ := allowAll_counting key limit (k * Second) (t0 + k * 1000) hlim ts
    ⟨setKey r.counters ("ratelimit:" ++ key) (some ⟨1, some (t0 + k * 1000)⟩), r.runs + 1, r.fail⟩
    1 hfail (setKey_same _ _ _) (le_refl 1) (by decide)
    (fun t ht => le_of_lt (hwithin t ht))
  simp only [allowAll, hfirst]
  refine ⟨by simp [h1], ?_, ?_⟩
  · intro n res hn
    cases n with
    | zero =>
      simp only [List.getElem?_cons_zero, Option.some.injEq] at hn
      subst hn
      simp
    | succ m =>
      simp only [List.getElem?_cons_succ] at hn
      rw [h2 m res hn]
      push_cast
      constructor <;> intro h <;> omega
  · have hlive : (allowAll key limit (k * Second) ts
        ⟨setKey r.counters ("ratelimit:" ++ key) (some ⟨1, some (t0 + k * 1000)⟩), r.runs + 1,
          r.fail⟩).2.live later ("ratelimit:" ++ key) = none := by
      unfold Redis.live
      simp only [h4, if_pos hlater]
    rw [Allow_first key limit _ (h3 _) hlive hw]

theorem allow_counts_calls_in_window_witness :
    (allowAll "client" 2 (60 * Second) [0, 10, 20000] emptyRedis).1 =
      [.ok true, .ok true, .ok false] ∧
    (RateLimiter.Allow "client" 2 (60 * Second) 60001
      (allowAll "client" 2 (60 * Second) [0, 10, 20000] emptyRedis).2).1 = .ok true :=
  ⟨rfl,
   (allow_counts_calls_in_window "client" 2 60 0 [10, 20000] 60001 emptyRedis (by decide)
      (by decide) (fun _ => rfl) rfl (by decide) (by decide)).2.2⟩

theorem allowedTransition_same (x : Option IdempotencyEntry) : allowedTransition x x := by
  cases x with
  | none => trivial
  | some e => exact ⟨rfl, Or.inl rfl⟩

/-- A polling loop during which nobody else touches the cache leaves it as it was. -/
theorem loop_quiet_cache (s : IdempotencyService) (key payloadHash : String) :
    ∀ (wakes : List Wake) (w : World),
      (∀ others, Wake.tick others ∈ wakes → ∀ c : Cache IdempotencyEntry, others c = c) →
      (IdempotencyService.waitForCompletion.loop s key payloadHash wakes w).2.idemCache =
        w.idemCache := by
  intro wakes
  induction wakes with
  | nil => intro w _; rfl
  | cons wake rest ih =>
    intro w hq
    cases wake with
    | done err => rfl
    | timeout => rfl
    | tick others =>
      have ho : others w.idemCache = w.idemCache := hq others (List.mem_cons_self _ _) _
      have hw : ({ w with idemCache := others w.idemCache } : World) = w := by rw [ho]
      have hc := (checkEntry_idemOnly s key payloadHash w).2
      unfold IdempotencyService.waitForCompletion.loop
      rw [hw]
      split
      · rename_i h; rw [h] at hc; exact hc
      · rename_i h; rw [h] at hc; exact hc
      · rename_i w1 h; rw [h] at hc
        rw [ih w1 (fun o ho1 => hq o (List.mem_cons_of_mem _ ho1))]
        exact hc

theorem waitForCompletion_quiet_cache (s : IdempotencyService) (ctx : Context)
    (key payloadHash : String) (w : World)
    (hq : ∀ others, Wake.tick others ∈ ctx.wakes → ∀ c : Cache IdempotencyEntry, others c = c) :
    (s.waitForCompletion ctx key payloadHash w).2.idemCache = w.idemCache := by
  rw [waitForCompletion_eq_loop]
  apply loop_quiet_cache
  intro others ho c
  rcases List.mem_cons.mp ho with h | h
  · simp only [Wake.tick.injEq] at h; rw [h]
  · exact hq others h c

/-- What a `Claim` does to the cache when nobody else touches it meanwhile:
either it returns (nil, nil) and has put its processing entry under the free
key, or it returns something else and the cache is as before. -/
theorem Claim_quiet_cache (s : IdempotencyService) (ctx : Context)
    (key payloadHash : String) (w : World)
    (hq : ∀ others, Wake.tick others ∈ ctx.wakes → ∀ c : Cache IdempotencyEntry, others c = c) :
    ((s.Claim ctx key payloadHash w).1 = .ok none ∧ w.idemCache key = none ∧
      (s.Claim ctx key payloadHash w).2.idemCache =
        setKey w.idemCache key (some { value := processingEntry payloadHash, ttl := s.ttl })) ∨
    ((s.Claim ctx key payloadHash w).1 ≠ .ok none ∧
      (s.Claim ctx key payloadHash w).2.idemCache = w.idemCache) := by
  unfold IdempotencyService.Claim
  rw [SetNX_idem]
  cases hf : w.fail w.log.length (.cacheSetNX .idempotency) with
  | some msg => exact Or.inr ⟨by simp, rfl⟩
  | none =>
    cases hc : w.idemCache key with
    | none => exact Or.inl ⟨rfl, rfl, rfl⟩
    | some c =>
      refine Or.inr ⟨?_, ?_⟩
      · intro h
        obtain ⟨result, hr, _⟩ := waitForCompletion_result (Prod.ext h rfl :
          s.waitForCompletion ctx key payloadHash
            { w with log := w.log ++ [.cacheSetNX .idempotency] } = (.ok none, _))
        simp at hr
      · exact waitForCompletion_quiet_cache s ctx key payloadHash _ hq

theorem Inv_of_owner_cleared {st : IdemState} {k : String} {w1 : World} (hinv : st.Inv)
    (hother : ∀ key, key ≠ k → w1.idemCache key = st.world.idemCache key) :
    IdemState.Inv { world := w1, owner := setKey st.owner k none } := by
  intro key payloadHash ho
  by_cases hk : key = k
  · subst hk; dsimp only at ho; rw [setKey_same] at ho; cases ho
  · dsimp only at ho
    rw [setKey_other _ _ _ _ hk] at ho
    have h1 := hinv key payloadHash ho
    simp only [IdemState.entry] at h1 ⊢
    rw [hother key hk]; exact h1

/-- A step that can be taken keeps every owned key on its owner's processing
entry and moves every key along the path of an entry. -/
theorem step_keeps (s : IdempotencyService) (a : IdemAction) (st : IdemState)
    (hinv : st.Inv) (hen : a.enabled st) :
    (a.apply s st).Inv ∧
      ∀ key, allowedTransition (st.entry key) ((a.apply s st).entry key) := by
  cases a with
  | claim ctx k h =>
    have hq := Claim_quiet_cache s ctx k h st.world hen
    rcases hcl : s.Claim ctx k h st.world with ⟨res, w1⟩
    rw [hcl] at hq
    simp only at hq
    rcases hq with ⟨hres, hfree, hcache⟩ | ⟨hres, hcache⟩
    · subst hres
      have happ : (IdemAction.claim ctx k h).apply s st =
          { world := w1, owner := setKey st.owner k (some h) } := by
        simp only [IdemAction.apply, hcl]
      rw [happ]
      constructor
      · intro key payloadHash ho
        by_cases hk : key = k
        · subst hk
          dsimp only at ho
          rw [setKey_same] at ho
          injection ho with ho
          subst ho
          simp only [IdemState.entry, hcache, setKey_same, Option.map_some']
        · dsimp only at ho
          rw [setKey_other _ _ _ _ hk] at ho
          have h1 := hinv key payloadHash ho
          simp only [IdemState.entry] at h1 ⊢
          rw [hcache, setKey_other _ _ _ _ hk]; exact h1
      · intro key
        by_cases hk : key = k
        · subst hk
          simp only [IdemState.entry, hcache, setKey_same, hfree, Option.map_some',
            Option.map_none']
          exact (rfl : (processingEntry h).Status = IdempotencyProcessing)
        · simp only [IdemState.entry]
          rw [hcache, setKey_other _ _ _ _ hk]
          exact allowedTransition_same _
    · have happ : (IdemAction.claim ctx k h).apply s st = { world := w1, owner := st.owner } := by
        simp only [IdemAction.apply, hcl]
      rw [happ]
      constructor
      · intro key payloadHash ho
        have h1 := hinv key payloadHash ho
        simp only [IdemState.entry] at h1 ⊢
        rw [hcache]; exact h1
      · intro key
        simp only [IdemState.entry]
        rw [hcache]
        exact allowedTransition_same _
  | complete k h result =>
    have hown : st.owner k = some h := hen
    have hentry := hinv k h hown
    simp only [IdemAction.apply, IdempotencyService.Complete]
    rw [Set_idem]
    cases hf : st.world.fail st.world.log.length (.cacheSet .idempotency) with
    | some msg =>
      refine ⟨Inv_of_owner_cleared hinv (fun key _ => rfl), fun key => ?_⟩
      exact allowedTransition_same _
    | none =>
      refine ⟨Inv_of_owner_cleared hinv (fun key hk => setKey_other _ _ _ _ hk), fun key => ?_⟩
      by_cases hk : key = k
      · subst hk
        rw [hentry]
        simp only [IdemState.entry, setKey_same, Option.map_some']
        exact ⟨rfl, Or.inr ⟨rfl, rfl⟩⟩
      · simp only [IdemState.entry]
        rw [setKey_other _ _ _ _ hk]
        exact allowedTransition_same _
  | release k =>
    simp only [IdemAction.apply, IdempotencyService.Release]
    rw [Del_idem]
    cases hf : st.world.fail st.world.log.length (.cacheDel .idempotency) with
    | some msg =>
      refine ⟨Inv_of_owner_cleared hinv (fun key _ => rfl), fun key => ?_⟩
      exact allowedTransition_same _
    | none =>
      refine ⟨Inv_of_owner_cleared hinv (fun key hk => setKey_other _ _ _ _ hk), fun key => ?_⟩
      by_cases hk : key = k
      · subst hk
        simp only [IdemState.entry, setKey_same, Option.map_none']
        cases st.world.idemCache key <;> trivial
      · simp only [IdemState.entry]
        rw [setKey_other _ _ _ _ hk]
        exact allowedTransition_same _
  | expire k =>
    have hown : st.owner k = none := hen
    simp only [IdemAction.apply]
    constructor
    · intro key payloadHash ho
      have hk : key ≠ k := by
        intro hk; subst hk; rw [hown] at ho; cases ho
      have h1 := hinv key payloadHash ho
      simp only [IdemState.entry] at h1 ⊢
      rw [setKey_other _ _ _ _ hk]; exact h1
    · intro key
      by_cases hk : key = k
      · subst hk
        simp only [IdemState.entry, setKey_same, Option.map_none']
        cases st.world.idemCache key <;> trivial
      · simp only [IdemState.entry]
        rw [setKey_other _ _ _ _ hk]
        exact allowedTransition_same _

theorem Reachable_inv (s : IdempotencyService) (st : IdemState)
    (h : IdemState.Reachable s st) : st.Inv := by
  induction h with
  | start w => intro key payloadHash ho; cases ho
  | step a st _ hen ih => exact (step_keeps s a st ih hen).1

/-- C19, as stated, fails when an entry expires while its owner is still at
work: the owner's Complete then writes a completed entry under the absent key
(absent → completed), and when another request has claimed the key meanwhile
with another payload, that Complete replaces the payload hash under the key. -/
theorem complete_after_expiry_breaks_lifecycle :
    idemExpired.entry "k1" = none ∧
    ((IdemAction.complete "k1" "h" (some orderA)).apply exampleService.idempotency
        idemExpired).entry "k1" =
      some { Status := IdempotencyCompleted, PayloadHash := "h", Result := some orderA } ∧
    ¬ allowedTransition (idemExpired.entry "k1")
      (((IdemAction.complete "k1" "h" (some orderA)).apply exampleService.idempotency
        idemExpired).entry "k1") ∧
    idemReclaimed.entry "k1" = some (processingEntry "h2") ∧
    ((IdemAction.complete "k1" "h" (some orderA)).apply exampleService.idempotency
        idemReclaimed).entry "k1" =
      some { Status := IdempotencyCompleted, PayloadHash := "h", Result := some orderA } ∧
    ¬ allowedTransition (idemReclaimed.entry "k1")
      (((IdemAction.complete "k1" "h" (some orderA)).apply exampleService.idempotency
        idemReclaimed).entry "k1") := by
  refine ⟨rfl, rfl, ?_, rfl, rfl, ?_⟩
  · intro h
    exact absurd (show IdempotencyCompleted = IdempotencyProcessing from h) (by decide)
  · intro h
    exact absurd (show ("h" : String) = "h2" from h.1) (by decide)

/-- C19 (amended): in every state reached from a cache with no request at work
by steps of Claim, of Complete and Release by the owner of the key, and of
expiry of entries whose owner is not at work, every such step moves the entry
under every key along absent → processing → completed or back to absent: a new
entry is a processing one, an entry that stays keeps its payload hash and
changes at most from processing to completed. -/
theorem idempotency_entry_lifecycle (s : IdempotencyService) (a : IdemAction)
    (st : IdemState) (hreach : IdemState.Reachable s st) (hen : a.enabled st) :
    ∀ key, allowedTransition (st.entry key) ((a.apply s st).entry key) :=
  (step_keeps s a st (Reachable_inv s st hreach) hen).2

theorem idempotency_entry_lifecycle_witness :
    idemClaimed.entry "k1" = some (processingEntry "h") ∧
    ((IdemAction.complete "k1" "h" (some orderA)).apply exampleService.idempotency
        idemClaimed).entry "k1" =
      some { Status := IdempotencyCompleted, PayloadHash := "h", Result := some orderA } ∧
    allowedTransition (idemClaimed.entry "k1")
      (((IdemAction.complete "k1" "h" (some orderA)).apply exampleService.idempotency
        idemClaimed).entry "k1") :=
  ⟨rfl, rfl,
   idempotency_entry_lifecycle exampleService.idempotency
    (IdemAction.complete "k1" "h" (some orderA)) idemClaimed
    (IdemState.Reachable.step (IdemAction.claim exampleContext "k1" "h") idemStart
      (IdemState.Reachable.start exampleWorld)
      (by
        intro others ho c
        simp only [exampleContext, List.mem_cons, Wake.tick.injEq, List.mem_singleton,
          reduceCtorEq, or_false, or_self, List.not_mem_nil] at ho
        rw [ho]; rfl))
    rfl "k1"⟩

theorem call_withFail {w : World} {f1 : Nat → ExtCall → Option String} (c : ExtCall)
    (hag : sameButCompleteRelease w.fail f1) (hc : c.isCompleteOrRelease = false) :
    (w.withFail f1).call c = ((w.call c).1, (w.call c).2.withFail f1) := by
  unfold World.call World.withFail
  simp only [hag _ c hc]

theorem call_fail (w : World) (c : ExtCall) : (w.call c).2.fail = w.fail := rfl

theorem FindByID_withFail {T : Type} (c : Coll) (get : DB → ObjectID → Option T) (id : String)
    {w : World} {f1 : Nat → ExtCall → Option String}
    (hag : sameButCompleteRelease w.fail f1) :
    BaseRepository.FindByID c get id (w.withFail f1) =
      ((BaseRepository.FindByID c get id w).1,
        (BaseRepository.FindByID c get id w).2.withFail f1) := by
  unfold BaseRepository.FindByID
  cases ObjectIDFromHex id with
  | error err => rfl
  | ok objectID =>
    simp only
    rw [call_withFail (.findOne c) hag rfl]
    rcases w.call (.findOne c) with ⟨r, w1⟩
    cases r with
    | some err => rfl
    | none =>
      simp only
      show (match get w1.db objectID with
        | none => _
        | some entity => _) = _
      cases get w1.db objectID <;> rfl

theorem ProductService.GetByID_withFail (id : ID) {w : World}
    {f1 : Nat → ExtCall → Option String} (hag : sameButCompleteRelease w.fail f1) :
    ProductService.GetByID id (w.withFail f1) =
      ((ProductService.GetByID id w).1, (ProductService.GetByID id w).2.withFail f1) := by
  unfold ProductService.GetByID ProductRepository.GetByID
  rw [FindByID_withFail _ _ _ hag]
  rcases BaseRepository.FindByID .products DB.products id w with ⟨r, w1⟩
  cases r <;> rfl

theorem CustomerService.Exists_withFail (id : ID) {w : World}
    {f1 : Nat → ExtCall → Option String} (hag : sameButCompleteRelease w.fail f1) :
    CustomerService.Exists id (w.withFail f1) =
      ((CustomerService.Exists id w).1, (CustomerService.Exists id w).2.withFail f1) := by
  unfold CustomerService.Exists CustomerRepository.Exists
  rw [FindByID_withFail _ _ _ hag]
  rcases BaseRepository.FindByID .customers DB.customers id w with ⟨r, w1⟩
  cases r with
  | error err =>
    simp only
    split <;> rfl
  | ok v => rfl

theorem getOrderItems_withFail (dtoItems : List DtoOrderItem)
    {f1 : Nat → ExtCall → Option String} :
    ∀ {w : World}, sameButCompleteRelease w.fail f1 →
      OrderService.getOrderItems dtoItems (w.withFail f1) =
        ((OrderService.getOrderItems dtoItems w).1,
          (OrderService.getOrderItems dtoItems w).2.withFail f1) := by
  induction dtoItems with
  | nil => intro w _; rfl
  | cons item rest ih =>
    intro w hag
    unfold OrderService.getOrderItems
    rw [ProductService.GetByID_withFail _ hag]
    have hf := (ProductService.GetByID_reads_product item.ProductID w).fail
    rcases hg : ProductService.GetByID item.ProductID w with ⟨r, w1⟩
    rw [hg] at hf
    cases r with
    | error err => rfl
    | ok product =>
      simp only at hf ⊢
      rw [ih (by rw [hf]; exact hag)]
      rcases OrderService.getOrderItems rest w1 with ⟨r2, w2⟩
      cases r2 <;> rfl

theorem DeductStock_withFail (id : ID) (quantity : Int) {w : World}
    {f1 : Nat → ExtCall → Option String} (hag : sameButCompleteRelease w.fail f1) :
    ProductService.DeductStock id quantity (w.withFail f1) =
      ((ProductService.DeductStock id quantity w).1,
        (ProductService.DeductStock id quantity w).2.withFail f1) := by
  unfold ProductService.DeductStock ProductRepository.DeductStock
  cases ObjectIDFromHex id with
  | error err => rfl
  | ok objectID =>
    simp only
    rw [call_withFail (.findOneAndUpdate .products) hag rfl]
    rcases w.call (.findOneAndUpdate .products) with ⟨r, w1⟩
    cases r with
    | some err => rfl
    | none =>
      simp only
      show (match w1.db.products objectID with
        | none => _
        | some doc => _) = _
      cases w1.db.products objectID with
      | none => rfl
      | some doc =>
        simp only
        split <;> rfl

theorem deduct_withFail (items : List OrderItem) {f1 : Nat → ExtCall → Option String} :
    ∀ {w : World}, sameButCompleteRelease w.fail f1 →
      OrderService.processOrder.deduct items (w.withFail f1) =
        ((OrderService.processOrder.deduct items w).1,
          (OrderService.processOrder.deduct items w).2.withFail f1) := by
  induction items with
  | nil => intro w _; rfl
  | cons item rest ih =>
    intro w hag
    unfold OrderService.processOrder.deduct
    rw [DeductStock_withFail _ _ hag]
    have hf := (DeductStock_writes item.ProductID item.Quantity w).fail
    unfold ProductService.DeductStock at hf ⊢
    rcases hg : ProductRepository.DeductStock item.ProductID item.Quantity w with ⟨r, w1⟩
    rw [hg] at hf
    cases r with
    | some err => rfl
    | none =>
      simp only at hf ⊢
      exact ih (by rw [hf]; exact hag)

theorem ToDocument_items_withFail (items : List OrderItem)
    (f1 : Nat → ExtCall → Option String) :
    ∀ w : World, ToDocument.items items (w.withFail f1) =
      ((ToDocument.items items w).1, (ToDocument.items items w).2.withFail f1) := by
  induction items with
  | nil => intro w; rfl
  | cons item rest ih =>
    intro w
    simp only [ToDocument.items]
    by_cases hi : item.ID ≠ ""
    · simp only [if_pos hi]
      rw [ih w]
    · simp only [if_neg hi]
      have h : (w.withFail f1).newObjectID.2 = w.newObjectID.2.withFail f1 := rfl
      have h1 : (w.withFail f1).newObjectID.1 = w.newObjectID.1 := rfl
      rw [h, h1, ih]

theorem ToDocument_items_fail (items : List OrderItem) (w : World) :
    (ToDocument.items items w).2.fail = w.fail := by
  obtain ⟨n, hn, _⟩ := ToDocument_items_world items w
  rw [hn]

theorem Create_withFail (order : Order) {w : World} {f1 : Nat → ExtCall → Option String}
    (hag : sameButCompleteRelease w.fail f1) :
    OrderRepository.Create order (w.withFail f1) =
      ((OrderRepository.Create order w).1, (OrderRepository.Create order w).2.withFail f1) := by
  unfold OrderRepository.Create
  by_cases hid : order.ID ≠ ""
  · simp only [if_pos hid]
  · simp only [if_neg hid, ToDocument, ToDocument_items_withFail]
    have hf := ToDocument_items_fail order.Items w
    rcases hg : ToDocument.items order.Items w with ⟨docs, w1⟩
    rw [hg] at hf
    simp only at hf ⊢
    rw [call_withFail (.insertOne .orders) (by rw [hf]; exact hag) rfl]
    rcases w1.call (.insertOne .orders) with ⟨r, w2⟩
    cases r with
    | some err => rfl
    | none =>
      simp only
      show (match (w2.newObjectID).2.db.orders (w2.newObjectID).1 with
        | some _ => _
        | none => _) = _
      cases (w2.newObjectID).2.db.orders (w2.newObjectID).1 <;> rfl

theorem body_withFail (order : Order) {w : World} {f1 : Nat → ExtCall → Option String}
    (hag : sameButCompleteRelease w.fail f1) :
    OrderService.processOrder.body order (w.withFail f1) =
      ((OrderService.processOrder.body order w).1,
        (OrderService.processOrder.body order w).2.withFail f1) := by
  unfold OrderService.processOrder.body
  rw [deduct_withFail _ hag]
  have hf := (deduct_writes order.Items w).fail
  rcases hg : OrderService.processOrder.deduct order.Items w with ⟨r, w1⟩
  rw [hg] at hf
  cases r with
  | some err => rfl
  | none =>
    simp only at hf ⊢
    exact Create_withFail order (by rw [hf]; exact hag)

theorem sessionWithTransaction_withFail {σ : Type} (st : σ)
    (fn : σ → World → (Option GoError × σ) × World) {w : World}
    {f1 : Nat → ExtCall → Option String} (hag : sameButCompleteRelease w.fail f1)
    (hfn : fn st (w.withFail f1) = ((fn st w).1, (fn st w).2.withFail f1))
    (hfail : (fn st w).2.fail = w.fail) :
    sessionWithTransaction st fn (w.withFail f1) =
      ((sessionWithTransaction st fn w).1, (sessionWithTransaction st fn w).2.withFail f1) := by
  unfold sessionWithTransaction
  rw [hfn]
  rcases hg : fn st w with ⟨⟨r, st1⟩, w1⟩
  rw [hg] at hfail
  cases r with
  | some err => rfl
  | none =>
    simp only at hfail ⊢
    rw [call_withFail .commit (by rw [hfail]; exact hag) rfl]
    rcases w1.call .commit with ⟨r2, w2⟩
    cases r2 <;> rfl

theorem WithTransaction_withFail {σ : Type} (st : σ)
    (fn : σ → World → (Option GoError × σ) × World) {w : World}
    {f1 : Nat → ExtCall → Option String} (hag : sameButCompleteRelease w.fail f1)
    (hfn : ∀ v : World, sameButCompleteRelease v.fail f1 →
      fn st (v.withFail f1) = ((fn st v).1, (fn st v).2.withFail f1) ∧
        (fn st v).2.fail = v.fail) :
    TransactionManager.WithTransaction st fn (w.withFail f1) =
      ((TransactionManager.WithTransaction st fn w).1,
        (TransactionManager.WithTransaction st fn w).2.withFail f1) := by
  unfold TransactionManager.WithTransaction
  rw [call_withFail .startSession hag rfl]
  have hf := call_fail w .startSession
  rcases hg : w.call .startSession with ⟨r, w1⟩
  rw [hg] at hf
  cases r with
  | some err => rfl
  | none =>
    simp only at hf ⊢
    have hag1 : sameButCompleteRelease w1.fail f1 := by rw [hf]; exact hag
    exact sessionWithTransaction_withFail st fn hag1 (hfn w1 hag1).1 (hfn w1 hag1).2

theorem processOrder_withFail (request : CreateOrderRequest) {w : World}
    {f1 : Nat → ExtCall → Option String} (hag : sameButCompleteRelease w.fail f1) :
    OrderService.processOrder request (w.withFail f1) =
      ((OrderService.processOrder request w).1,
        (OrderService.processOrder request w).2.withFail f1) := by
  unfold OrderService.processOrder
  by_cases hlen : request.Items.length > ORDER_MAX_ITEMS
  · simp only [if_pos hlen]
  · simp only [if_neg hlen]
    rw [CustomerService.Exists_withFail _ hag]
    have hf := (CustomerService.Exists_reads request.CustomerID w).fail
    rcases hg : CustomerService.Exists request.CustomerID w with ⟨r, w1⟩
    rw [hg] at hf
    cases r with
    | some err => rfl
    | none =>
      simp only at hf ⊢
      have hag1 : sameButCompleteRelease w1.fail f1 := by rw [hf]; exact hag
      rw [getOrderItems_withFail _ hag1]
      have hf2 := (getOrderItems_reads request.Items w1).fail
      have hc2 := (getOrderItems_reads request.Items w1).clock
      rcases hg2 : OrderService.getOrderItems request.Items w1 with ⟨r2, w2⟩
      rw [hg2] at hf2 hc2
      cases r2 with
      | error err => rfl
      | ok items =>
        simp only at hf2 hc2 ⊢
        have hag2 : sameButCompleteRelease w2.fail f1 := by rw [hf2, hf]; exact hag
        have hclock : (w2.withFail f1).clock = w2.clock := rfl
        rw [hclock, WithTransaction_withFail _ _ hag2
          (fun v hv => ⟨body_withFail _ hv, (body_writes _ v).fail⟩)]
        rcases TransactionManager.WithTransaction
          (NewOrder w2.clock request.CustomerID OrderStatusCreated items)
          OrderService.processOrder.body w2 with ⟨⟨r3, o3⟩, w3⟩
        cases r3 <;> rfl

theorem Get_withFail (key : String) {w : World} {f1 : Nat → ExtCall → Option String}
    (hag : sameButCompleteRelease w.fail f1) :
    RedisCache.Get idemCacheRef key (w.withFail f1) =
      ((RedisCache.Get idemCacheRef key w).1,
        (RedisCache.Get idemCacheRef key w).2.withFail f1) := by
  unfold RedisCache.Get
  rw [call_withFail (.cacheGet idemCacheRef.name) hag rfl]
  rcases w.call (.cacheGet idemCacheRef.name) with ⟨r, w1⟩
  cases r <;> rfl

theorem checkEntry_withFail (s : IdempotencyService) (key payloadHash : String) {w : World}
    {f1 : Nat → ExtCall → Option String} (hag : sameButCompleteRelease w.fail f1) :
    s.checkEntry key payloadHash (w.withFail f1) =
      ((s.checkEntry key payloadHash w).1, (s.checkEntry key payloadHash w).2.withFail f1) := by
  unfold IdempotencyService.checkEntry
  rw [Get_withFail _ hag]
  rcases RedisCache.Get idemCacheRef key w with ⟨r, w1⟩
  cases r with
  | error err => rfl
  | ok read =>
    cases read with
    | none => rfl
    | some entry =>
      simp only
      split
      · rfl
      · split <;> rfl

theorem loop_withFail (s : IdempotencyService) (key payloadHash : String)
    {f1 : Nat → ExtCall → Option String} (wakes : List Wake) :
    ∀ {w : World}, sameButCompleteRelease w.fail f1 →
      IdempotencyService.waitForCompletion.loop s key payloadHash wakes (w.withFail f1) =
        ((IdempotencyService.waitForCompletion.loop s key payloadHash wakes w).1,
          (IdempotencyService.waitForCompletion.loop s key payloadHash wakes w).2.withFail
            f1) := by
  induction wakes with
  | nil => intro w _; rfl
  | cons wake rest ih =>
    intro w hag
    cases wake with
    | done err => rfl
    | timeout => rfl
    | tick others =>
      unfold IdempotencyService.waitForCompletion.loop
      have hw : ({ w.withFail f1 with idemCache := others (w.withFail f1).idemCache } : World) =
          (w.afterOthers others).withFail f1 := rfl
      have hw2 : ({ w with idemCache := others w.idemCache } : World) = w.afterOthers others :=
        rfl
      rw [hw, hw2, checkEntry_withFail s key payloadHash (w := w.afterOthers others) hag]
      have hf := (checkEntry_idemOnly s key payloadHash (w.afterOthers others)).1.fail
      rcases hg : s.checkEntry key payloadHash (w.afterOthers others) with ⟨r, w1⟩
      rw [hg] at hf
      cases r with
      | error err => rfl
      | ok found =>
        cases found with
        | some result => rfl
        | none =>
          simp only at hf ⊢
          exact ih (by rw [hf]; exact hag)

theorem Claim_withFail (s : IdempotencyService) (ctx : Context) (key payloadHash : String)
    {w : World} {f1 : Nat → ExtCall → Option String}
    (hag : sameButCompleteRelease w.fail f1) :
    s.Claim ctx key payloadHash (w.withFail f1) =
      ((s.Claim ctx key payloadHash w).1, (s.Claim ctx key payloadHash w).2.withFail f1) := by
  unfold IdempotencyService.Claim
  rw [SetNX_idem, SetNX_idem]
  have h1 : (w.withFail f1).fail (w.withFail f1).log.length (.cacheSetNX .idempotency) =
      w.fail w.log.length (.cacheSetNX .idempotency) := hag _ _ rfl
  have h2 : (w.withFail f1).idemCache = w.idemCache := rfl
  rw [h1, h2]
  cases w.fail w.log.length (.cacheSetNX .idempotency) with
  | some msg => rfl
  | none =>
    cases w.idemCache key with
    | none => rfl
    | some c =>
      simp only
      rw [waitForCompletion_eq_loop, waitForCompletion_eq_loop]
      exact loop_withFail s key payloadHash _
        (w := { w with log := w.log ++ [.cacheSetNX .idempotency] }) hag

/-- C17: on two infrastructures that differ at most in whether the cache write
of Complete and the cache delete of Release go through, CreateOrder returns the
same value and error; and UpdateOrderStatus returns nil once the store update
has succeeded, whatever the outcome of the cache Set that follows. -/
theorem cache_failures_are_not_fatal (s : OrderService) (ctx : Context) (key : String)
    (request : CreateOrderRequest) (w : World) (f1 : Nat → ExtCall → Option String)
    (hag : sameButCompleteRelease w.fail f1) :
    (s.CreateOrder ctx key request (w.withFail f1)).1 = (s.CreateOrder ctx key request w).1 ∧
    (∀ (orderID : ID) (status : OrderStatus) (v v1 v2 : World) (order : Order)
        (outcome : Option String),
      status.IsValid = true →
      OrderRepository.GetByID orderID v = (.ok order, v1) →
      order.Status ≠ status →
      OrderRepository.UpdateStatusWithOutbox orderID status
        (NewOrderUpdateStatusEvent orderID status order.Status v1.clock order.CustomerID) v1 =
        (none, v2) →
      v2.fail v2.log.length (.cacheSet .order) = outcome →
      (OrderService.UpdateOrderStatus orderID status v).1 = none) := by
  constructor
  · unfold OrderService.CreateOrder
    by_cases hk : key = ""
    · simp only [if_pos hk]
      rw [processOrder_withFail _ hag]
    · simp only [if_neg hk]
      rw [Claim_withFail _ _ _ _ hag]
      have hf := (Claim_idemOnly s.idempotency ctx key (s.HashJSON request) w).fail
      rcases hg : s.idempotency.Claim ctx key (s.HashJSON request) w with ⟨r, w1⟩
      rw [hg] at hf
      cases r with
      | error err => rfl
      | ok found =>
        cases found with
        | some existing => rfl
        | none =>
          simp only at hf ⊢
          rw [processOrder_withFail _ (by rw [hf]; exact hag)]
          rcases OrderService.processOrder request w1 with ⟨r2, w2⟩
          cases r2 <;> rfl
  · intro orderID status v v1 v2 order outcome hvalid hget hne hstore _
    unfold OrderService.UpdateOrderStatus
    simp only [hvalid, Bool.not_true, Bool.false_eq_true, if_false, hget, if_neg hne, hstore]

theorem cache_failures_are_not_fatal_witness :
    (exampleService.CreateOrder exampleContext "k1" requestA worldSetFails).1 =
      (exampleService.CreateOrder exampleContext "k1" requestA exampleWorld).1 ∧
    (exampleService.CreateOrder exampleContext "k1" requestShort worldDelFails).1 =
      (exampleService.CreateOrder exampleContext "k1" requestShort exampleWorld).1 ∧
    (worldAfterFailedComplete.idemCache "k1").map (fun c => c.value.Status) =
      some IdempotencyProcessing ∧
    (OrderService.UpdateOrderStatus oidOrderA "processing" worldOrderCacheDown).1 = none :=
  ⟨(cache_failures_are_not_fatal exampleService exampleContext "k1" requestA exampleWorld
      worldSetFails.fail
      (by
        intro n c hc
        cases c <;> first | rfl | (rename_i name; cases name <;> first | rfl | cases hc))).1,
   (cache_failures_are_not_fatal exampleService exampleContext "k1" requestShort exampleWorld
      worldDelFails.fail
      (by
        intro n c hc
        cases c <;> first | rfl | (rename_i name; cases name <;> first | rfl | cases hc))).1,
   rfl,
   (cache_failures_are_not_fatal exampleService exampleContext "k1" requestA exampleWorld
      exampleWorld.fail (fun _ _ _ => rfl)).2 oidOrderA "processing" worldOrderCacheDown
      (OrderRepository.GetByID oidOrderA worldOrderCacheDown).2 _
      { ID := oidOrderA, CustomerID := cidA,
        Items := [{ ID := "000000000000000000000001", ProductID := pidA,
                    ProductName := "Widget", Quantity := 3, UnitPrice := 2999 }],
        Status := "created", TotalAmount := 8997, CreatedAt := 7, UpdatedAt := 7 }
      (some "redis down") rfl (Prod.ext rfl rfl) (by decide) (Prod.ext rfl rfl) rfl⟩

theorem parseError_ne_limit {e : GoError} (h : e ≠ limitError) : parseError e ≠ limitError := by
  unfold parseError
  split
  · decide
  · split
    · decide
    · split
      · decide
      · exact h

theorem insufficient_ne_limit (id : ID) :
    NewUnprocessableEntityError ("insufficient stock for product " ++ id) ≠ limitError := by
  intro h
  simp only [NewUnprocessableEntityError, limitError, GoError.service.injEq, true_and] at h
  have h1 := congrArg String.data h
  rw [String.data_append] at h1
  have h2 := congrArg List.head? h1
  have hd : ("insufficient stock for product ".data ++ id.data).head? = some 'i' := rfl
  have hd2 : "order items limit exceeded".data.head? = some 'o' := rfl
  rw [hd, hd2] at h2
  exact absurd h2 (by decide)

theorem FindByID_ne_limit {T : Type} {c : Coll} {get : DB → ObjectID → Option T} {id : String}
    {w w1 : World} {err : GoError}
    (h : BaseRepository.FindByID c get id w = (.error err, w1)) : err ≠ limitError := by
  unfold BaseRepository.FindByID at h
  split at h
  · rename_i e0 hid
    simp only [Prod.mk.injEq, Except.error.injEq] at h
    rw [← h.1]
    apply parseError_ne_limit
    unfold ObjectIDFromHex at hid
    split at hid
    · simp only [Except.error.injEq] at hid; rw [← hid]; decide
    · split at hid
      · simp at hid
      · simp only [Except.error.injEq] at hid; rw [← hid]; decide
  · simp only [World.call] at h
    cases hf : w.fail w.log.length (.findOne c) with
    | some msg =>
      rw [hf] at h
      simp only [Option.map_some', Prod.mk.injEq, Except.error.injEq] at h
      rw [← h.1]
      exact parseError_ne_limit (by simp [limitError, NewUnprocessableEntityError])
    | none =>
      rw [hf] at h
      simp only [Option.map_none'] at h
      split at h
      · simp only [Prod.mk.injEq, Except.error.injEq] at h
        rw [← h.1]
        exact parseError_ne_limit (by simp [limitError, NewUnprocessableEntityError])
      · simp at h

theorem plain_ne_limit (msg : String) : GoError.plain msg ≠ limitError := by
  simp [limitError, NewUnprocessableEntityError]

theorem ObjectIDFromHex_ne_limit {id : String} {e : GoError}
    (h : ObjectIDFromHex id = .error e) : e ≠ limitError := by
  unfold ObjectIDFromHex at h
  split at h
  · simp only [Except.error.injEq] at h; rw [← h]; decide
  · split at h
    · simp at h
    · simp only [Except.error.injEq] at h; rw [← h]; decide

theorem call_ne_limit {w w1 : World} {c : ExtCall} {e : GoError}
    (h : w.call c = (some e, w1)) : e ≠ limitError := by
  simp only [World.call, Prod.mk.injEq] at h
  cases hf : w.fail w.log.length c with
  | none => rw [hf] at h; simp at h
  | some msg =>
    rw [hf] at h
    simp only [Option.map_some', Option.some.injEq] at h
    rw [← h.1]; exact plain_ne_limit msg

/-- The error of `CustomerService.Exists`, when there is one, is NotFound
"customer not found". -/
theorem Exists_error_eq {id : ID} {w w1 : World} {err : GoError}
    (h : CustomerService.Exists id w = (some err, w1)) :
    err = NewNotFoundError "customer not found" := by
  unfold CustomerService.Exists at h
  split at h
  · split at h
    · simp only [Prod.mk.injEq, Option.some.injEq] at h; exact h.1.symm
    · simp at h
  · simp at h

theorem getOrderItems_ne_limit (dtoItems : List DtoOrderItem) :
    ∀ {w w1 : World} {err : GoError},
      OrderService.getOrderItems dtoItems w = (.error err, w1) → err ≠ limitError := by
  induction dtoItems with
  | nil => intro w w1 err h; simp [OrderService.getOrderItems] at h
  | cons item rest ih =>
    intro w w1 err h
    unfold OrderService.getOrderItems at h
    split at h
    · rename_i e0 w2 hg
      simp only [Prod.mk.injEq, Except.error.injEq] at h
      rw [← h.1]
      unfold ProductService.GetByID ProductRepository.GetByID at hg
      split at hg
      · rename_i e1 w3 hf
        simp only [Prod.mk.injEq, Except.error.injEq] at hg
        rw [← hg.1]; exact FindByID_ne_limit hf
      · simp at hg
    · split at h
      · rename_i e0 w3 hr
        simp only [Prod.mk.injEq, Except.error.injEq] at h
        rw [← h.1]; exact ih hr
      · simp at h

theorem DeductStock_ne_limit {id : ID} {quantity : Int} {w w1 : World} {err : GoError}
    (h : ProductService.DeductStock id quantity w = (some err, w1)) : err ≠ limitError := by
  unfold ProductService.DeductStock ProductRepository.DeductStock at h
  split at h
  · rename_i e0 hid
    simp only [Prod.mk.injEq, Option.some.injEq] at h
    rw [← h.1]; exact parseError_ne_limit (ObjectIDFromHex_ne_limit hid)
  · split at h
    · rename_i e0 w2 hc
      simp only [Prod.mk.injEq, Option.some.injEq] at h
      rw [← h.1]; exact call_ne_limit hc
    · split at h
      · simp only [Prod.mk.injEq, Option.some.injEq] at h
        rw [← h.1]; exact insufficient_ne_limit id
      · split at h
        · simp at h
        · simp only [Prod.mk.injEq, Option.some.injEq] at h
          rw [← h.1]; exact insufficient_ne_limit id

theorem deduct_ne_limit (items : List OrderItem) :
    ∀ {w w1 : World} {err : GoError},
      OrderService.processOrder.deduct items w = (some err, w1) → err ≠ limitError := by
  induction items with
  | nil => intro w w1 err h; simp [OrderService.processOrder.deduct] at h
  | cons item rest ih =>
    intro w w1 err h
    unfold OrderService.processOrder.deduct at h
    split at h
    · rename_i e0 w2 hd
      simp only [Prod.mk.injEq, Option.some.injEq] at h
      rw [← h.1]; exact DeductStock_ne_limit hd
    · exact ih h

theorem Create_ne_limit {order order1 : Order} {w w1 : World} {err : GoError}
    (h : OrderRepository.Create order w = ((some err, order1), w1)) : err ≠ limitError := by
  unfold OrderRepository.Create at h
  split at h
  · simp only [Prod.mk.injEq, Option.some.injEq] at h
    rw [← h.1.1]; exact plain_ne_limit _
  · simp only at h
    split at h
    · rename_i e0 w2 hc
      simp only [Prod.mk.injEq, Option.some.injEq] at h
      rw [← h.1.1]; exact parseError_ne_limit (call_ne_limit hc)
    · split at h
      · simp only [Prod.mk.injEq, Option.some.injEq] at h
        rw [← h.1.1]; exact parseError_ne_limit (by decide)
      · simp at h

theorem body_ne_limit {order order1 : Order} {w w1 : World} {err : GoError}
    (h : OrderService.processOrder.body order w = ((some err, order1), w1)) :
    err ≠ limitError := by
  unfold OrderService.processOrder.body at h
  split at h
  · rename_i e0 w2 hd
    simp only [Prod.mk.injEq, Option.some.injEq] at h
    rw [← h.1.1]; exact deduct_ne_limit _ hd
  · exact Create_ne_limit h

theorem WithTransaction_ne_limit {σ : Type} {st st1 : σ}
    {fn : σ → World → (Option GoError × σ) × World} {w w1 : World} {err : GoError}
    (hfn : ∀ (v v1 : World) (s1 : σ) (e : GoError), fn st v = ((some e, s1), v1) →
      e ≠ limitError)
    (h : TransactionManager.WithTransaction st fn w = ((some err, st1), w1)) :
    err ≠ limitError := by
  unfold TransactionManager.WithTransaction at h
  split at h
  · rename_i e0 w2 hc
    simp only [Prod.mk.injEq, Option.some.injEq] at h
    rw [← h.1.1]; exact call_ne_limit hc
  · unfold sessionWithTransaction at h
    split at h
    · rename_i e0 s1 w3 hf
      simp only [Prod.mk.injEq, Option.some.injEq] at h
      rw [← h.1.1]; exact hfn _ _ _ _ hf
    · split at h
      · rename_i e0 w4 hc
        simp only [Prod.mk.injEq, Option.some.injEq] at h
        rw [← h.1.1]; exact call_ne_limit hc
      · simp at h

theorem processOrder_ne_limit {request : CreateOrderRequest} {w : World}
    (hlen : request.Items.length ≤ ORDER_MAX_ITEMS) :
    (OrderService.processOrder request w).1 ≠ .error limitError := by
  unfold OrderService.processOrder
  rw [if_neg (not_lt.mpr hlen)]
  split
  · rename_i e0 w1 he
    rw [Exists_error_eq he]
    simp [limitError, NewNotFoundError, NewUnprocessableEntityError]
  · split
    · rename_i e0 w2 hg
      intro h
      simp only [Except.error.injEq] at h
      exact getOrderItems_ne_limit _ hg h
    · dsimp only
      split
      · rename_i e0 o3 w3 ht
        intro h
        simp only [Except.error.injEq] at h
        exact WithTransaction_ne_limit (fun v v1 s1 e hb => body_ne_limit hb) ht h
      · simp

/-- C21: the limit is 100 items.  With more than 100 items processOrder returns
UnprocessableEntity "order items limit exceeded" and leaves the world as it
was, so no lookup, transaction or deduction has happened (and the whole of
CreateOrder issues commands on the idempotency cache at most); with at most
100 items processOrder never returns that error.  CreateOrder runs processOrder
whenever it has no key or has claimed its key. -/
theorem processOrder_items_limit (s : OrderService) (ctx : Context) (key : String)
    (request : CreateOrderRequest) (w : World) :
    ORDER_MAX_ITEMS = 100 ∧
    (100 < request.Items.length →
      OrderService.processOrder request w = (.error limitError, w)) ∧
    (100 < request.Items.length → key ≠ "" →
      w.IdemOnly (s.CreateOrder ctx key request w).2) ∧
    (request.Items.length ≤ 100 →
      (OrderService.processOrder request w).1 ≠ .error limitError) ∧
    (key = "" → s.CreateOrder ctx key request w = OrderService.processOrder request w) ∧
    (∀ w1, key ≠ "" → s.idempotency.Claim ctx key (s.HashJSON request) w = (.ok none, w1) →
      (s.CreateOrder ctx key request w).1 = (OrderService.processOrder request w1).1) := by
  have hb : ∀ v : World, 100 < request.Items.length →
      OrderService.processOrder request v = (.error limitError, v) := by
    intro v hlen
    unfold OrderService.processOrder
    rw [if_pos (show request.Items.length > ORDER_MAX_ITEMS from hlen)]
    rfl
  refine ⟨rfl, hb w, ?_, fun hlen => processOrder_ne_limit hlen, ?_, ?_⟩
  · intro hlen hkey
    have hc := Claim_idemOnly s.idempotency ctx key (s.HashJSON request) w
    unfold OrderService.CreateOrder
    rw [if_neg hkey]
    dsimp only
    split
    · rename_i h; rw [h] at hc; exact hc
    · rename_i h; rw [h] at hc; exact hc
    · rename_i w1 h
      rw [h] at hc
      rw [hb w1 hlen]
      exact hc.idemThen (Release_idemOnly s.idempotency key w1)
  · intro hkey
    unfold OrderService.CreateOrder
    rw [if_pos hkey]
  · intro w1 hkey hclaim
    exact CreateOrder_claimed_value hkey hclaim

theorem processOrder_items_limit_witness :
    requestTooLong.Items.length = 101 ∧
    exampleService.CreateOrder exampleContext "" requestTooLong exampleWorld =
      (.error (NewUnprocessableEntityError "order items limit exceeded"), exampleWorld) ∧
    (exampleService.CreateOrder exampleContext "k1" requestTooLong exampleWorld).2.log =
      [.cacheSetNX .idempotency, .cacheDel .idempotency] ∧
    (OrderService.processOrder requestEmpty exampleWorld).1 ≠ .error limitError :=
  have h := processOrder_items_limit exampleService exampleContext "" requestTooLong
    exampleWorld
  ⟨rfl, (h.2.2.2.2.1 rfl).trans (h.2.1 (by decide)), rfl,
    (processOrder_items_limit exampleService exampleContext "" requestEmpty
      exampleWorld).2.2.2.1 (by decide)⟩

/-- C24: IsValid is true exactly for the five strings created, processing,
shipped, delivered and cancelled, and for every other status UpdateOrderStatus
returns InvalidRequest "invalid status" with the world as it was: no read or
write of the store or the cache has happened. -/
theorem updateOrderStatus_rejects_invalid_status (status : OrderStatus) :
    (OrderStatus.IsValid status = true ↔
      status = "created" ∨ status = "processing" ∨ status = "shipped" ∨
        status = "delivered" ∨ status = "cancelled") ∧
    (OrderStatus.IsValid status = false → ∀ (id : ID) (w : World),
      OrderService.UpdateOrderStatus id status w =
        (some (NewInvalidRequestError "invalid status"), w)) := by
  constructor
  · simp only [OrderStatus.IsValid, OrderStatusCreated, OrderStatusProcessing,
      OrderStatusShipped, OrderStatusDelivered, OrderStatusCancelled, Bool.or_eq_true,
      beq_iff_eq, or_assoc]
  · intro h id w
    unfold OrderService.UpdateOrderStatus
    rw [h]
    rfl

theorem updateOrderStatus_rejects_invalid_status_witness :
    OrderStatus.IsValid "" = false ∧ OrderStatus.IsValid "CREATED" = false ∧
    OrderStatus.IsValid "shipped" = true ∧
    OrderService.UpdateOrderStatus oidOrderA "CREATED" worldWithOrder =
      (some (NewInvalidRequestError "invalid status"), worldWithOrder) :=
  ⟨by decide, by decide, by decide,
    (updateOrderStatus_rejects_invalid_status "CREATED").2 (by decide) oidOrderA
      worldWithOrder⟩

/-- C22: CustomerService.Exists returns NotFound "customer not found" when the
customer store reports an error of kind NotFound, as it does for a valid id
without a document, and nil when the store finds the customer or fails with
any other error.  So processOrder (for at most 100 items) fails with that
NotFound for an unknown customer, and after every other outcome of the store
goes on with the statements that follow the customer check. -/
theorem customer_check_swallows_other_errors (id : ID) (w : World) :
    (∀ err w1, CustomerRepository.Exists id w = (.error err, w1) →
      IsOfKind err .KindNotFound = true →
      CustomerService.Exists id w = (some (NewNotFoundError "customer not found"), w1)) ∧
    (∀ err w1, CustomerRepository.Exists id w = (.error err, w1) →
      IsOfKind err .KindNotFound = false → CustomerService.Exists id w = (none, w1)) ∧
    (∀ found w1, CustomerRepository.Exists id w = (.ok found, w1) →
      CustomerService.Exists id w = (none, w1)) ∧
    (∀ objectID, ObjectIDFromHex id = .ok objectID → w.db.customers objectID = none →
      w.fail w.log.length (.findOne .customers) = none →
      (CustomerService.Exists id w).1 = some (NewNotFoundError "customer not found")) ∧
    (∀ request : CreateOrderRequest, request.CustomerID = id →
      request.Items.length ≤ 100 →
      (∀ err w1, CustomerRepository.Exists id w = (.error err, w1) →
        IsOfKind err .KindNotFound = true →
        OrderService.processOrder request w =
          (.error (NewNotFoundError "customer not found"), w1)) ∧
      (∀ r w1, CustomerRepository.Exists id w = (r, w1) →
        (∀ err, r = .error err → IsOfKind err .KindNotFound = false) →
        OrderService.processOrder request w =
          OrderService.processOrder.afterCustomerCheck request w1)) := by
  have h1 : ∀ err w1, CustomerRepository.Exists id w = (.error err, w1) →
      IsOfKind err .KindNotFound = true →
      CustomerService.Exists id w = (some (NewNotFoundError "customer not found"), w1) := by
    intro err w1 h hk
    unfold CustomerService.Exists
    rw [h]
    simp only [hk, if_true]
  have h2 : ∀ err w1, CustomerRepository.Exists id w = (.error err, w1) →
      IsOfKind err .KindNotFound = false → CustomerService.Exists id w = (none, w1) := by
    intro err w1 h hk
    unfold CustomerService.Exists
    rw [h]
    simp only [hk, Bool.false_eq_true, if_false]
  have h3 : ∀ found w1, CustomerRepository.Exists id w = (.ok found, w1) →
      CustomerService.Exists id w = (none, w1) := by
    intro found w1 h
    unfold CustomerService.Exists
    rw [h]
  refine ⟨h1, h2, h3, ?_, ?_⟩
  · intro objectID hid hdoc hfail
    have hr : CustomerRepository.Exists id w =
        (.error (NewNotFoundError "entity not found"),
          { w with log := w.log ++ [.findOne .customers] }) := by
      unfold CustomerRepository.Exists BaseRepository.FindByID
      simp only [hid, World.call, hfail, Option.map_none', hdoc]
      rfl
    rw [h1 _ _ hr rfl]
  · intro request hcust hlen
    constructor
    · intro err w1 h hk
      unfold OrderService.processOrder
      rw [if_neg (show ¬ request.Items.length > ORDER_MAX_ITEMS from not_lt.mpr hlen), hcust,
        h1 err w1 h hk]
    · intro r w1 h hr
      have hs : CustomerService.Exists id w = (none, w1) := by
        cases r with
        | error err => exact h2 err w1 h (hr err rfl)
        | ok found => exact h3 found w1 h
      unfold OrderService.processOrder OrderService.processOrder.afterCustomerCheck
      rw [if_neg (show ¬ request.Items.length > ORDER_MAX_ITEMS from not_lt.mpr hlen), hcust,
        hs]

theorem customer_check_swallows_other_errors_witness :
    exampleService.CreateOrder exampleContext "" requestUnknownCustomer exampleWorld =
      (.error (NewNotFoundError "customer not found"),
        { exampleWorld with log := [.findOne .customers] }) ∧
    (CustomerRepository.Exists "nope" exampleWorld).1 =
      .error (NewInvalidRequestError "invalid ID format") ∧
    (CustomerService.Exists "nope" exampleWorld).1 = none ∧
    (CustomerService.Exists cidA worldCustomersDown).1 = none ∧
    ((exampleService.CreateOrder exampleContext "" requestBadCustomerID exampleWorld).1.toOption.map
      (fun order => (order.CustomerID, order.TotalAmount))) = some ("nope", 8997) := by
  have h := customer_check_swallows_other_errors cidUnknown exampleWorld
  have h0 := customer_check_swallows_other_errors "nope" exampleWorld
  have h5 := customer_check_swallows_other_errors cidA worldCustomersDown
  refine ⟨?_, rfl, ?_, ?_, rfl⟩
  · exact (h.2.2.2.2 requestUnknownCustomer rfl (by decide)).1
      (NewNotFoundError "entity not found") _ (Prod.ext rfl rfl) rfl
  · exact congrArg Prod.fst (h0.2.1 (NewInvalidRequestError "invalid ID format") exampleWorld
      (Prod.ext rfl rfl) rfl)
  · exact congrArg Prod.fst (h5.2.1 (.plain "connection refused")
      { worldCustomersDown with log := [.findOne .customers] } (Prod.ext rfl rfl) rfl)

/-- Reading an order that the store has, when the read goes through. -/
theorem GetByID_stored {id : ID} {w : World} {objectID : ObjectID} {doc : OrderDocument}
    (hid : ObjectIDFromHex id = .ok objectID) (hdoc : w.db.orders objectID = some doc)
    (hread : w.fail w.log.length (.findOne .orders) = none) :
    OrderRepository.GetByID id w =
      (.ok doc.ToDomain, { w with log := w.log ++ [.findOne .orders] }) := by
  unfold OrderRepository.GetByID BaseRepository.FindByID
  simp only [hid, World.call, hread, Option.map_none']
  have h : DB.orders w.db objectID = some doc := hdoc
  simp only [h]

/-- The first call of `UpdateStatusWithOutbox` for a well-formed id is the start
of a session. -/
theorem UpdateStatusWithOutbox_log {id : ID} {objectID : ObjectID}
    (status : OrderStatus) (event : OrderUpdateStatusEvent) (w : World)
    (hid : ObjectIDFromHex id = .ok objectID) :
    ∃ rest, (OrderRepository.UpdateStatusWithOutbox id status event w).2.log =
      w.log ++ .startSession :: rest := by
  unfold OrderRepository.UpdateStatusWithOutbox
  simp only [hid, World.call]
  cases w.fail w.log.length .startSession with
  | some msg => exact ⟨[], rfl⟩
  | none =>
    simp only [Option.map_none']
    obtain ⟨l, hl, _⟩ := (sessionWithTransaction_writes ()
      (OrderRepository.UpdateStatusWithOutbox.body objectID status event event.marshal)
      { w with log := w.log ++ [.startSession] }
      (updateBody_writes objectID status event event.marshal
        { w with log := w.log ++ [.startSession] })).log
    refine ⟨l, ?_⟩
    rw [hl]
    simp

/-- C25: for an order stored with status c whose read goes through and a valid
new status s: if s = c, UpdateOrderStatus returns UnprocessableEntity "order
already has this status" after that one read, with nothing written; if s ≠ c,
whatever the two statuses are, it hands the update to the store (the next call
is the start of the session) and returns what the store update returns, nil
when it succeeds. -/
theorem updateOrderStatus_any_different_status (id : ID) (status : OrderStatus) (w : World)
    (objectID : ObjectID) (doc : OrderDocument)
    (hid : ObjectIDFromHex id = .ok objectID) (hdoc : w.db.orders objectID = some doc)
    (hread : w.fail w.log.length (.findOne .orders) = none)
    (hvalid : OrderStatus.IsValid status = true) :
    (status = doc.Status →
      OrderService.UpdateOrderStatus id status w =
        (some (NewUnprocessableEntityError "order already has this status"),
          { w with log := w.log ++ [.findOne .orders] })) ∧
    (status ≠ doc.Status →
      (OrderService.UpdateOrderStatus id status w).1 =
        (OrderRepository.UpdateStatusWithOutbox id status
          (NewOrderUpdateStatusEvent id status doc.Status w.clock doc.CustomerID)
          { w with log := w.log ++ [.findOne .orders] }).1 ∧
      ∃ rest, (OrderService.UpdateOrderStatus id status w).2.log =
        w.log ++ [.findOne .orders, .startSession] ++ rest) := by
  have hget := GetByID_stored hid hdoc hread
  constructor
  · intro hs
    unfold OrderService.UpdateOrderStatus
    simp only [hvalid, Bool.not_true, Bool.false_eq_true, if_false, hget]
    rw [if_pos (show doc.ToDomain.Status = status from hs.symm)]
  · intro hs
    obtain ⟨rest, hlog⟩ := UpdateStatusWithOutbox_log status
      (NewOrderUpdateStatusEvent id status doc.Status w.clock doc.CustomerID)
      { w with log := w.log ++ [.findOne .orders] } hid
    unfold OrderService.UpdateOrderStatus
    simp only [hvalid, Bool.not_true, Bool.false_eq_true, if_false, hget]
    rw [if_neg (show ¬ doc.ToDomain.Status = status from fun h => hs h.symm)]
    have hev : NewOrderUpdateStatusEvent id status doc.ToDomain.Status w.clock
        doc.ToDomain.CustomerID =
          NewOrderUpdateStatusEvent id status doc.Status w.clock doc.CustomerID := rfl
    simp only [hev]
    rcases hu : OrderRepository.UpdateStatusWithOutbox id status
      (NewOrderUpdateStatusEvent id status doc.Status w.clock doc.CustomerID)
      { w with log := w.log ++ [.findOne .orders] } with ⟨r, w2⟩
    rw [hu] at hlog
    simp only at hlog
    cases r with
    | some err =>
      refine ⟨rfl, rest, ?_⟩
      simp only [hlog]
      simp
    | none =>
      refine ⟨rfl, rest ++ [.cacheSet .order], ?_⟩
      simp only [Set_order_world, hlog]
      simp

theorem updateOrderStatus_any_different_status_witness :
    (worldDelivered.db.orders oidOrderA).map (fun d => d.Status) = some "delivered" ∧
    (OrderService.UpdateOrderStatus oidOrderA "delivered" worldDelivered).1 =
      some (NewUnprocessableEntityError "order already has this status") ∧
    (OrderService.UpdateOrderStatus oidOrderA "created" worldDelivered).1 = none ∧
    ((OrderService.UpdateOrderStatus oidOrderA "created" worldDelivered).2.db.orders
      oidOrderA).map (fun d => d.Status) = some "created" := by
  have h := updateOrderStatus_any_different_status oidOrderA "delivered" worldDelivered
    oidOrderA _ rfl rfl rfl rfl
  have h2 := updateOrderStatus_any_different_status oidOrderA "created" worldDelivered
    oidOrderA _ rfl rfl rfl rfl
  refine ⟨rfl, congrArg Prod.fst (h.1 rfl), ?_, rfl⟩
  rw [(h2.2 (by decide)).1]
  rfl

theorem Get_order (key : String) (w : World) :
    RedisCache.Get orderCacheRef key w =
      (match w.fail w.log.length (.cacheGet .order) with
        | some msg => .error (.plain msg)
        | none => .ok ((w.orderCache key).map (fun c => c.value)),
       { w with log := w.log ++ [.cacheGet .order] }) := by
  unfold RedisCache.Get
  simp only [World.call, orderCacheRef]
  cases w.fail w.log.length (.cacheGet .order) <;> rfl

/-- C27: the cache key is "order:<id>" and the TTL 15 minutes.  When the cache
Get yields an order, GetOrderByID returns it after that one command, without a
read of the store.  Otherwise, on a miss and on a cache failure alike, it
returns what the store returns: its error, or its order, which it then writes
to the cache under the same key with that TTL, whether or not the write goes
through. -/
theorem getOrderByID_cache_then_store (orderID : ID) (w : World) :
    OrderService.getCacheKey orderID = "order:" ++ orderID ∧
    orderCacheTTL = 15 * Minute ∧
    (∀ cached w1,
      RedisCache.Get orderCacheRef ("order:" ++ orderID) w = (.ok (some cached), w1) →
      OrderService.GetOrderByID orderID w = (.ok cached, w1) ∧
        w1.log = w.log ++ [.cacheGet .order]) ∧
    (∀ r w1, RedisCache.Get orderCacheRef ("order:" ++ orderID) w = (r, w1) →
      (∀ cached, r ≠ .ok (some cached)) →
      (OrderService.GetOrderByID orderID w).1 = (OrderRepository.GetByID orderID w1).1 ∧
      (∀ err w2, OrderRepository.GetByID orderID w1 = (.error err, w2) →
        OrderService.GetOrderByID orderID w = (.error err, w2)) ∧
      (∀ order w2, OrderRepository.GetByID orderID w1 = (.ok order, w2) →
        OrderService.GetOrderByID orderID w =
          (.ok order,
            (RedisCache.Set orderCacheRef ("order:" ++ orderID) order (15 * Minute) w2).2) ∧
        (w2.fail w2.log.length (.cacheSet .order) = none →
          (OrderService.GetOrderByID orderID w).2.orderCache ("order:" ++ orderID) =
            some { value := order, ttl := 15 * Minute }))) := by
  refine ⟨rfl, rfl, ?_, ?_⟩
  · intro cached w1 h
    constructor
    · unfold OrderService.GetOrderByID
      simp only [OrderService.getCacheKey, h]
    · rw [Get_order] at h
      simp only [Prod.mk.injEq] at h
      rw [← h.2]
  · intro r w1 h hr
    have hmiss : OrderService.GetOrderByID orderID w =
        match OrderRepository.GetByID orderID w1 with
        | (.error err, w2) => (.error err, w2)
        | (.ok order, w2) =>
          (.ok order,
            (RedisCache.Set orderCacheRef ("order:" ++ orderID) order (15 * Minute) w2).2) := by
      unfold OrderService.GetOrderByID
      simp only [OrderService.getCacheKey, h]
      cases r with
      | error err => rfl
      | ok found =>
        cases found with
        | none => rfl
        | some cached => exact absurd rfl (hr cached)
    rw [hmiss]
    refine ⟨?_, ?_, ?_⟩
    · split <;> rename_i hg <;> rw [hg]
    · intro err w2 hg; rw [hg]
    · intro order w2 hg
      rw [hg]
      refine ⟨rfl, fun hset => ?_⟩
      simp only [Set_order, hset]
      exact setKey_same _ _ _

theorem getOrderByID_cache_then_store_witness :
    (OrderService.GetOrderByID oidOrderA worldWithOrder).1 = .ok orderA ∧
    (OrderService.GetOrderByID oidOrderA worldWithOrder).2.log =
      worldWithOrder.log ++ [.cacheGet .order, .findOne .orders, .cacheSet .order] ∧
    OrderService.GetOrderByID oidOrderA worldOrderCached =
      (.ok orderA, { worldOrderCached with log := worldOrderCached.log ++ [.cacheGet .order] }) ∧
    (OrderService.GetOrderByID oidOrderA worldOrderCacheDown).1 = .ok orderA := by
  have h := getOrderByID_cache_then_store oidOrderA worldOrderCached
  have h2 := getOrderByID_cache_then_store oidOrderA worldOrderCacheDown
  refine ⟨rfl, rfl, (h.2.2.1 orderA _ (Prod.ext rfl rfl)).1, ?_⟩
  rw [(h2.2.2.2 (.ok none) _ (Prod.ext rfl rfl) (by simp)).1]
  rfl

/-- What a successful `UpdateOrderStatus` has done: read the order, updated it
in the store (world `w2`), and ended with the cache write. -/
theorem UpdateOrderStatus_ok_shape {id : ID} {status : OrderStatus} {w w1 : World}
    (h : OrderService.UpdateOrderStatus id status w = (none, w1)) :
    ∃ objectID doc w2, ObjectIDFromHex id = .ok objectID ∧ w.db.orders objectID = some doc ∧
      w2.db.orders objectID = some { doc with Status := status, UpdatedAt := w.clock } ∧
      w2.orderCache = w.orderCache ∧ w2.fail = w.fail ∧
      w2.log = w.log ++ [.findOne .orders, .startSession, .updateOne .orders,
        .insertOne .outbox, .commit] ∧
      w1 = (RedisCache.Set orderCacheRef ("order:" ++ id)
        { doc.ToDomain with Status := status, UpdatedAt := w2.clock } orderCacheTTL w2).2 := by
  unfold OrderService.UpdateOrderStatus at h
  split at h
  · simp at h
  · split at h
    · simp at h
    · rename_i order w0 hg
      obtain ⟨oid, doc, hid, hdoc, hord⟩ := OrderRepository.GetByID_ok_order hg
      have hw0 := OrderRepository.GetByID_world_order hg
      split at h
      · simp at h
      · simp only at h
        split at h
        · simp at h
        · rename_i w2 hu
          simp only [Prod.mk.injEq, true_and] at h
          obtain ⟨oid2, doc2, hid2, hdoc2, ho, _, _, _, hl, _⟩ := UpdateStatusWithOutbox_ok hu
          have hwr := UpdateStatusWithOutbox_writes id status
            (NewOrderUpdateStatusEvent id status order.Status w0.clock order.CustomerID) w0
          rw [hu] at hwr
          rw [hid] at hid2
          simp only [Except.ok.injEq] at hid2
          subst hid2
          have hdb0 : w0.db = w.db := by rw [hw0]
          have hcl0 : w0.clock = w.clock := by rw [hw0]
          rw [hdb0, hdoc] at hdoc2
          simp only [Option.some.injEq] at hdoc2
          subst hdoc2
          refine ⟨oid, doc, w2, hid, hdoc, ?_, ?_, ?_, ?_, ?_⟩
          · rw [ho, setKey_same, hcl0]
          · rw [hwr.orderCache, hw0]
          · rw [hwr.fail, hw0]
          · rw [hl, hw0]; simp
          · rw [← h, hord]; rfl

theorem GetOrderByID_hit {orderID : ID} {w : World} {cached : Cached Order}
    (hc : w.orderCache ("order:" ++ orderID) = some cached)
    (hget : w.fail w.log.length (.cacheGet .order) = none) :
    (OrderService.GetOrderByID orderID w).1 = .ok cached.value := by
  unfold OrderService.GetOrderByID
  simp only [OrderService.getCacheKey, Get_order, hget, hc, Option.map_some']

theorem GetOrderByID_miss {orderID : ID} {w : World}
    (h : w.orderCache ("order:" ++ orderID) = none ∨
      w.fail w.log.length (.cacheGet .order) ≠ none) :
    (OrderService.GetOrderByID orderID w).1 =
      (OrderRepository.GetByID orderID { w with log := w.log ++ [.cacheGet .order] }).1 := by
  unfold OrderService.GetOrderByID
  simp only [OrderService.getCacheKey, Get_order]
  cases hf : w.fail w.log.length (.cacheGet .order) with
  | some msg =>
    simp only
    split <;> rename_i hg <;> rw [hg]
  | none =>
    rcases h with h | h
    · simp only [h, Option.map_none']
      split <;> rename_i hg <;> rw [hg]
    · exact absurd hf h

/-- C26 (amended): after UpdateOrderStatus(id, s) has returned nil, the next
GetOrderByID(id) returns the order with status s when the cache write went
through (and the cache can be read), and also when the cache holds no entry
under the key or cannot be read, provided the store can; but when the cache
write failed and an earlier copy of the order is still cached, that copy is
what GetOrderByID returns. -/
theorem getOrderByID_after_update (id : ID) (status : OrderStatus) (w w1 : World)
    (h : OrderService.UpdateOrderStatus id status w = (none, w1)) :
    (w1.fail (w1.log.length - 1) (.cacheSet .order) = none →
      w1.fail w1.log.length (.cacheGet .order) = none →
      ∃ order, (OrderService.GetOrderByID id w1).1 = .ok order ∧ order.Status = status) ∧
    ((w1.orderCache ("order:" ++ id) = none ∨
        w1.fail w1.log.length (.cacheGet .order) ≠ none) →
      w1.fail (w1.log.length + 1) (.findOne .orders) = none →
      ∃ order, (OrderService.GetOrderByID id w1).1 = .ok order ∧ order.Status = status) ∧
    (∀ stale, w1.fail (w1.log.length - 1) (.cacheSet .order) ≠ none →
      w.orderCache ("order:" ++ id) = some stale →
      w1.fail w1.log.length (.cacheGet .order) = none →
      (OrderService.GetOrderByID id w1).1 = .ok stale.value) := by
  obtain ⟨objectID, doc, w2, hid, hdoc, hdoc2, hcache, hfail, hlog, hw1⟩ :=
    UpdateOrderStatus_ok_shape h
  have hlen : w1.log.length - 1 = w2.log.length := by
    rw [hw1, (Set_order_world _ _ _ _).2]; simp
  have hf1 : w1.fail = w2.fail := by
    rw [hw1, Set_order]
    cases w2.fail w2.log.length (.cacheSet .order) <;> rfl
  have hdb1 : w1.db = w2.db := by rw [hw1, (Set_order_world _ _ _ _).1]
  refine ⟨?_, ?_, ?_⟩
  · intro hset hget
    rw [hlen, hf1] at hset
    have hc : w1.orderCache ("order:" ++ id) = some
        { value := { doc.ToDomain with Status := status, UpdatedAt := w2.clock },
          ttl := orderCacheTTL } := by
      rw [hw1, Set_order, hset]
      exact setKey_same _ _ _
    exact ⟨_, GetOrderByID_hit hc hget, rfl⟩
  · intro hmiss hread
    rw [GetOrderByID_miss hmiss]
    have hstored := GetByID_stored
      (w := { w1 with log := w1.log ++ [.cacheGet .order] }) hid
      (show w1.db.orders objectID = _ by rw [hdb1]; exact hdoc2)
      (by simpa using hread)
    rw [hstored]
    exact ⟨_, rfl, rfl⟩
  · intro stale hset hstale hget
    rw [hlen, hf1] at hset
    have hc : w1.orderCache ("order:" ++ id) = some stale := by
      rw [hw1, Set_order]
      cases hs : w2.fail w2.log.length (.cacheSet .order) with
      | none => exact absurd hs hset
      | some msg => simp only; rw [hcache]; exact hstale
    exact GetOrderByID_hit hc hget

/-- C26, as stated, fails: with the order cached with status created and the
cache write of the update failing, UpdateOrderStatus(id, processing) returns
nil, the store has the order as processing, and the next GetOrderByID(id)
returns the cached order with status created. -/
theorem getOrderByID_after_update_stale :
    (OrderService.UpdateOrderStatus oidOrderA "processing" worldCachedThenDown).1 = none ∧
    ((OrderService.UpdateOrderStatus oidOrderA "processing" worldCachedThenDown).2.db.orders
      oidOrderA).map (fun d => d.Status) = some "processing" ∧
    (OrderService.GetOrderByID oidOrderA
      (OrderService.UpdateOrderStatus oidOrderA "processing" worldCachedThenDown).2).1 =
        .ok orderA ∧
    orderA.Status = "created" :=
  ⟨rfl, rfl, rfl, rfl⟩

theorem getOrderByID_after_update_witness :
    (∃ order, (OrderService.GetOrderByID oidOrderA
        (OrderService.UpdateOrderStatus oidOrderA "processing" worldOrderCached).2).1 =
          .ok order ∧ order.Status = "processing") ∧
    (∃ order, (OrderService.GetOrderByID oidOrderA
        (OrderService.UpdateOrderStatus oidOrderA "processing" worldOrderCacheDown).2).1 =
          .ok order ∧ order.Status = "processing") :=
  ⟨(getOrderByID_after_update oidOrderA "processing" worldOrderCached _
      (Prod.ext rfl rfl)).1 rfl rfl,
   (getOrderByID_after_update oidOrderA "processing" worldOrderCacheDown _
      (Prod.ext rfl rfl)).2.1 (Or.inl rfl) rfl⟩

/-- C28: when the error is a ServiceError, or wraps one, HandleError answers with
the status of its kind (NotFound 404, Conflict 409, UnprocessableEntity 422,
InvalidRequest 400) and the body {error: message of the ServiceError}; for every
other error it answers 500 with the text of the error as the body. -/
theorem handleError_maps_kinds (err : GoError) :
    (∀ kind message, err.asService = some (kind, message) →
      HandleError err = { status := mapKindToHTTP kind, body := .error message }) ∧
    (err.asService = none →
      HandleError err = { status := 500, body := .error err.Error }) ∧
    (∀ kind message, (GoError.service kind message).asService = some (kind, message)) ∧
    (∀ pfx, (GoError.wrapped pfx err).asService = err.asService) ∧
    mapKindToHTTP .KindNotFound = 404 ∧ mapKindToHTTP .KindConflict = 409 ∧
    mapKindToHTTP .KindUnprocessableEntity = 422 ∧ mapKindToHTTP .KindInvalidRequest = 400 := by
  refine ⟨?_, ?_, fun _ _ => rfl, fun _ => rfl, rfl, rfl, rfl, rfl⟩
  · intro kind message h
    unfold HandleError
    rw [h]
  · intro h
    unfold HandleError
    rw [h]

theorem handleError_maps_kinds_witness :
    HandleError (NewNotFoundError "customer not found") =
      { status := 404, body := .error "customer not found" } ∧
    HandleError (.wrapped "lookup" (NewConflictError "duplicate key error")) =
      { status := 409, body := .error "duplicate key error" } ∧
    HandleError (.wrapped "idempotency claim failed" (.plain "redis down")) =
      { status := 500, body := .error "idempotency claim failed: redis down" } :=
  ⟨(handleError_maps_kinds (NewNotFoundError "customer not found")).1 _ _ rfl,
   (handleError_maps_kinds (.wrapped "lookup" (NewConflictError "duplicate key error"))).1
      _ _ rfl,
   (handleError_maps_kinds (.wrapped "idempotency claim failed" (.plain "redis down"))).2.1
      rfl⟩

theorem ValidateID_iff (id : String) : ValidateID id = true ↔ id.utf8ByteSize = 24 := by
  simp [ValidateID]

/-- A path id that is not 24 bytes long is answered with 400 by both order
endpoints that take an id. -/
theorem endpoints_reject_other_lengths (id : String) (h : id.utf8ByteSize ≠ 24)
    (bound : Except String String) (w : World) :
    OrderController.GetOrderByID id w =
      ({ status := 400, body := .error "Invalid order ID" }, w) ∧
    OrderController.UpdateOrderStatus id bound w =
      ({ status := 400, body := .error "Invalid order ID" }, w) := by
  have hv : ValidateID id = false := by
    simp [ValidateID, h]
  unfold OrderController.GetOrderByID OrderController.UpdateOrderStatus
  simp only [hv, Bool.not_false, if_true]
  exact ⟨rfl, rfl⟩

/-- C30 at the failing input: ValidateID accepts the 24-byte id
"zzzzzzzzzzzzzzzzzzzzzzzz", which is not hexadecimal; the store then refuses it
with the error of the hex decoder, which `parseError` leaves as it is, and both
order endpoints answer 500 and not 400. -/
theorem validateID_accepts_non_hex :
    ValidateID idNotHex = true ∧
    idNotHex.data.all isHexChar = false ∧
    (OrderController.GetOrderByID idNotHex exampleWorld).1.status = 500 ∧
    (OrderController.UpdateOrderStatus idNotHex (.ok "shipped") exampleWorld).1.status = 500 ∧
    (OrderService.GetOrderByID idNotHex exampleWorld).1 =
      .error (.plain "encoding/hex: invalid byte") :=
  ⟨by decide, by decide, rfl, rfl, rfl⟩

theorem ObjectIDFromHex_length {id : String} (h : id.utf8ByteSize ≠ 24) :
    ObjectIDFromHex id = .error ErrInvalidHex := by
  unfold ObjectIDFromHex
  rw [if_pos h]

theorem parseError_invalidHex : parseError ErrInvalidHex = NewInvalidRequestError "invalid ID format" := by
  decide

/-- An id that is not 24 bytes long is refused with InvalidRequest by every
store operation that takes an id, before any call to the store. -/
theorem store_rejects_other_lengths (id : ID) (h : id.utf8ByteSize ≠ 24) (w : World) :
    OrderRepository.GetByID id w =
      (.error (NewInvalidRequestError "invalid ID format"), w) ∧
    (∀ status event, OrderRepository.UpdateStatusWithOutbox id status event w =
      (some (NewInvalidRequestError "invalid ID format"), w)) ∧
    OrderRepository.Delete id w = (some (NewInvalidRequestError "invalid ID format"), w) ∧
    ProductRepository.GetByID id w =
      (.error (NewInvalidRequestError "invalid ID format"), w) ∧
    (∀ quantity, ProductRepository.DeductStock id quantity w =
      (some (NewInvalidRequestError "invalid ID format"), w)) ∧
    CustomerRepository.Exists id w =
      (.error (NewInvalidRequestError "invalid ID format"), w) ∧
    OutboxRepository.Delete id w = (some (NewInvalidRequestError "invalid ID format"), w) := by
  have hid := ObjectIDFromHex_length h
  have hp := parseError_invalidHex
  have hpp : parseError (NewInvalidRequestError "invalid ID format") =
      NewInvalidRequestError "invalid ID format" := by decide
  refine ⟨?_, ?_, ?_, ?_, ?_, ?_, ?_⟩
  · simp only [OrderRepository.GetByID, BaseRepository.FindByID, hid, hp]
  · intro status event
    simp only [OrderRepository.UpdateStatusWithOutbox, hid, hp]
  · simp only [OrderRepository.Delete, BaseRepository.DeleteByID, hid, hp]
  · simp only [ProductRepository.GetByID, BaseRepository.FindByID, hid, hp]
  · intro quantity
    simp only [ProductRepository.DeductStock, hid, hp]
  · simp only [CustomerRepository.Exists, BaseRepository.FindByID, hid, hp, hpp]
  · simp only [OutboxRepository.Delete, hid, hp]

/-- What the store operations answer for a well-formed id that no document has,
on an infrastructure where no call fails. -/
theorem store_answers_missing_document (id : ID) (objectID : ObjectID) (w : World)
    (hid : ObjectIDFromHex id = .ok objectID) (hfail : ∀ n c, w.fail n c = none) :
    (w.db.orders objectID = none →
      (OrderRepository.GetByID id w).1 = .error (NewNotFoundError "entity not found") ∧
      (∀ status event, (OrderRepository.UpdateStatusWithOutbox id status event w).1 =
        some (NewNotFoundError "entity not found")) ∧
      (OrderRepository.Delete id w).1 = some (NewNotFoundError "entity not found")) ∧
    (w.db.products objectID = none →
      (ProductRepository.GetByID id w).1 = .error (NewNotFoundError "entity not found") ∧
      (∀ quantity, (ProductRepository.DeductStock id quantity w).1 =
        some (NewUnprocessableEntityError ("insufficient stock for product " ++ id)))) ∧
    (w.db.customers objectID = none →
      (CustomerRepository.Exists id w).1 = .error (NewNotFoundError "entity not found")) ∧
    ((∀ d ∈ w.db.outbox, d.ID ≠ objectID) →
      (OutboxRepository.Delete id w).1 = none ∧
      (OutboxRepository.Delete id w).2.db = w.db) := by
  have hnf : parseError .errNoDocuments = NewNotFoundError "entity not found" := by decide
  have hnf2 : parseError (NewNotFoundError "entity not found") =
      NewNotFoundError "entity not found" := by decide
  refine ⟨?_, ?_, ?_, ?_⟩
  · intro hdoc
    have hd : DB.orders w.db objectID = none := hdoc
    refine ⟨?_, ?_, ?_⟩
    · simp only [OrderRepository.GetByID, BaseRepository.FindByID, hid, World.call, hfail,
        Option.map_none', hd, hnf]
    · intro status event
      simp only [OrderRepository.UpdateStatusWithOutbox, hid, World.call, hfail,
        Option.map_none', sessionWithTransaction, OrderRepository.UpdateStatusWithOutbox.body,
        hdoc]
    · simp only [OrderRepository.Delete, BaseRepository.DeleteByID, hid, World.call, hfail,
        Option.map_none', hd]
  · intro hdoc
    have hd : DB.products w.db objectID = none := hdoc
    refine ⟨?_, ?_⟩
    · simp only [ProductRepository.GetByID, BaseRepository.FindByID, hid, World.call, hfail,
        Option.map_none', hd, hnf]
    · intro quantity
      simp only [ProductRepository.DeductStock, hid, World.call, hfail, Option.map_none', hdoc]
  · intro hdoc
    have hd : DB.customers w.db objectID = none := hdoc
    simp only [CustomerRepository.Exists, BaseRepository.FindByID, hid, World.call, hfail,
      Option.map_none', hd, hnf, hnf2]
  · intro habsent
    have he : w.db.outbox.eraseP (fun d => d.ID == objectID) = w.db.outbox := by
      apply List.eraseP_of_forall_not
      intro d hd
      simpa using habsent d hd
    constructor
    · simp only [OutboxRepository.Delete, hid, World.call, hfail, Option.map_none']
    · simp only [OutboxRepository.Delete, hid, World.call, hfail, Option.map_none', he]

/-- An insert of an order whose generated id is already taken is a duplicate-key
write, answered with Conflict. -/
theorem Create_duplicate {order : Order} {w : World} {taken : OrderDocument}
    (hnew : order.ID = "") (hfail : ∀ n c, w.fail n c = none)
    (hdup : w.db.orders (ObjectID.ofNat (ToDocument order w).2.nextID) = some taken) :
    (OrderRepository.Create order w).1.1 = some (NewConflictError "duplicate key error") := by
  obtain ⟨n, hn, _⟩ := ToDocument_items_world order.Items w
  have hw : (ToDocument order w).2 = { w with nextID := n } := hn
  rw [hw] at hdup
  have hc : parseError (.duplicateKey "E11000 duplicate key error") =
      NewConflictError "duplicate key error" := by decide
  unfold OrderRepository.Create
  rw [if_neg (by rw [hnew]; decide)]
  simp only [hw, World.call, hfail, Option.map_none', World.newObjectID]
  have hd : w.db.orders (ObjectID.ofNat n) = some taken := hdup
  simp only [hd, hc]

/-- C29, as stated, fails: for a well-formed id that no document has,
DeductStock answers UnprocessableEntity "insufficient stock for product ..."
and the outbox Delete answers nil; neither is NotFound. -/
theorem deductStock_missing_product_unprocessable :
    ObjectIDFromHex idAbsent = .ok idAbsent ∧
    exampleWorld.db.products idAbsent = none ∧
    (ProductRepository.DeductStock idAbsent 1 exampleWorld).1 =
      some (NewUnprocessableEntityError
        "insufficient stock for product ffffffffffffffffffffffff") ∧
    IsOfKind (NewUnprocessableEntityError
      "insufficient stock for product ffffffffffffffffffffffff") .KindNotFound = false ∧
    (OutboxRepository.Delete idAbsent exampleWorld).1 = none :=
  ⟨rfl, rfl, rfl, rfl, rfl⟩

/-- C29 (amended): an id that is not 24 bytes long is refused with InvalidRequest
by every store operation that takes an id (order GetByID, UpdateStatusWithOutbox
and Delete, product GetByID and DeductStock, customer Exists, outbox Delete),
before any call to the store.  For a well-formed id that no document has, on an
infrastructure where no call fails, order GetByID, UpdateStatusWithOutbox and
Delete, product GetByID and customer Exists answer NotFound, DeductStock answers
UnprocessableEntity "insufficient stock for product <id>", and outbox Delete
answers nil and removes nothing.  A duplicate-key write error is mapped to
Conflict, as for the insert of an order whose generated id is taken. -/
theorem store_errors_by_id (id : ID) (w : World) :
    (id.utf8ByteSize ≠ 24 →
      OrderRepository.GetByID id w =
        (.error (NewInvalidRequestError "invalid ID format"), w) ∧
      (∀ status event, OrderRepository.UpdateStatusWithOutbox id status event w =
        (some (NewInvalidRequestError "invalid ID format"), w)) ∧
      OrderRepository.Delete id w = (some (NewInvalidRequestError "invalid ID format"), w) ∧
      ProductRepository.GetByID id w =
        (.error (NewInvalidRequestError "invalid ID format"), w) ∧
      (∀ quantity, ProductRepository.DeductStock id quantity w =
        (some (NewInvalidRequestError "invalid ID format"), w)) ∧
      CustomerRepository.Exists id w =
        (.error (NewInvalidRequestError "invalid ID format"), w) ∧
      OutboxRepository.Delete id w =
        (some (NewInvalidRequestError "invalid ID format"), w)) ∧
    (∀ objectID, ObjectIDFromHex id = .ok objectID → (∀ n c, w.fail n c = none) →
      (w.db.orders objectID = none →
        (OrderRepository.GetByID id w).1 = .error (NewNotFoundError "entity not found") ∧
        (∀ status event, (OrderRepository.UpdateStatusWithOutbox id status event w).1 =
          some (NewNotFoundError "entity not found")) ∧
        (OrderRepository.Delete id w).1 = some (NewNotFoundError "entity not found")) ∧
      (w.db.products objectID = none →
        (ProductRepository.GetByID id w).1 = .error (NewNotFoundError "entity not found") ∧
        (∀ quantity, (ProductRepository.DeductStock id quantity w).1 =
          some (NewUnprocessableEntityError ("insufficient stock for product " ++ id)))) ∧
      (w.db.customers objectID = none →
        (CustomerRepository.Exists id w).1 = .error (NewNotFoundError "entity not found")) ∧
      ((∀ d ∈ w.db.outbox, d.ID ≠ objectID) →
        (OutboxRepository.Delete id w).1 = none ∧
        (OutboxRepository.Delete id w).2.db = w.db)) ∧
    (∀ msg, parseError (.duplicateKey msg) = NewConflictError "duplicate key error") ∧
    (∀ (order : Order) (taken : OrderDocument), order.ID = "" →
      (∀ n c, w.fail n c = none) →
      w.db.orders (ObjectID.ofNat (ToDocument order w).2.nextID) = some taken →
      (OrderRepository.Create order w).1.1 = some (NewConflictError "duplicate key error")) :=
  ⟨fun h => store_rejects_other_lengths id h w,
   fun objectID hid hfail => store_answers_missing_document id objectID w hid hfail,
   fun _ => rfl,
   fun _ _ hnew hfail hdup => Create_duplicate hnew hfail hdup⟩

theorem store_errors_by_id_witness :
    OrderRepository.GetByID "nope" exampleWorld =
      (.error (NewInvalidRequestError "invalid ID format"), exampleWorld) ∧
    (OrderRepository.Delete idAbsent exampleWorld).1 =
      some (NewNotFoundError "entity not found") ∧
    (CustomerRepository.Exists idAbsent exampleWorld).1 =
      .error (NewNotFoundError "entity not found") :=
  have h := store_errors_by_id idAbsent exampleWorld
  ⟨((store_errors_by_id "nope" exampleWorld).1 (by decide)).1,
   ((h.2.1 idAbsent rfl (fun _ _ => rfl)).1 rfl).2.2,
   (h.2.1 idAbsent rfl (fun _ _ => rfl)).2.2.1 rfl⟩

/-- C23 at the failing inputs: a request for zero units and a request for minus
five units are both processed; CreateOrder returns and stores an order with
that quantity, and the negative one has a negative total and raises the stock
of the product from 50 to 55. -/
theorem createOrder_accepts_nonpositive_quantity :
    ((exampleService.CreateOrder exampleContext "" requestZero exampleWorld).1.toOption.map
      (fun order => (order.Items.map (fun item => item.Quantity), order.TotalAmount))) =
        some ([0], 0) ∧
    ((exampleService.CreateOrder exampleContext "" requestNegative exampleWorld).1.toOption.map
      (fun order => (order.Items.map (fun item => item.Quantity), order.TotalAmount))) =
        some ([-5], -14995) ∧
    (((exampleService.CreateOrder exampleContext "" requestNegative exampleWorld).2.db.orders
      oidOrderA).map (fun d => d.Items.map (fun item => item.Quantity))) = some [-5] ∧
    ((exampleService.CreateOrder exampleContext "" requestNegative exampleWorld).2.db.products
      pidA).map (fun d => d.Stock) = some 55 :=
  ⟨rfl, rfl, rfl, rfl⟩

/-- C4, as stated, fails: on an infrastructure where the cache write of Complete
fails, the first CreateOrder with the key `k1` returns the order (stock 50 to
47), the processing entry stays under the key, and the identical second call
returns no order: it polls and ends with the Conflict "idempotency key still
being processed, timed out".  The stock still shows the one deduction. -/
theorem createOrder_same_key_second_call_conflict :
    (exampleService.CreateOrder exampleContext "k1" requestA worldSetFails).1 = .ok orderA ∧
    (exampleService.CreateOrder exampleContext "k1" requestA worldAfterFailedComplete).1 =
      .error (NewConflictError "idempotency key still being processed, timed out") ∧
    (worldAfterFailedComplete.db.products pidA).map (fun d => d.Stock) = some 47 ∧
    ((exampleService.CreateOrder exampleContext "k1" requestA
      worldAfterFailedComplete).2.db.products pidA).map (fun d => d.Stock) = some 47 :=
  ⟨rfl, rfl, rfl, rfl⟩

end Challenge
